import Mathlib

/-!
# Typed node tree of libE57Format: leaf nodes

A shallow embedding of `src/src/E57FormatImpl.cpp` (Integer, ScaledInteger, Float,
String and Blob node implementations) together with the error codes of
`src/include/E57Exception.h`, and theorems about construction, type equivalence,
textual serialization and blob addressing.

Conventions of the embedding:

* `int64_t` values are `Int`, `uint64_t` and `size_t` values are `Nat`. Unsigned
  arithmetic that can wrap is written with an explicit `% 2 ^ 64`.
* a C++ exception is the `Except.error` of an `ErrorCode`; the context string of the
  exception is not modelled.
* `double` is the type `Double` below: NaN, the two infinities and the finite values,
  each finite value being named by the rational number it denotes. Comparisons and
  special values follow IEEE 754, and every arithmetic operation returns the binary64
  value nearest to the exact result, ties to even (`Double.ofRat`), each operation of
  an expression being rounded on its own. The two signed zeros are one value.
* `ustring` is a list of characters, and the output stream `CheckedFile` records the
  strings written to it in order.
-/

namespace e57

/-! ## Error codes (E57Exception.h) -/

/-- The enumeration `ErrorCode` of E57Exception.h, with the names of the source. -/
inductive ErrorCode where
  | E57_SUCCESS
  | E57_ERROR_BAD_CV_HEADER
  | E57_ERROR_BAD_CV_PACKET
  | E57_ERROR_CHILD_INDEX_OUT_OF_BOUNDS
  | E57_ERROR_SET_TWICE
  | E57_ERROR_HOMOGENEOUS_VIOLATION
  | E57_ERROR_VALUE_NOT_REPRESENTABLE
  | E57_ERROR_SCALED_VALUE_NOT_REPRESENTABLE
  | E57_ERROR_REAL64_TOO_LARGE
  | E57_ERROR_EXPECTING_NUMERIC
  | E57_ERROR_EXPECTING_USTRING
  | E57_ERROR_INTERNAL
  | E57_ERROR_BAD_XML_FORMAT
  | E57_ERROR_XML_PARSER
  | E57_ERROR_BAD_API_ARGUMENT
  | E57_ERROR_FILE_IS_READ_ONLY
  | E57_ERROR_BAD_CHECKSUM
  | E57_ERROR_OPEN_FAILED
  | E57_ERROR_CLOSE_FAILED
  | E57_ERROR_READ_FAILED
  | E57_ERROR_WRITE_FAILED
  | E57_ERROR_LSEEK_FAILED
  | E57_ERROR_PATH_UNDEFINED
  | E57_ERROR_BAD_BUFFER
  | E57_ERROR_NO_BUFFER_FOR_ELEMENT
  | E57_ERROR_BUFFER_SIZE_MISMATCH
  | E57_ERROR_BUFFER_DUPLICATE_PATHNAME
  | E57_ERROR_BAD_FILE_SIGNATURE
  | E57_ERROR_UNKNOWN_FILE_VERSION
  | E57_ERROR_BAD_FILE_LENGTH
  | E57_ERROR_XML_PARSER_INIT
  | E57_ERROR_DUPLICATE_NAMESPACE_PREFIX
  | E57_ERROR_DUPLICATE_NAMESPACE_URI
  | E57_ERROR_BAD_PROTOTYPE
  | E57_ERROR_BAD_CODECS
  | E57_ERROR_VALUE_OUT_OF_BOUNDS
  | E57_ERROR_CONVERSION_REQUIRED
  | E57_ERROR_BAD_PATH_NAME
  | E57_ERROR_NOT_IMPLEMENTED
  | E57_ERROR_BAD_NODE_DOWNCAST
  | E57_ERROR_WRITER_NOT_OPEN
  | E57_ERROR_READER_NOT_OPEN
  | E57_ERROR_NODE_UNATTACHED
  | E57_ERROR_ALREADY_HAS_PARENT
  | E57_ERROR_DIFFERENT_DEST_IMAGEFILE
  | E57_ERROR_IMAGEFILE_NOT_OPEN
  | E57_ERROR_BUFFERS_NOT_COMPATIBLE
  | E57_ERROR_TOO_MANY_WRITERS
  | E57_ERROR_TOO_MANY_READERS
  | E57_ERROR_BAD_CONFIGURATION
  | E57_ERROR_INVARIANCE_VIOLATION
  deriving DecidableEq, Repr

/-- Modelled from the spec: the node kinds returned by `type()`. The enumeration is
declared in E57Format.h, which is not among the sources; the leaf kinds are the five
of E57FormatImpl.cpp and the container kinds are those named by the spec. -/
inductive NodeType where
  | E57_STRUCTURE
  | E57_VECTOR
  | E57_COMPRESSED_VECTOR
  | E57_INTEGER
  | E57_SCALED_INTEGER
  | E57_FLOAT
  | E57_STRING
  | E57_BLOB
  deriving DecidableEq, Repr

/-- Modelled from the spec: the precision of a Float node, single or double
(declared in E57Format.h, which is not among the sources). -/
inductive FloatPrecision where
  | E57_SINGLE
  | E57_DOUBLE
  deriving DecidableEq, Repr

/-! ## The type `double` -/

/-- A C++ `double`: NaN, minus infinity, a finite value, plus infinity. The two signed
zeros are the single value `fin 0` (they compare equal under every C++ operator). -/
inductive Double where
  | nan
  | negInf
  | fin (q : ℚ)
  | posInf
  deriving DecidableEq

namespace Double

/-- The C++ operator `a < b` on doubles: false as soon as an operand is NaN. -/
def lt : Double → Double → Bool
  | nan, _ => false
  | _, nan => false
  | negInf, negInf => false
  | negInf, _ => true
  | fin _, negInf => false
  | fin a, fin b => decide (a < b)
  | fin _, posInf => true
  | posInf, _ => false

/-- The C++ operator `a > b` on doubles. -/
def gt (a b : Double) : Bool := lt b a

/-- The C++ operator `a <= b` on doubles: false as soon as an operand is NaN. -/
def le : Double → Double → Bool
  | nan, _ => false
  | _, nan => false
  | negInf, _ => true
  | fin _, negInf => false
  | fin a, fin b => decide (a ≤ b)
  | fin _, posInf => true
  | posInf, posInf => true
  | posInf, _ => false

/-- The C++ operator `a != b` on doubles: true as soon as an operand is NaN. -/
def ne : Double → Double → Bool
  | nan, _ => true
  | _, nan => true
  | negInf, negInf => false
  | fin a, fin b => decide (a ≠ b)
  | posInf, posInf => false
  | _, _ => true

/-- The C++ operator `a == b` on doubles. -/
def eq (a b : Double) : Bool := !(ne a b)

/-- Unary minus. -/
def neg : Double → Double
  | nan => nan
  | negInf => posInf
  | fin a => fin (-a)
  | posInf => negInf

/-- The greatest finite binary64 value, `(2^53 - 1) * 2^971`. -/
def maxFinite : ℚ := ((2 : ℚ) ^ 53 - 1) * (2 : ℚ) ^ 971

/-- Rounding of a rational to the nearest integer, a tie going to the even neighbour. -/
def roundHalfEven (x : ℚ) : ℤ :=
  if x - (⌊x⌋ : ℤ) < 1 / 2 then ⌊x⌋
  else if 1 / 2 < x - (⌊x⌋ : ℤ) then ⌊x⌋ + 1
  else if ⌊x⌋ % 2 = 0 then ⌊x⌋ else ⌊x⌋ + 1

/-- The exponent of the unit in the last place of binary64 at magnitude `a > 0`: with
`2^k <= a < 2^(k+1)` the 53-bit significand ends at `2^(k-52)`, and never below the
subnormal spacing `2^(-1074)`. -/
def ulpExponent (a : ℚ) : ℤ := max (Int.log 2 a - 52) (-1074)

/-- The multiple of the unit in the last place that is nearest to the magnitude `a`,
ties to the even significand. -/
def roundMagnitude (a : ℚ) : ℚ :=
  (roundHalfEven (a / (2 : ℚ) ^ ulpExponent a) : ℚ) * (2 : ℚ) ^ ulpExponent a

/-- The binary64 value of a real result, as IEEE 754 round-to-nearest-even delivers it:
the magnitude is rounded and the sign kept, and a rounded magnitude above the greatest
finite value gives an infinity. -/
def ofRat (q : ℚ) : Double :=
  if q = 0 then fin 0
  else if maxFinite < roundMagnitude |q| then (if 0 < q then posInf else negInf)
  else if 0 < q then fin (roundMagnitude |q|)
  else fin (-roundMagnitude |q|)

/-- The C++ operator `a + b` on doubles: the exact sum of finite operands, rounded. -/
def add : Double → Double → Double
  | nan, _ => nan
  | _, nan => nan
  | negInf, posInf => nan
  | posInf, negInf => nan
  | negInf, _ => negInf
  | posInf, _ => posInf
  | fin _, negInf => negInf
  | fin _, posInf => posInf
  | fin a, fin b => ofRat (a + b)

/-- The C++ operator `a - b` on doubles. -/
def sub (a b : Double) : Double := add a (neg b)

/-- The C++ operator `a * b` on doubles: the exact product of finite operands, rounded. -/
def mul : Double → Double → Double
  | nan, _ => nan
  | _, nan => nan
  | fin a, fin b => ofRat (a * b)
  | fin a, posInf => if a = 0 then nan else if 0 < a then posInf else negInf
  | fin a, negInf => if a = 0 then nan else if 0 < a then negInf else posInf
  | posInf, fin b => if b = 0 then nan else if 0 < b then posInf else negInf
  | negInf, fin b => if b = 0 then nan else if 0 < b then negInf else posInf
  | posInf, posInf => posInf
  | negInf, negInf => posInf
  | posInf, negInf => negInf
  | negInf, posInf => negInf

/-- The C++ operator `a / b` on doubles: the exact quotient of finite operands,
rounded. A zero divisor gives NaN for a zero dividend and otherwise an infinity, whose
sign is that of the dividend for the divisor `+0.0` (the zero of this type) and the
opposite one for `-0.0`. -/
def div : Double → Double → Double
  | nan, _ => nan
  | _, nan => nan
  | fin x, fin y =>
    if y = 0 then (if x = 0 then nan else if 0 < x then posInf else negInf)
    else ofRat (x / y)
  | fin _, _ => fin 0
  | posInf, fin y => if 0 ≤ y then posInf else negInf
  | negInf, fin y => if 0 ≤ y then negInf else posInf
  | _, _ => nan

/-- The function `floor` of cmath. -/
def floor : Double → Double
  | fin a => fin (⌊a⌋ : ℤ)
  | d => d

/-- The conversion `static_cast<int64_t>( d )`: the value truncated toward zero. When
the truncated value is not an `int64_t`, and for NaN and the infinities, the C++
standard leaves the behaviour undefined and compiled code delivers a value that
depends on the platform; that case is `none`. -/
def toInt64 : Double → Option Int
  | fin a =>
    let t : Int := if 0 ≤ a then ⌊a⌋ else ⌈a⌉
    if -(2 : Int) ^ 63 ≤ t ∧ t < (2 : Int) ^ 63 then some t else none
  | _ => none

/-- The implicit conversion of an `int64_t` to `double`: the nearest binary64 value. -/
def ofInt64 (i : Int) : Double := ofRat (i : ℚ)

end Double

/-- Modelled from the spec: `E57_INT64_MIN`, the least 64-bit signed integer
(declared in E57Format.h, which is not among the sources). -/
def E57_INT64_MIN : Int := -(2 : Int) ^ 63

/-- Modelled from the spec: `E57_INT64_MAX`, the greatest 64-bit signed integer
(declared in E57Format.h, which is not among the sources). -/
def E57_INT64_MAX : Int := (2 : Int) ^ 63 - 1

/-- Modelled from the spec: `E57_FLOAT_MAX`, the greatest finite single-precision
value `(2^24 - 1) * 2^104` (declared in E57Format.h, which is not among the sources). -/
def E57_FLOAT_MAX : Double := Double.fin (((2 : ℚ) ^ 24 - 1) * (2 : ℚ) ^ 104)

/-- Modelled from the spec: `E57_FLOAT_MIN`, the least finite single-precision value. -/
def E57_FLOAT_MIN : Double := Double.fin (-(((2 : ℚ) ^ 24 - 1) * (2 : ℚ) ^ 104))

/-- Modelled from the spec: `E57_DOUBLE_MAX`, the greatest finite double-precision
value `(2^53 - 1) * 2^971` (declared in E57Format.h, which is not among the sources). -/
def E57_DOUBLE_MAX : Double := Double.fin (((2 : ℚ) ^ 53 - 1) * (2 : ℚ) ^ 971)

/-- Modelled from the spec: `E57_DOUBLE_MIN`, the least finite double-precision value. -/
def E57_DOUBLE_MIN : Double := Double.fin (-(((2 : ℚ) ^ 53 - 1) * (2 : ℚ) ^ 971))

/-! ## Strings, the output stream and the file session -/

/-- The type `ustring` of the library: a string of characters. -/
abbrev ustring := List Char

/-- An operation issued to the byte stream of a `CheckedFile`. -/
inductive FileOp where
  | seek (offset : Nat)
  | read (count : Nat)
  | write (count : Nat)
  | writeHeader (sectionLogicalLength : Nat) (count : Nat)
  | allocate (byteCount : Nat) (zeroFill : Bool)
  deriving DecidableEq, Repr

/-- Modelled from the spec: the checksummed byte stream `CheckedFile` (CheckedFile.h is
not among the sources), as far as the nodes use it: the text written with `<<`, one
entry per call and in order, and the positioned transfers issued with `seek`, `read`
and `write`, in order. -/
structure CheckedFile where
  text : List ustring
  ops : List FileOp
  deriving DecidableEq, Repr

namespace CheckedFile

/-- The call `cf << s`. -/
def put (cf : CheckedFile) (s : ustring) : CheckedFile := { cf with text := cf.text ++ [s] }

/-- The call `file->seek( offset )`. -/
def seek (cf : CheckedFile) (offset : Nat) : CheckedFile :=
  { cf with ops := cf.ops ++ [FileOp.seek offset] }

/-- The call `file->read( buf, count )`. -/
def read (cf : CheckedFile) (count : Nat) : CheckedFile :=
  { cf with ops := cf.ops ++ [FileOp.read count] }

/-- The call `file->write( buf, count )` from a caller buffer. -/
def write (cf : CheckedFile) (count : Nat) : CheckedFile :=
  { cf with ops := cf.ops ++ [FileOp.write count] }

/-- The call `file->write( &header, sizeof( header ) )` of a `BlobSectionHeader` whose
field `sectionLogicalLength` has the given value. -/
def writeHeader (cf : CheckedFile) (sectionLogicalLength count : Nat) : CheckedFile :=
  { cf with ops := cf.ops ++ [FileOp.writeHeader sectionLogicalLength count] }

/-- All the characters written so far. -/
def contents (cf : CheckedFile) : ustring := cf.text.flatten

end CheckedFile

/-- Modelled from the spec: the file session `ImageFileImpl` (ImageFileImpl.h is not
among the sources), as far as the nodes use it: whether it is open, whether it is a
writer, and its byte stream `file_`. -/
structure ImageFileImpl where
  isOpen : Bool
  isWriter : Bool
  file_ : CheckedFile
  unusedLogicalStart_ : Nat
  deriving DecidableEq, Repr

/-- Modelled from the spec: `ImageFileImpl::allocateSpace( byteCount, doExtendNow )`
(ImageFileImpl.cpp is not among the sources): reserves `byteCount` logical bytes at an
offset the session chooses, here the first unused one, and returns that offset. The
request, with its zero-fill flag, is recorded among the operations of the stream. -/
def ImageFileImpl.allocateSpace (imf : ImageFileImpl) (byteCount : Nat) (doExtendNow : Bool) :
    Nat × ImageFileImpl :=
  (imf.unusedLogicalStart_,
    { imf with
      unusedLogicalStart_ := (imf.unusedLogicalStart_ + byteCount) % 2 ^ 64,
      file_ := { imf.file_ with ops := imf.file_.ops ++ [FileOp.allocate byteCount doExtendNow] } })

/-- The conversion `static_cast<uint64_t>( i )` of an `int64_t`. -/
def toUInt64 (i : Int) : Nat := (i % (2 : Int) ^ 64).toNat

/-- Modelled from the spec: the helper `space( n )` (Common.h is not among the
sources): the indentation, `n` blanks. -/
def space (n : Nat) : ustring := List.replicate n ' '

/-- Modelled from the spec: the text `cf << i` writes for an `int64_t`, its decimal
value (the operator is declared in CheckedFile.h, which is not among the sources). -/
def toDecimal (i : Int) : ustring :=
  if i < 0 then '-' :: Nat.toDigits 10 i.natAbs else Nat.toDigits 10 i.toNat

/-! ## Nodes -/

/-- The base class `NodeImpl` (NodeImpl.h is not among the sources), as far as the leaf
nodes use it: the element name and the attachment flag. -/
structure NodeImpl where
  elementName_ : ustring
  isAttached_ : Bool
  deriving DecidableEq, Repr

/-- Modelled from the spec: `NodeImpl::checkImageFileOpen` (NodeImpl.cpp is not among
the sources): every guarded operation first asks the owning file session whether it is
still open, and fails with the session-closed error otherwise. -/
def checkImageFileOpen (imf : ImageFileImpl) : Except ErrorCode Unit :=
  if imf.isOpen then Except.ok () else Except.error ErrorCode.E57_ERROR_IMAGEFILE_NOT_OPEN

/-- The class `IntegerNodeImpl`. -/
structure IntegerNodeImpl extends NodeImpl where
  value_ : Int
  minimum_ : Int
  maximum_ : Int
  deriving DecidableEq, Repr

/-- The class `ScaledIntegerNodeImpl`. -/
structure ScaledIntegerNodeImpl extends NodeImpl where
  value_ : Int
  minimum_ : Int
  maximum_ : Int
  scale_ : Double
  offset_ : Double
  deriving DecidableEq

/-- The class `FloatNodeImpl`. -/
structure FloatNodeImpl extends NodeImpl where
  value_ : Double
  precision_ : FloatPrecision
  minimum_ : Double
  maximum_ : Double
  deriving DecidableEq

/-- The class `StringNodeImpl`. -/
structure StringNodeImpl extends NodeImpl where
  value_ : ustring
  deriving DecidableEq, Repr

/-- The class `BlobNodeImpl`; its three fields are `uint64_t`. -/
structure BlobNodeImpl extends NodeImpl where
  blobLogicalLength_ : Nat
  binarySectionLogicalStart_ : Nat
  binarySectionLogicalLength_ : Nat
  deriving DecidableEq, Repr

/-- A node behind a `NodeImplSharedPtr`: one of the five leaf classes of
E57FormatImpl.cpp, or a container (Structure, Vector, CompressedVector), of which only
the base part is kept here. -/
inductive Node where
  | integer (n : IntegerNodeImpl)
  | scaledInteger (n : ScaledIntegerNodeImpl)
  | float (n : FloatNodeImpl)
  | string (n : StringNodeImpl)
  | blob (n : BlobNodeImpl)
  | structure (n : NodeImpl)
  | vector (n : NodeImpl)
  | compressedVector (n : NodeImpl)
  deriving DecidableEq

/-- The virtual method `type()`. -/
def Node.type : Node → NodeType
  | Node.integer _ => NodeType.E57_INTEGER
  | Node.scaledInteger _ => NodeType.E57_SCALED_INTEGER
  | Node.float _ => NodeType.E57_FLOAT
  | Node.string _ => NodeType.E57_STRING
  | Node.blob _ => NodeType.E57_BLOB
  | Node.structure _ => NodeType.E57_STRUCTURE
  | Node.vector _ => NodeType.E57_VECTOR
  | Node.compressedVector _ => NodeType.E57_COMPRESSED_VECTOR

/-- Whether a node is one of the five leaf kinds. -/
def Node.isLeaf : Node → Bool
  | Node.structure _ => false
  | Node.vector _ => false
  | Node.compressedVector _ => false
  | _ => true

/-! ## IntegerNodeImpl -/

/-- The constructor `IntegerNodeImpl::IntegerNodeImpl`. The base-class constructor
`NodeImpl( destImageFile )` runs first and is not among the sources: `base` is the
base part it has built. -/
def IntegerNodeImpl.new (base : NodeImpl) (value minimum maximum : Int) :
    Except ErrorCode IntegerNodeImpl :=
  if value < minimum ∨ maximum < value then
    Except.error ErrorCode.E57_ERROR_VALUE_OUT_OF_BOUNDS
  else
    Except.ok { toNodeImpl := base, value_ := value, minimum_ := minimum, maximum_ := maximum }

/-- The method `IntegerNodeImpl::isTypeEquivalent`. -/
def IntegerNodeImpl.isTypeEquivalent (self : IntegerNodeImpl) (ni : Node) : Bool :=
  match ni with
  | Node.integer ii =>
    if self.minimum_ ≠ ii.minimum_ then false
    else if self.maximum_ ≠ ii.maximum_ then false
    else true
  | _ => false

/-- The method `IntegerNodeImpl::isDefined`. -/
def IntegerNodeImpl.isDefined (_self : IntegerNodeImpl) (pathName : ustring) : Bool :=
  pathName.isEmpty

/-- The accessor `IntegerNodeImpl::value`. -/
def IntegerNodeImpl.value (self : IntegerNodeImpl) (imf : ImageFileImpl) : Except ErrorCode Int := do
  checkImageFileOpen imf
  return self.value_

/-- The accessor `IntegerNodeImpl::minimum`. -/
def IntegerNodeImpl.minimum (self : IntegerNodeImpl) (imf : ImageFileImpl) : Except ErrorCode Int := do
  checkImageFileOpen imf
  return self.minimum_

/-- The accessor `IntegerNodeImpl::maximum`. -/
def IntegerNodeImpl.maximum (self : IntegerNodeImpl) (imf : ImageFileImpl) : Except ErrorCode Int := do
  checkImageFileOpen imf
  return self.maximum_

/-- The first statements of every `writeXml`: the field name is `forcedFieldName` when
that is not the null pointer, and `elementName_` otherwise. -/
def fieldNameOf (base : NodeImpl) (forcedFieldName : Option ustring) : ustring :=
  match forcedFieldName with
  | some f => f
  | none => base.elementName_

/-- The method `IntegerNodeImpl::checkLeavesInSet`. The calls `relativePathName( origin )`
and `pathName()` are methods of `NodeImpl`, not among the sources; their results are the
arguments `relativePathName` and `pathName`. The set `pathNames` is listed. -/
def IntegerNodeImpl.checkLeavesInSet (_self : IntegerNodeImpl) (pathNames : List ustring)
    (relativePathName _pathName : ustring) : Except ErrorCode Unit :=
  if ¬ relativePathName ∈ pathNames then
    Except.error ErrorCode.E57_ERROR_NO_BUFFER_FOR_ELEMENT
  else Except.ok ()

/-- The method `IntegerNodeImpl::writeXml`. -/
def IntegerNodeImpl.writeXml (self : IntegerNodeImpl) (cf : CheckedFile) (indent : Nat)
    (forcedFieldName : Option ustring) : CheckedFile :=
  let fieldName : ustring := fieldNameOf self.toNodeImpl forcedFieldName
  let cf := (((cf.put (space indent)).put "<".toList).put fieldName).put " type=\"Integer\"".toList
  let cf :=
    if self.minimum_ ≠ E57_INT64_MIN then
      ((cf.put " minimum=\"".toList).put (toDecimal self.minimum_)).put "\"".toList
    else cf
  let cf :=
    if self.maximum_ ≠ E57_INT64_MAX then
      ((cf.put " maximum=\"".toList).put (toDecimal self.maximum_)).put "\"".toList
    else cf
  if self.value_ ≠ 0 then
    ((((cf.put ">".toList).put (toDecimal self.value_)).put "</".toList).put fieldName).put ">\n".toList
  else
    cf.put "/>\n".toList

/-! ## ScaledIntegerNodeImpl -/

/-- The constructor of `ScaledIntegerNodeImpl` from a raw value and raw bounds. -/
def ScaledIntegerNodeImpl.newRaw (base : NodeImpl) (rawValue minimum maximum : Int)
    (scale offset : Double) : Except ErrorCode ScaledIntegerNodeImpl :=
  if rawValue < minimum ∨ maximum < rawValue then
    Except.error ErrorCode.E57_ERROR_VALUE_OUT_OF_BOUNDS
  else
    Except.ok { toNodeImpl := base, value_ := rawValue, minimum_ := minimum,
                maximum_ := maximum, scale_ := scale, offset_ := offset }

/-- The expression `static_cast<int64_t>( floor( ( scaled - offset ) / scale + .5 ) )` of
the member initializers, each operation in double arithmetic; `none` is the undefined
behaviour of the cast. -/
def ScaledIntegerNodeImpl.toRaw (scaled scale offset : Double) : Option Int :=
  Double.toInt64
    (Double.floor (Double.add (Double.div (Double.sub scaled offset) scale) (Double.fin (1 / 2))))

/-- The constructor of `ScaledIntegerNodeImpl` from a scaled value and scaled bounds.
The member initializers run first (`none` when one of them is undefined behaviour),
then the body checks the scaled arguments. -/
def ScaledIntegerNodeImpl.newScaled (base : NodeImpl)
    (scaledValue scaledMinimum scaledMaximum scale offset : Double) :
    Option (Except ErrorCode ScaledIntegerNodeImpl) := do
  let value_ ← ScaledIntegerNodeImpl.toRaw scaledValue scale offset
  let minimum_ ← ScaledIntegerNodeImpl.toRaw scaledMinimum scale offset
  let maximum_ ← ScaledIntegerNodeImpl.toRaw scaledMaximum scale offset
  if Double.lt scaledValue scaledMinimum || Double.lt scaledMaximum scaledValue then
    some (Except.error ErrorCode.E57_ERROR_VALUE_OUT_OF_BOUNDS)
  else
    some (Except.ok { toNodeImpl := base, value_ := value_, minimum_ := minimum_,
                      maximum_ := maximum_, scale_ := scale, offset_ := offset })

/-- The method `ScaledIntegerNodeImpl::isTypeEquivalent`. -/
def ScaledIntegerNodeImpl.isTypeEquivalent (self : ScaledIntegerNodeImpl) (ni : Node) : Bool :=
  match ni with
  | Node.scaledInteger ii =>
    if self.minimum_ ≠ ii.minimum_ then false
    else if self.maximum_ ≠ ii.maximum_ then false
    else if Double.ne self.scale_ ii.scale_ then false
    else if Double.ne self.offset_ ii.offset_ then false
    else true
  | _ => false

/-- The method `ScaledIntegerNodeImpl::isDefined`. -/
def ScaledIntegerNodeImpl.isDefined (_self : ScaledIntegerNodeImpl) (pathName : ustring) : Bool :=
  pathName.isEmpty

/-- The accessor `ScaledIntegerNodeImpl::rawValue`. -/
def ScaledIntegerNodeImpl.rawValue (self : ScaledIntegerNodeImpl) (imf : ImageFileImpl) :
    Except ErrorCode Int := do
  checkImageFileOpen imf
  return self.value_

/-- The accessor `ScaledIntegerNodeImpl::scaledValue`. -/
def ScaledIntegerNodeImpl.scaledValue (self : ScaledIntegerNodeImpl) (imf : ImageFileImpl) :
    Except ErrorCode Double := do
  checkImageFileOpen imf
  return Double.add (Double.mul (Double.ofInt64 self.value_) self.scale_) self.offset_

/-- The accessor `ScaledIntegerNodeImpl::minimum`. -/
def ScaledIntegerNodeImpl.minimum (self : ScaledIntegerNodeImpl) (imf : ImageFileImpl) :
    Except ErrorCode Int := do
  checkImageFileOpen imf
  return self.minimum_

/-- The accessor `ScaledIntegerNodeImpl::scaledMinimum`. -/
def ScaledIntegerNodeImpl.scaledMinimum (self : ScaledIntegerNodeImpl) (imf : ImageFileImpl) :
    Except ErrorCode Double := do
  checkImageFileOpen imf
  return Double.add (Double.mul (Double.ofInt64 self.minimum_) self.scale_) self.offset_

/-- The accessor `ScaledIntegerNodeImpl::maximum`. -/
def ScaledIntegerNodeImpl.maximum (self : ScaledIntegerNodeImpl) (imf : ImageFileImpl) :
    Except ErrorCode Int := do
  checkImageFileOpen imf
  return self.maximum_

/-- The accessor `ScaledIntegerNodeImpl::scaledMaximum`. -/
def ScaledIntegerNodeImpl.scaledMaximum (self : ScaledIntegerNodeImpl) (imf : ImageFileImpl) :
    Except ErrorCode Double := do
  checkImageFileOpen imf
  return Double.add (Double.mul (Double.ofInt64 self.maximum_) self.scale_) self.offset_

/-- The accessor `ScaledIntegerNodeImpl::scale`. -/
def ScaledIntegerNodeImpl.scale (self : ScaledIntegerNodeImpl) (imf : ImageFileImpl) :
    Except ErrorCode Double := do
  checkImageFileOpen imf
  return self.scale_

/-- The accessor `ScaledIntegerNodeImpl::offset`. -/
def ScaledIntegerNodeImpl.offset (self : ScaledIntegerNodeImpl) (imf : ImageFileImpl) :
    Except ErrorCode Double := do
  checkImageFileOpen imf
  return self.offset_

/-- The method `ScaledIntegerNodeImpl::checkLeavesInSet` (arguments as for Integer). -/
def ScaledIntegerNodeImpl.checkLeavesInSet (_self : ScaledIntegerNodeImpl)
    (pathNames : List ustring) (relativePathName _pathName : ustring) : Except ErrorCode Unit :=
  if ¬ relativePathName ∈ pathNames then
    Except.error ErrorCode.E57_ERROR_NO_BUFFER_FOR_ELEMENT
  else Except.ok ()

/-! ## FloatNodeImpl -/

/-- The constructor `FloatNodeImpl::FloatNodeImpl`: the members are initialised from the
arguments, the stored bounds are narrowed for single precision, and the check
compares the arguments `value`, `minimum` and `maximum`. -/
def FloatNodeImpl.new (base : NodeImpl) (value : Double) (precision : FloatPrecision)
    (minimum maximum : Double) : Except ErrorCode FloatNodeImpl :=
  let minimum_ : Double :=
    if precision = FloatPrecision.E57_SINGLE then
      if Double.lt minimum E57_FLOAT_MIN then E57_FLOAT_MIN else minimum
    else minimum
  let maximum_ : Double :=
    if precision = FloatPrecision.E57_SINGLE then
      if Double.gt maximum E57_FLOAT_MAX then E57_FLOAT_MAX else maximum
    else maximum
  if Double.lt value minimum || Double.lt maximum value then
    Except.error ErrorCode.E57_ERROR_VALUE_OUT_OF_BOUNDS
  else
    Except.ok { toNodeImpl := base, value_ := value, precision_ := precision,
                minimum_ := minimum_, maximum_ := maximum_ }

/-- The method `FloatNodeImpl::isTypeEquivalent`. -/
def FloatNodeImpl.isTypeEquivalent (self : FloatNodeImpl) (ni : Node) : Bool :=
  match ni with
  | Node.float fi =>
    if self.precision_ ≠ fi.precision_ then false
    else if Double.ne self.minimum_ fi.minimum_ then false
    else if Double.ne self.maximum_ fi.maximum_ then false
    else true
  | _ => false

/-- The method `FloatNodeImpl::isDefined`. -/
def FloatNodeImpl.isDefined (_self : FloatNodeImpl) (pathName : ustring) : Bool :=
  pathName.isEmpty

/-- The accessor `FloatNodeImpl::value`. -/
def FloatNodeImpl.value (self : FloatNodeImpl) (imf : ImageFileImpl) : Except ErrorCode Double := do
  checkImageFileOpen imf
  return self.value_

/-- The accessor `FloatNodeImpl::precision`. -/
def FloatNodeImpl.precision (self : FloatNodeImpl) (imf : ImageFileImpl) :
    Except ErrorCode FloatPrecision := do
  checkImageFileOpen imf
  return self.precision_

/-- The accessor `FloatNodeImpl::minimum`. -/
def FloatNodeImpl.minimum (self : FloatNodeImpl) (imf : ImageFileImpl) : Except ErrorCode Double := do
  checkImageFileOpen imf
  return self.minimum_

/-- The accessor `FloatNodeImpl::maximum`. -/
def FloatNodeImpl.maximum (self : FloatNodeImpl) (imf : ImageFileImpl) : Except ErrorCode Double := do
  checkImageFileOpen imf
  return self.maximum_

/-- The method `FloatNodeImpl::checkLeavesInSet`: the relative or the absolute form. -/
def FloatNodeImpl.checkLeavesInSet (_self : FloatNodeImpl) (pathNames : List ustring)
    (relativePathName pathName : ustring) : Except ErrorCode Unit :=
  if ¬ relativePathName ∈ pathNames ∧ ¬ pathName ∈ pathNames then
    Except.error ErrorCode.E57_ERROR_NO_BUFFER_FOR_ELEMENT
  else Except.ok ()

/-- The method `FloatNodeImpl::writeXml`. The text `cf << d` writes for a `float` and for a
`double` comes from CheckedFile.h, which is not among the sources: `showFloat` gives the
text of `static_cast<float>( d )` and `showDouble` the text of the double `d`. -/
def FloatNodeImpl.writeXml (showFloat showDouble : Double → ustring) (self : FloatNodeImpl)
    (cf : CheckedFile) (indent : Nat) (forcedFieldName : Option ustring) : CheckedFile :=
  let fieldName : ustring := fieldNameOf self.toNodeImpl forcedFieldName
  let cf := (((cf.put (space indent)).put "<".toList).put fieldName).put " type=\"Float\"".toList
  if self.precision_ = FloatPrecision.E57_SINGLE then
    let cf := cf.put " precision=\"single\"".toList
    let cf :=
      if Double.gt self.minimum_ E57_FLOAT_MIN then
        ((cf.put " minimum=\"".toList).put (showFloat self.minimum_)).put "\"".toList
      else cf
    let cf :=
      if Double.lt self.maximum_ E57_FLOAT_MAX then
        ((cf.put " maximum=\"".toList).put (showFloat self.maximum_)).put "\"".toList
      else cf
    if Double.ne self.value_ (Double.fin 0) then
      ((((cf.put ">".toList).put (showFloat self.value_)).put "</".toList).put fieldName).put
        ">\n".toList
    else
      cf.put "/>\n".toList
  else
    let cf :=
      if Double.gt self.minimum_ E57_DOUBLE_MIN then
        ((cf.put " minimum=\"".toList).put (showDouble self.minimum_)).put "\"".toList
      else cf
    let cf :=
      if Double.lt self.maximum_ E57_DOUBLE_MAX then
        ((cf.put " maximum=\"".toList).put (showDouble self.maximum_)).put "\"".toList
      else cf
    if Double.ne self.value_ (Double.fin 0) then
      ((((cf.put ">".toList).put (showDouble self.value_)).put "</".toList).put fieldName).put
        ">\n".toList
    else
      cf.put "/>\n".toList

/-! ## StringNodeImpl -/

/-- The constructor `StringNodeImpl::StringNodeImpl`. -/
def StringNodeImpl.new (base : NodeImpl) (value : ustring) : StringNodeImpl :=
  { toNodeImpl := base, value_ := value }

/-- The method `StringNodeImpl::isTypeEquivalent`. -/
def StringNodeImpl.isTypeEquivalent (_self : StringNodeImpl) (ni : Node) : Bool :=
  match ni with
  | Node.string _ => true
  | _ => false

/-- The method `StringNodeImpl::isDefined`. -/
def StringNodeImpl.isDefined (_self : StringNodeImpl) (pathName : ustring) : Bool :=
  pathName.isEmpty

/-- The accessor `StringNodeImpl::value`. -/
def StringNodeImpl.value (self : StringNodeImpl) (imf : ImageFileImpl) : Except ErrorCode ustring := do
  checkImageFileOpen imf
  return self.value_

/-- The method `StringNodeImpl::checkLeavesInSet` (arguments as for Integer). -/
def StringNodeImpl.checkLeavesInSet (_self : StringNodeImpl) (pathNames : List ustring)
    (relativePathName _pathName : ustring) : Except ErrorCode Unit :=
  if ¬ relativePathName ∈ pathNames then
    Except.error ErrorCode.E57_ERROR_NO_BUFFER_FOR_ELEMENT
  else Except.ok ()

/-- The terminator of a CDATA section, the three characters `]]>`. -/
def cdataEnd : ustring := [']', ']', '>']

/-- The opening of a CDATA section, the nine characters `<![CDATA[`. -/
def cdataBegin : ustring := ['<', '!', '[', 'C', 'D', 'A', 'T', 'A', '[']

/-- The search of `std::string::find` from the start of `s`, whose index in the whole
string is `i`. -/
def findAux (pat : ustring) : ustring → Nat → Option Nat
  | [], i => if pat = [] then some i else none
  | c :: t, i => if pat.isPrefixOf (c :: t) then some i else findAux pat t (i + 1)

/-- The call `s.find( pat, pos )` of `std::string`: the index of the first occurrence
of `pat` that starts at `pos` or later, `none` for `npos`. -/
def find (s pat : ustring) (pos : Nat) : Option Nat :=
  if pos ≤ s.length then findAux pat (s.drop pos) pos else none

/-- The call `s.substr( pos, n )` of `std::string`, for `pos` within the string. -/
def substr (s : ustring) (pos n : Nat) : ustring := (s.drop pos).take n

/-- The call `s.substr( pos )` of `std::string`, for `pos` within the string. -/
def substrFrom (s : ustring) (pos : Nat) : ustring := s.drop pos

/-- The `while` loop of `StringNodeImpl::writeXml`, entered at its test with the given
`currentPosition`. The first argument bounds the number of times the test is
evaluated; `none` means the bound was reached before the loop was left. -/
def StringNodeImpl.writeXmlLoop (value : ustring) : Nat → Nat → CheckedFile → Option CheckedFile
  | 0, _, _ => none
  | fuel + 1, currentPosition, cf =>
    if currentPosition < value.length then
      match find value cdataEnd currentPosition with
      | none => some (cf.put (substrFrom value currentPosition))
      | some found =>
        let cf := cf.put (substr value currentPosition (found - currentPosition + 2))
        let cf := cf.put (cdataEnd ++ cdataBegin)
        StringNodeImpl.writeXmlLoop value fuel (found + 2) cf
    else some cf

/-- The method `StringNodeImpl::writeXml`. The loop is given `length + 1` evaluations of
its test. -/
def StringNodeImpl.writeXml (self : StringNodeImpl) (cf : CheckedFile) (indent : Nat)
    (forcedFieldName : Option ustring) : Option CheckedFile :=
  let fieldName : ustring := fieldNameOf self.toNodeImpl forcedFieldName
  let cf := (((cf.put (space indent)).put "<".toList).put fieldName).put " type=\"String\"".toList
  if self.value_.isEmpty then
    some (cf.put "/>\n".toList)
  else
    let cf := cf.put ('>' :: cdataBegin)
    match StringNodeImpl.writeXmlLoop self.value_ (self.value_.length + 1) 0 cf with
    | none => none
    | some cf => some (((cf.put (cdataEnd ++ "</".toList)).put fieldName).put ">\n".toList)

/-! ## BlobNodeImpl

`sizeof( BlobSectionHeader )` comes from SectionHeaders.h, which is not among the
sources: it is the argument `sizeofHeader` of the functions below. -/

/-- The constructor of `BlobNodeImpl` for a new blob of `byteCount` bytes. -/
def BlobNodeImpl.new (sizeofHeader : Nat) (base : NodeImpl) (imf : ImageFileImpl)
    (byteCount : Int) : BlobNodeImpl × ImageFileImpl :=
  let blobLogicalLength_ := toUInt64 byteCount
  let binarySectionLogicalLength_ := (sizeofHeader + blobLogicalLength_) % 2 ^ 64
  let remainder := (binarySectionLogicalLength_ % 4) % 2 ^ 32
  let binarySectionLogicalLength_ :=
    if remainder > 0 then (binarySectionLogicalLength_ + (4 - remainder)) % 2 ^ 64
    else binarySectionLogicalLength_
  let allocated := imf.allocateSpace binarySectionLogicalLength_ true
  let binarySectionLogicalStart_ := allocated.1
  let imf := allocated.2
  let file := imf.file_.seek binarySectionLogicalStart_
  let file := file.writeHeader binarySectionLogicalLength_ sizeofHeader
  ({ toNodeImpl := base, blobLogicalLength_ := blobLogicalLength_,
     binarySectionLogicalStart_ := binarySectionLogicalStart_,
     binarySectionLogicalLength_ := binarySectionLogicalLength_ },
   { imf with file_ := file })

/-- The constructor of `BlobNodeImpl` for a blob that already exists in the file. The
translation `physicalToLogical` belongs to `CheckedFile` and is an argument. -/
def BlobNodeImpl.newExisting (sizeofHeader : Nat) (physicalToLogical : Nat → Nat)
    (base : NodeImpl) (fileOffset length : Int) : BlobNodeImpl :=
  let blobLogicalLength_ := toUInt64 length
  { toNodeImpl := base, blobLogicalLength_ := blobLogicalLength_,
    binarySectionLogicalStart_ := physicalToLogical (toUInt64 fileOffset),
    binarySectionLogicalLength_ := (sizeofHeader + blobLogicalLength_) % 2 ^ 64 }

/-- The method `BlobNodeImpl::isTypeEquivalent`. -/
def BlobNodeImpl.isTypeEquivalent (self : BlobNodeImpl) (ni : Node) : Bool :=
  match ni with
  | Node.blob bi =>
    if self.blobLogicalLength_ ≠ bi.blobLogicalLength_ then false
    else true
  | _ => false

/-- The method `BlobNodeImpl::isDefined`. -/
def BlobNodeImpl.isDefined (_self : BlobNodeImpl) (pathName : ustring) : Bool :=
  pathName.isEmpty

/-- The conversion of a `uint64_t` to the `int64_t` a method returns. -/
def toInt64 (n : Nat) : Int :=
  if n % 2 ^ 64 < 2 ^ 63 then ((n % 2 ^ 64 : Nat) : Int) else ((n % 2 ^ 64 : Nat) : Int) - (2 : Int) ^ 64

/-- The accessor `BlobNodeImpl::byteCount`. -/
def BlobNodeImpl.byteCount (self : BlobNodeImpl) (imf : ImageFileImpl) : Except ErrorCode Int := do
  checkImageFileOpen imf
  return toInt64 self.blobLogicalLength_

/-- What a method of a blob leaves behind: what it returned or threw, the node and the
file session afterwards. -/
structure BlobIo where
  result : Except ErrorCode Unit
  node : BlobNodeImpl
  imf : ImageFileImpl

/-- The method `BlobNodeImpl::read`; `count` is a `size_t`. -/
def BlobNodeImpl.read (sizeofHeader : Nat) (self : BlobNodeImpl) (imf : ImageFileImpl)
    (start : Int) (count : Nat) : BlobIo :=
  match checkImageFileOpen imf with
  | Except.error e => { result := Except.error e, node := self, imf := imf }
  | Except.ok _ =>
    if (toUInt64 start + count) % 2 ^ 64 > self.blobLogicalLength_ then
      { result := Except.error ErrorCode.E57_ERROR_BAD_API_ARGUMENT, node := self, imf := imf }
    else
      let file := imf.file_.seek
        ((self.binarySectionLogicalStart_ + sizeofHeader + toUInt64 start) % 2 ^ 64)
      let file := file.read count
      { result := Except.ok (), node := self, imf := { imf with file_ := file } }

/-- The method `BlobNodeImpl::write`; `count` is a `size_t`. -/
def BlobNodeImpl.write (sizeofHeader : Nat) (self : BlobNodeImpl) (imf : ImageFileImpl)
    (start : Int) (count : Nat) : BlobIo :=
  match checkImageFileOpen imf with
  | Except.error e => { result := Except.error e, node := self, imf := imf }
  | Except.ok _ =>
    if ¬ imf.isWriter then
      { result := Except.error ErrorCode.E57_ERROR_FILE_IS_READ_ONLY, node := self, imf := imf }
    else if ¬ self.isAttached_ then
      { result := Except.error ErrorCode.E57_ERROR_NODE_UNATTACHED, node := self, imf := imf }
    else if (toUInt64 start + count) % 2 ^ 64 > self.blobLogicalLength_ then
      { result := Except.error ErrorCode.E57_ERROR_BAD_API_ARGUMENT, node := self, imf := imf }
    else
      let file := imf.file_.seek
        ((self.binarySectionLogicalStart_ + sizeofHeader + toUInt64 start) % 2 ^ 64)
      let file := file.write count
      { result := Except.ok (), node := self, imf := { imf with file_ := file } }

/-- The method `BlobNodeImpl::checkLeavesInSet` (arguments as for Integer). -/
def BlobNodeImpl.checkLeavesInSet (_self : BlobNodeImpl) (pathNames : List ustring)
    (relativePathName _pathName : ustring) : Except ErrorCode Unit :=
  if ¬ relativePathName ∈ pathNames then
    Except.error ErrorCode.E57_ERROR_NO_BUFFER_FOR_ELEMENT
  else Except.ok ()

/-- The method `BlobNodeImpl::writeXml`. The translation `logicalToPhysical` belongs to
`CheckedFile` and is an argument; the numbers are `uint64_t` written in decimal. -/
def BlobNodeImpl.writeXml (logicalToPhysical : Nat → Nat) (self : BlobNodeImpl) (cf : CheckedFile)
    (indent : Nat) (forcedFieldName : Option ustring) : CheckedFile :=
  let fieldName : ustring := fieldNameOf self.toNodeImpl forcedFieldName
  let physicalOffset := logicalToPhysical self.binarySectionLogicalStart_
  (((((((cf.put (space indent)).put "<".toList).put fieldName).put
    " type=\"Blob\" fileOffset=\"".toList).put (toDecimal physicalOffset)).put
    "\" length=\"".toList).put (toDecimal self.blobLogicalLength_)).put "\"/>\n".toList

/-! ## The leaf kinds together -/

/-- A node of one of the five leaf classes. -/
inductive LeafNode where
  | integer (n : IntegerNodeImpl)
  | scaledInteger (n : ScaledIntegerNodeImpl)
  | float (n : FloatNodeImpl)
  | string (n : StringNodeImpl)
  | blob (n : BlobNodeImpl)
  deriving DecidableEq

/-- A leaf node seen through a `NodeImplSharedPtr`. -/
def LeafNode.toNode : LeafNode → Node
  | LeafNode.integer n => Node.integer n
  | LeafNode.scaledInteger n => Node.scaledInteger n
  | LeafNode.float n => Node.float n
  | LeafNode.string n => Node.string n
  | LeafNode.blob n => Node.blob n

/-- The virtual call `a->isTypeEquivalent( ni )` on a leaf node. -/
def LeafNode.isTypeEquivalent (a : LeafNode) (ni : Node) : Bool :=
  match a with
  | LeafNode.integer n => n.isTypeEquivalent ni
  | LeafNode.scaledInteger n => n.isTypeEquivalent ni
  | LeafNode.float n => n.isTypeEquivalent ni
  | LeafNode.string n => n.isTypeEquivalent ni
  | LeafNode.blob n => n.isTypeEquivalent ni

/-- The virtual call `a->checkLeavesInSet( pathNames, origin )` on a leaf node. -/
def LeafNode.checkLeavesInSet (a : LeafNode) (pathNames : List ustring)
    (relativePathName pathName : ustring) : Except ErrorCode Unit :=
  match a with
  | LeafNode.integer n => n.checkLeavesInSet pathNames relativePathName pathName
  | LeafNode.scaledInteger n => n.checkLeavesInSet pathNames relativePathName pathName
  | LeafNode.float n => n.checkLeavesInSet pathNames relativePathName pathName
  | LeafNode.string n => n.checkLeavesInSet pathNames relativePathName pathName
  | LeafNode.blob n => n.checkLeavesInSet pathNames relativePathName pathName

/-! ## Reading CDATA sections back -/

/-- The text before the first occurrence of `pat` and the text after it, `none` when
`pat` does not occur. -/
def splitAtFirst (pat : ustring) : ustring → Option (ustring × ustring)
  | [] => if pat = [] then some ([], []) else none
  | c :: t =>
    if pat.isPrefixOf (c :: t) then some ([], (c :: t).drop pat.length)
    else
      match splitAtFirst pat t with
      | none => none
      | some (before, after) => some (c :: before, after)

/-- The CDATA sections of a text, in order: the content of a section runs from an
opening `<![CDATA[` up to the first following `]]>`, and the search for the next section
resumes after that terminator. The first argument bounds the number of sections. -/
def readSections : Nat → ustring → List ustring
  | 0, _ => []
  | fuel + 1, text =>
    match splitAtFirst cdataBegin text with
    | none => []
    | some (_, afterBegin) =>
      match splitAtFirst cdataEnd afterBegin with
      | none => []
      | some (content, rest) => content :: readSections fuel rest

/-- The character data read back from a text: its CDATA sections, concatenated. A text
has fewer sections than characters. -/
def rereadText (text : ustring) : ustring := (readSections text.length text).flatten


/-- Whether one of the `double` fields that `isTypeEquivalent` compares is NaN: the
scale or offset of a ScaledInteger, the minimum or maximum of a Float. -/
def LeafNode.hasNaNConstraint : LeafNode → Bool
  | LeafNode.scaledInteger n => decide (n.scale_ = Double.nan) || decide (n.offset_ = Double.nan)
  | LeafNode.float n => decide (n.minimum_ = Double.nan) || decide (n.maximum_ = Double.nan)
  | _ => false

/-- The double nearest to the decimal literal `0.1`. -/
def doubleTenth : ℚ := 3602879701896397 / 36028797018963968





/-- The double nearest to the decimal literal `0.001`. -/
def doubleThousandth : ℚ := 1152921504606847 / 1152921504606846976

/-- The double nearest to the decimal literal `1e-6`. -/
def doubleMillionth : ℚ := 4722366482869645 / 4722366482869645213696

/-- The double just below one half, `0x1.fffffffffffffp-2`, which is `(2^53 - 1) / 2^54`. -/
def halfBelow : ℚ := 9007199254740991 / 18014398509481984

/-- A ScaledInteger node with raw value 0, raw bounds 0 and 0, offset 0 and a NaN scale. -/
def nanScaleNode : ScaledIntegerNodeImpl :=
  { toNodeImpl := ⟨[], false⟩, value_ := 0, minimum_ := 0, maximum_ := 0,
    scale_ := Double.nan, offset_ := Double.fin 0 }

/-- A text made of CDATA sections with the given contents, one after the other, with
`rest` after the last. -/
def cdataSections : List ustring → ustring → ustring
  | [], rest => rest
  | A :: more, rest => cdataBegin ++ A ++ cdataEnd ++ cdataSections more rest


/-- The String node of the spec example: element name `s` and value `a]]>b]]>c`. -/
def exampleStringNode : StringNodeImpl :=
  StringNodeImpl.new ⟨['s'], false⟩ "a]]>b]]>c".toList

/-- A file session with nothing written and nothing allocated yet. -/
def emptySession (isOpen isWriter : Bool) : ImageFileImpl :=
  { isOpen := isOpen, isWriter := isWriter, file_ := ⟨[], []⟩, unusedLogicalStart_ := 0 }

/-- An attached blob of 10 bytes whose section starts at logical offset 48. -/
def exampleBlob : BlobNodeImpl :=
  { toNodeImpl := ⟨['b'], true⟩, blobLogicalLength_ := 10, binarySectionLogicalStart_ := 48,
    binarySectionLogicalLength_ := 28 }



/-- The text of an Integer element as the specification words it: the indent, the tag
with the field name and the type, a minimum attribute iff the minimum differs from
`INT64_MIN`, a maximum attribute iff the maximum differs from `INT64_MAX`, then the
decimal value as child text with the closing tag if the value is not zero, and a
self-closing end otherwise, each followed by a newline. -/
def integerElementText (fieldName : ustring) (indent : Nat) (value minimum maximum : Int) :
    ustring :=
  space indent ++ "<".toList ++ fieldName ++ " type=\"Integer\"".toList ++
    (if minimum = E57_INT64_MIN then [] else " minimum=\"".toList ++ toDecimal minimum ++ "\"".toList) ++
    (if maximum = E57_INT64_MAX then [] else " maximum=\"".toList ++ toDecimal maximum ++ "\"".toList) ++
    (if value = 0 then "/>\n".toList
     else ">".toList ++ toDecimal value ++ "</".toList ++ fieldName ++ ">\n".toList)

/-- The text of a Float element with the given choices: whether the precision attribute,
the minimum attribute, the maximum attribute and the child text are present; `shown` is
the text of a number. -/
def floatElementText (shown : Double → ustring) (fieldName : ustring) (indent : Nat)
    (value minimum maximum : Double) (withPrecision withMinimum withMaximum withValue : Bool) :
    ustring :=
  space indent ++ "<".toList ++ fieldName ++ " type=\"Float\"".toList ++
    (if withPrecision then " precision=\"single\"".toList else []) ++
    (if withMinimum then " minimum=\"".toList ++ shown minimum ++ "\"".toList else []) ++
    (if withMaximum then " maximum=\"".toList ++ shown maximum ++ "\"".toList else []) ++
    (if withValue then ">".toList ++ shown value ++ "</".toList ++ fieldName ++ ">\n".toList
     else "/>\n".toList)

/-- The lower extremum of a precision: `E57_FLOAT_MIN` or `E57_DOUBLE_MIN`. -/
def lowerExtremum : FloatPrecision → Double
  | FloatPrecision.E57_SINGLE => E57_FLOAT_MIN
  | FloatPrecision.E57_DOUBLE => E57_DOUBLE_MIN

/-- The upper extremum of a precision: `E57_FLOAT_MAX` or `E57_DOUBLE_MAX`. -/
def upperExtremum : FloatPrecision → Double
  | FloatPrecision.E57_SINGLE => E57_FLOAT_MAX
  | FloatPrecision.E57_DOUBLE => E57_DOUBLE_MAX

/-- A double-precision Float node with value 0, minimum minus infinity and the default
maximum. -/
def negInfFloatNode : FloatNodeImpl :=
  { toNodeImpl := ⟨['f'], false⟩, value_ := Double.fin 0,
    precision_ := FloatPrecision.E57_DOUBLE, minimum_ := Double.negInf,
    maximum_ := E57_DOUBLE_MAX }



/-! ## The operations of a blob as calls -/

/-- A call of one of the public methods of a `BlobNodeImpl`, with its arguments. -/
inductive BlobCall where
  | byteCount
  | read (start : Int) (count : Nat)
  | write (start : Int) (count : Nat)
  | isTypeEquivalent (ni : Node)
  | isDefined (pathName : ustring)
  | checkLeavesInSet (pathNames : List ustring) (relativePathName pathName : ustring)
  | writeXml (indent : Nat) (forcedFieldName : Option ustring)

/-- The node and the file session after a call. The methods other than `read` and `write`
assign no member of the node, and only `writeXml` writes to the stream (here the stream
of the session). -/
def BlobNodeImpl.call (sizeofHeader : Nat) (logicalToPhysical : Nat → Nat)
    (state : BlobNodeImpl × ImageFileImpl) : BlobCall → BlobNodeImpl × ImageFileImpl
  | BlobCall.byteCount => state
  | BlobCall.read start count =>
    ((BlobNodeImpl.read sizeofHeader state.1 state.2 start count).node,
     (BlobNodeImpl.read sizeofHeader state.1 state.2 start count).imf)
  | BlobCall.write start count =>
    ((BlobNodeImpl.write sizeofHeader state.1 state.2 start count).node,
     (BlobNodeImpl.write sizeofHeader state.1 state.2 start count).imf)
  | BlobCall.isTypeEquivalent _ => state
  | BlobCall.isDefined _ => state
  | BlobCall.checkLeavesInSet _ _ _ => state
  | BlobCall.writeXml indent forcedFieldName =>
    (state.1,
     { state.2 with
       file_ := BlobNodeImpl.writeXml logicalToPhysical state.1 state.2.file_ indent
         forcedFieldName })

/-- The node and the file session after a sequence of calls. -/
def BlobNodeImpl.calls (sizeofHeader : Nat) (logicalToPhysical : Nat → Nat)
    (state : BlobNodeImpl × ImageFileImpl) (cs : List BlobCall) : BlobNodeImpl × ImageFileImpl :=
  cs.foldl (BlobNodeImpl.call sizeofHeader logicalToPhysical) state

/-! ## StructureNodeImpl -/

/-- The class `StructureNodeImpl` of StructureNodeImpl.h: the base part and the vector
`children_` of shared pointers to nodes. -/
structure StructureNodeImpl extends NodeImpl where
  children_ : List Node

/-- Modelled from the spec: `StructureNodeImpl::childCount` (StructureNodeImpl.cpp is not
among the sources; the header declares the method): the number of children. -/
def StructureNodeImpl.childCount (self : StructureNodeImpl) : Int := self.children_.length

/-- Modelled from the spec: `StructureNodeImpl::set( index, ni )` (StructureNodeImpl.cpp is
not among the sources; the header declares the method). The session must be open; an
index out of range fails with ChildIndexOutOfBounds; a slot is set only if currently
unset, and re-setting an occupied slot, one of `[0, childCount)`, fails with SetTwice;
the unset slot at `childCount` receives the node. The result is what the call returned
or threw and the structure afterwards. -/
def StructureNodeImpl.set (self : StructureNodeImpl) (imf : ImageFileImpl) (index : Int)
    (ni : Node) : Except ErrorCode Unit × StructureNodeImpl :=
  match checkImageFileOpen imf with
  | Except.error e => (Except.error e, self)
  | Except.ok _ =>
    if index < 0 ∨ index > self.childCount then
      (Except.error ErrorCode.E57_ERROR_CHILD_INDEX_OUT_OF_BOUNDS, self)
    else if index < self.childCount then
      (Except.error ErrorCode.E57_ERROR_SET_TWICE, self)
    else
      (Except.ok (), { self with children_ := self.children_ ++ [ni] })

/-- A structure with two Integer children. -/
def exampleStructure : StructureNodeImpl :=
  { toNodeImpl := ⟨['s'], false⟩,
    children_ := [Node.integer ⟨⟨['a'], false⟩, 1, 0, 10⟩, Node.integer ⟨⟨['b'], false⟩, 2, 0, 10⟩] }



/-- The number of occurrences of a pattern in a string: the number of positions at which
the pattern starts. -/
def countOccurrences (pat : ustring) : ustring → Nat
  | [] => 0
  | c :: t => (if pat.isPrefixOf (c :: t) then 1 else 0) + countOccurrences pat t

/-! ## Reading decimal text back -/

/-- The value of a decimal digit. -/
def digitValue (c : Char) : Nat := c.toNat - 48

/-- The number that a string of decimal digits denotes, after the digits already read
have given `acc`. -/
def readDigits (acc : Nat) : ustring → Nat
  | [] => acc
  | c :: t => readDigits (10 * acc + digitValue c) t

/-- The integer that a decimal text denotes: an optional minus sign, then digits. -/
def readDecimal : ustring → Int
  | [] => 0
  | c :: t => if c = '-' then -((readDigits 0 t : Nat) : Int) else ((readDigits 0 (c :: t) : Nat) : Int)

/-- The double quote that closes an attribute value. -/
def quoteChar : Char := Char.ofNat 34

/-! # Theorems -/

/-! ## Facts about `Double` -/

theorem Double.ne_comm (a b : Double) : Double.ne a b = Double.ne b a := by
  cases a <;> cases b <;> simp [Double.ne, eq_comm]

theorem Double.ne_self (a : Double) : Double.ne a a = decide (a = Double.nan) := by
  cases a <;> simp [Double.ne]

theorem Double.eq_iff_of_ne_nan (a b : Double) (ha : a ≠ Double.nan) :
    Double.eq a b = true ↔ a = b := by
  cases a <;> cases b <;> simp_all [Double.eq, Double.ne]

/-! ## Facts about binary64 rounding -/

/-- The exponent of a positive rational between two consecutive powers of two. -/
theorem Double.log2_eq (a : ℚ) (k : ℤ) (h1 : (2 : ℚ) ^ k ≤ a) (h2 : a < (2 : ℚ) ^ (k + 1)) :
    Int.log 2 a = k := by
  have ha : 0 < a := lt_of_lt_of_le (by positivity) h1
  have hb : (1 : ℕ) < 2 := by decide
  have h3 : k ≤ Int.log 2 a := (Int.zpow_le_iff_le_log hb ha).mp (by exact_mod_cast h1)
  have h4 : Int.log 2 a < k + 1 := (Int.lt_zpow_iff_log_lt hb ha).mp (by exact_mod_cast h2)
  omega

/-- A rational within less than one half of an integer rounds to that integer. -/
theorem Double.roundHalfEven_of_abs_lt (x : ℚ) (m : ℤ) (h : |x - m| < 1 / 2) :
    Double.roundHalfEven x = m := by
  rw [abs_lt] at h
  unfold Double.roundHalfEven
  by_cases hx : (m : ℚ) ≤ x
  · have hf : ⌊x⌋ = m := by
      rw [Int.floor_eq_iff]
      constructor
      · exact hx
      · linarith
    rw [hf, if_pos (by linarith)]
  · have hf : ⌊x⌋ = m - 1 := by
      rw [Int.floor_eq_iff]
      push_cast
      constructor <;> linarith
    rw [hf]
    push_cast
    rw [if_neg (by linarith), if_pos (by linarith)]
    ring

/-- A rational half-way between two integers rounds to the even one. -/
theorem Double.roundHalfEven_of_tie (x : ℚ) (f : ℤ) (h : x = f + 1 / 2) :
    Double.roundHalfEven x = if f % 2 = 0 then f else f + 1 := by
  have hf : ⌊x⌋ = f := by
    rw [Int.floor_eq_iff]
    constructor <;> linarith
  unfold Double.roundHalfEven
  rw [hf, if_neg (by linarith), if_neg (by linarith)]

/-- An integer rounds to itself. -/
theorem Double.roundHalfEven_intCast (z : ℤ) : Double.roundHalfEven (z : ℚ) = z :=
  Double.roundHalfEven_of_abs_lt _ z (by simp)

/-- The rounded integer is the floor or the integer after it. -/
theorem Double.roundHalfEven_bounds (x : ℚ) :
    ⌊x⌋ ≤ Double.roundHalfEven x ∧ Double.roundHalfEven x ≤ ⌊x⌋ + 1 := by
  unfold Double.roundHalfEven
  split_ifs <;> constructor <;> omega

/-- Rounding to the nearest integer is monotone. -/
theorem Double.roundHalfEven_mono (x y : ℚ) (h : x ≤ y) :
    Double.roundHalfEven x ≤ Double.roundHalfEven y := by
  have hf : ⌊x⌋ ≤ ⌊y⌋ := Int.floor_mono h
  rcases hf.lt_or_eq with hlt | heq
  · have := (Double.roundHalfEven_bounds x).2
    have := (Double.roundHalfEven_bounds y).1
    omega
  · unfold Double.roundHalfEven
    rw [← heq]
    split_ifs <;> first | omega | linarith

/-- The value of `ofRat` at a positive rational whose exponent and rounded significand
are known. -/
theorem Double.ofRat_pos_eval (q : ℚ) (k e m : ℤ) (h1 : (2 : ℚ) ^ k ≤ q)
    (h2 : q < (2 : ℚ) ^ (k + 1)) (he : e = max (k - 52) (-1074))
    (hm : Double.roundHalfEven (q / (2 : ℚ) ^ e) = m)
    (hmax : (m : ℚ) * (2 : ℚ) ^ e ≤ Double.maxFinite) :
    Double.ofRat q = Double.fin ((m : ℚ) * (2 : ℚ) ^ e) := by
  have hq : 0 < q := lt_of_lt_of_le (by positivity) h1
  have habs : |q| = q := abs_of_pos hq
  have hu : Double.ulpExponent q = e := by
    unfold Double.ulpExponent
    rw [Double.log2_eq q k h1 h2, he]
  unfold Double.ofRat Double.roundMagnitude
  rw [habs, hu, hm, if_neg hq.ne', if_neg (not_lt.mpr hmax), if_pos hq]

/-- The value of `ofRat` at a negative rational whose exponent and rounded significand
are known. -/
theorem Double.ofRat_neg_eval (q : ℚ) (k e m : ℤ) (h1 : (2 : ℚ) ^ k ≤ -q)
    (h2 : -q < (2 : ℚ) ^ (k + 1)) (he : e = max (k - 52) (-1074))
    (hm : Double.roundHalfEven (-q / (2 : ℚ) ^ e) = m)
    (hmax : (m : ℚ) * (2 : ℚ) ^ e ≤ Double.maxFinite) :
    Double.ofRat q = Double.fin (-((m : ℚ) * (2 : ℚ) ^ e)) := by
  have hq : 0 < -q := lt_of_lt_of_le (by positivity) h1
  have hq2 : q < 0 := by linarith
  have habs : |q| = -q := abs_of_neg hq2
  have hu : Double.ulpExponent (-q) = e := by
    unfold Double.ulpExponent
    rw [Double.log2_eq (-q) k h1 h2, he]
  unfold Double.ofRat Double.roundMagnitude
  rw [habs, hu, hm, if_neg hq2.ne, if_neg (not_lt.mpr hmax), if_neg (not_lt.mpr hq2.le)]

/-- A rational that is a binary64 value, `m * 2^e` with `|m| < 2^53` and
`-1074 <= e <= 971`, is returned unchanged by `ofRat`. -/
theorem Double.ofRat_of_representable (q : ℚ) (m e : ℤ) (hq : q = (m : ℚ) * (2 : ℚ) ^ e)
    (hm : |m| < 2 ^ 53) (he : -1074 ≤ e) (he2 : e ≤ 971) : Double.ofRat q = Double.fin q := by
  by_cases h0 : q = 0
  · rw [h0]
    simp [Double.ofRat]
  have h2pos : ∀ z : ℤ, (0 : ℚ) < (2 : ℚ) ^ z := fun z => by positivity
  have ha : 0 < |q| := abs_pos.mpr h0
  have habs : |q| = ((|m| : ℤ) : ℚ) * (2 : ℚ) ^ e := by
    rw [hq, abs_mul, abs_of_pos (h2pos e), Int.cast_abs]
  have h53 : ((|m| : ℤ) : ℚ) < (2 : ℚ) ^ (53 : ℤ) := by
    have h : ((|m| : ℤ) : ℚ) < (((2 : ℤ) ^ 53 : ℤ) : ℚ) := Int.cast_lt.mpr hm
    have e53 : ((((2 : ℤ) ^ 53 : ℤ)) : ℚ) = (2 : ℚ) ^ (53 : ℤ) := by norm_num
    rw [e53] at h
    exact h
  have hmax : |q| ≤ Double.maxFinite := by
    have hm1 : ((|m| : ℤ) : ℚ) ≤ (2 : ℚ) ^ 53 - 1 := by
      have h : |m| ≤ 2 ^ 53 - 1 := by omega
      have h2 : ((|m| : ℤ) : ℚ) ≤ (((2 : ℤ) ^ 53 - 1 : ℤ) : ℚ) := Int.cast_le.mpr h
      have e2 : (((2 : ℤ) ^ 53 - 1 : ℤ) : ℚ) = (2 : ℚ) ^ 53 - 1 := by norm_num
      rw [e2] at h2
      exact h2
    have he3 : (2 : ℚ) ^ e ≤ (2 : ℚ) ^ (971 : ℤ) := zpow_le_zpow_right₀ (by norm_num) he2
    have e971 : (2 : ℚ) ^ (971 : ℤ) = (2 : ℚ) ^ (971 : ℕ) := by
      rw [← zpow_natCast]
      rfl
    rw [habs]
    unfold Double.maxFinite
    rw [← e971]
    exact mul_le_mul hm1 he3 (h2pos e).le (by norm_num)
  have hb : (1 : ℕ) < 2 := by decide
  have hlog : Int.log 2 |q| < 53 + e := by
    rw [← Int.lt_zpow_iff_log_lt hb ha]
    push_cast
    rw [habs, zpow_add₀ (by norm_num : (2 : ℚ) ≠ 0)]
    exact mul_lt_mul_of_pos_right h53 (h2pos e)
  have hec : Double.ulpExponent |q| ≤ e := by
    unfold Double.ulpExponent
    exact max_le (by omega) he
  obtain ⟨u, hu⟩ : ∃ u : ℤ, Double.ulpExponent |q| = u := ⟨_, rfl⟩
  rw [hu] at hec
  obtain ⟨n, hn⟩ : ∃ n : ℕ, e = u + n := ⟨(e - u).toNat, by omega⟩
  have hdiv : |q| / (2 : ℚ) ^ u = ((|m| * 2 ^ n : ℤ) : ℚ) := by
    rw [habs, hn, zpow_add₀ (by norm_num : (2 : ℚ) ≠ 0), zpow_natCast]
    push_cast
    have := (h2pos u).ne'
    field_simp
    ring
  have hr : Double.roundMagnitude |q| = |q| := by
    unfold Double.roundMagnitude
    rw [hu, hdiv, Double.roundHalfEven_intCast, ← hdiv]
    have := (h2pos u).ne'
    field_simp
  unfold Double.ofRat
  rw [hr, if_neg h0, if_neg (not_lt.mpr hmax)]
  by_cases hp : 0 < q
  · rw [if_pos hp, abs_of_pos hp]
  · rw [if_neg hp]
    have : q < 0 := lt_of_le_of_ne (not_lt.mp hp) h0
    rw [abs_of_neg this, neg_neg]

/-- A small integer is a binary64 value. -/
theorem Double.ofRat_intCast (m : ℤ) (hm : |m| < 2 ^ 53) :
    Double.ofRat (m : ℚ) = Double.fin (m : ℚ) :=
  Double.ofRat_of_representable _ m 0 (by simp) hm (by norm_num) (by norm_num)

/-- A small integer plus one half is a binary64 value. -/
theorem Double.ofRat_add_half (m : ℤ) (hm : |2 * m + 1| < 2 ^ 53) :
    Double.ofRat ((m : ℚ) + 1 / 2) = Double.fin ((m : ℚ) + 1 / 2) :=
  Double.ofRat_of_representable _ (2 * m + 1) (-1)
    (by push_cast; rw [zpow_neg_one]; ring) hm (by norm_num) (by norm_num)

/-- The rounded magnitude of a magnitude is not negative. -/
theorem Double.roundMagnitude_nonneg (x : ℚ) (hx : 0 ≤ x) : 0 ≤ Double.roundMagnitude x := by
  unfold Double.roundMagnitude
  have hu : (0 : ℚ) < (2 : ℚ) ^ Double.ulpExponent x := by positivity
  have h1 : (0 : ℤ) ≤ ⌊x / (2 : ℚ) ^ Double.ulpExponent x⌋ := Int.floor_nonneg.mpr (by positivity)
  have h2 := (Double.roundHalfEven_bounds (x / (2 : ℚ) ^ Double.ulpExponent x)).1
  have h3 : (0 : ℚ) ≤ (Double.roundHalfEven (x / (2 : ℚ) ^ Double.ulpExponent x) : ℚ) := by
    exact_mod_cast le_trans h1 h2
  positivity

/-- Rounding a magnitude to binary64 is monotone. -/
theorem Double.roundMagnitude_mono (x y : ℚ) (hx : 0 < x) (h : x ≤ y) :
    Double.roundMagnitude x ≤ Double.roundMagnitude y := by
  have hy : 0 < y := lt_of_lt_of_le hx h
  have hb : (1 : ℕ) < 2 := by decide
  have h2pos : ∀ z : ℤ, (0 : ℚ) < (2 : ℚ) ^ z := fun z => by positivity
  have h2ne : (2 : ℚ) ≠ 0 := by norm_num
  have hk : Int.log 2 x ≤ Int.log 2 y := Int.log_mono_right hx h
  have hxlt : x < (2 : ℚ) ^ (Int.log 2 x + 1) := by
    have := Int.lt_zpow_succ_log_self (b := 2) hb x
    exact_mod_cast this
  have hyge : (2 : ℚ) ^ Int.log 2 y ≤ y := by
    have := Int.zpow_log_le_self (b := 2) hb hy
    exact_mod_cast this
  obtain ⟨kx, hkx⟩ : ∃ k : ℤ, Int.log 2 x = k := ⟨_, rfl⟩
  obtain ⟨ky, hky⟩ : ∃ k : ℤ, Int.log 2 y = k := ⟨_, rfl⟩
  rw [hkx] at hxlt hk
  rw [hky] at hyge hk
  unfold Double.roundMagnitude Double.ulpExponent
  rw [hkx, hky]
  obtain ⟨ex, hex⟩ : ∃ e : ℤ, max (kx - 52) (-1074) = e := ⟨_, rfl⟩
  obtain ⟨ey, hey⟩ : ∃ e : ℤ, max (ky - 52) (-1074) = e := ⟨_, rfl⟩
  rw [hex, hey]
  have hle : ex ≤ ey := by
    rw [← hex, ← hey]
    exact max_le_max (by omega) le_rfl
  rcases hle.lt_or_eq with hlt | heq
  · -- different binades: the power of two between them separates the rounded values
    have hey2 : ey = ky - 52 := by
      rcases max_cases (ky - 52) (-1074) with ⟨hm, -⟩ | ⟨hm, -⟩
      · omega
      · have : -1074 ≤ ex := by
          rw [← hex]
          exact le_max_right _ _
        omega
    have hkx2 : kx - 52 ≤ ex := by
      rw [← hex]
      exact le_max_left _ _
    obtain ⟨n, hn⟩ : ∃ n : ℕ, ky = ex + n := ⟨(ky - ex).toNat, by omega⟩
    have hmid1 : (Double.roundHalfEven (x / (2 : ℚ) ^ ex) : ℚ) * (2 : ℚ) ^ ex ≤ (2 : ℚ) ^ ky := by
      have hx2 : x / (2 : ℚ) ^ ex ≤ (((2 : ℤ) ^ n : ℤ) : ℚ) := by
        rw [div_le_iff₀ (h2pos ex)]
        push_cast
        rw [← zpow_natCast, ← zpow_add₀ h2ne, add_comm, ← hn]
        have : (2 : ℚ) ^ (kx + 1) ≤ (2 : ℚ) ^ ky := zpow_le_zpow_right₀ (by norm_num) (by omega)
        linarith
      have hr := Double.roundHalfEven_mono _ _ hx2
      rw [Double.roundHalfEven_intCast] at hr
      have hr2 : (Double.roundHalfEven (x / (2 : ℚ) ^ ex) : ℚ) ≤ (((2 : ℤ) ^ n : ℤ) : ℚ) :=
        Int.cast_le.mpr hr
      have e2 : (((2 : ℤ) ^ n : ℤ) : ℚ) * (2 : ℚ) ^ ex = (2 : ℚ) ^ ky := by
        push_cast
        rw [← zpow_natCast, ← zpow_add₀ h2ne, add_comm, ← hn]
      rw [← e2]
      exact mul_le_mul_of_nonneg_right hr2 (h2pos ex).le
    have hmid2 : (2 : ℚ) ^ ky ≤ (Double.roundHalfEven (y / (2 : ℚ) ^ ey) : ℚ) * (2 : ℚ) ^ ey := by
      have hy2 : (((2 : ℤ) ^ 52 : ℤ) : ℚ) ≤ y / (2 : ℚ) ^ ey := by
        rw [le_div_iff₀ (h2pos ey)]
        have e3 : (((2 : ℤ) ^ 52 : ℤ) : ℚ) * (2 : ℚ) ^ ey = (2 : ℚ) ^ ky := by
          have e52 : (((2 : ℤ) ^ 52 : ℤ) : ℚ) = (2 : ℚ) ^ (52 : ℤ) := by norm_num
          rw [e52, ← zpow_add₀ h2ne, hey2]
          congr 1
          ring
        rw [e3]
        exact hyge
      have hr := Double.roundHalfEven_mono _ _ hy2
      rw [Double.roundHalfEven_intCast] at hr
      have hr2 : (((2 : ℤ) ^ 52 : ℤ) : ℚ) ≤ (Double.roundHalfEven (y / (2 : ℚ) ^ ey) : ℚ) :=
        Int.cast_le.mpr hr
      have e3 : (((2 : ℤ) ^ 52 : ℤ) : ℚ) * (2 : ℚ) ^ ey = (2 : ℚ) ^ ky := by
        have e52 : (((2 : ℤ) ^ 52 : ℤ) : ℚ) = (2 : ℚ) ^ (52 : ℤ) := by norm_num
        rw [e52, ← zpow_add₀ h2ne, hey2]
        congr 1
        ring
      rw [← e3]
      exact mul_le_mul_of_nonneg_right hr2 (h2pos ey).le
    exact le_trans hmid1 hmid2
  · -- same binade: rounding to the nearest multiple of one unit is monotone
    rw [← heq]
    have hdiv : x / (2 : ℚ) ^ ex ≤ y / (2 : ℚ) ^ ex := div_le_div_of_nonneg_right h (h2pos ex).le
    have hr : (Double.roundHalfEven (x / (2 : ℚ) ^ ex) : ℚ)
        ≤ (Double.roundHalfEven (y / (2 : ℚ) ^ ex) : ℚ) :=
      Int.cast_le.mpr (Double.roundHalfEven_mono _ _ hdiv)
    exact mul_le_mul_of_nonneg_right hr (h2pos ex).le

/-- The finite value returned by `ofRat` at a positive rational. -/
theorem Double.ofRat_fin_pos (q a : ℚ) (hq : 0 < q) (h : Double.ofRat q = Double.fin a) :
    a = Double.roundMagnitude q := by
  unfold Double.ofRat at h
  rw [if_neg hq.ne', abs_of_pos hq] at h
  simp only [hq, ↓reduceIte] at h
  split at h
  · cases h
  · exact (Double.fin.inj h).symm

/-- The finite value returned by `ofRat` at a negative rational. -/
theorem Double.ofRat_fin_neg (q a : ℚ) (hq : q < 0) (h : Double.ofRat q = Double.fin a) :
    a = -Double.roundMagnitude (-q) := by
  have hn : ¬ (0 < q) := not_lt.mpr hq.le
  unfold Double.ofRat at h
  rw [if_neg hq.ne, abs_of_neg hq] at h
  simp only [hn, ↓reduceIte] at h
  split at h
  · cases h
  · exact (Double.fin.inj h).symm

/-- The value returned by `ofRat` at zero. -/
theorem Double.ofRat_zero : Double.ofRat 0 = Double.fin 0 := by
  simp [Double.ofRat]

/-- Rounding to binary64 is monotone on the rationals it sends to finite values. -/
theorem Double.ofRat_mono (x y a b : ℚ) (h : x ≤ y) (hx : Double.ofRat x = Double.fin a)
    (hy : Double.ofRat y = Double.fin b) : a ≤ b := by
  have hsign : ∀ q c : ℚ, Double.ofRat q = Double.fin c → (0 ≤ q → 0 ≤ c) ∧ (q ≤ 0 → c ≤ 0) := by
    intro q c hc
    rcases lt_trichotomy q 0 with hq | hq | hq
    · have := Double.ofRat_fin_neg q c hq hc
      have := Double.roundMagnitude_nonneg (-q) (by linarith)
      exact ⟨fun h0 => by linarith, fun _ => by linarith⟩
    · subst hq
      rw [Double.ofRat_zero] at hc
      have := Double.fin.inj hc
      exact ⟨fun _ => by linarith, fun _ => by linarith⟩
    · have := Double.ofRat_fin_pos q c hq hc
      have := Double.roundMagnitude_nonneg q hq.le
      exact ⟨fun _ => by linarith, fun h0 => by linarith⟩
  rcases lt_trichotomy x 0 with hx0 | hx0 | hx0
  · rcases lt_or_le y 0 with hy0 | hy0
    · rw [Double.ofRat_fin_neg x a hx0 hx, Double.ofRat_fin_neg y b hy0 hy]
      have := Double.roundMagnitude_mono (-y) (-x) (by linarith) (by linarith)
      linarith
    · have := (hsign x a hx).2 hx0.le
      have := (hsign y b hy).1 hy0
      linarith
  · have := (hsign x a hx).2 hx0.le
    have := (hsign y b hy).1 (by linarith)
    linarith
  · have hy0 : 0 < y := lt_of_lt_of_le hx0 h
    rw [Double.ofRat_fin_pos x a hx0 hx, Double.ofRat_fin_pos y b hy0 hy]
    exact Double.roundMagnitude_mono x y hx0 h

/-- The sum of two finite doubles is the rounded exact sum. -/
theorem Double.add_fin (a b : ℚ) :
    Double.add (Double.fin a) (Double.fin b) = Double.ofRat (a + b) := rfl

/-- The product of two finite doubles is the rounded exact product. -/
theorem Double.mul_fin (a b : ℚ) :
    Double.mul (Double.fin a) (Double.fin b) = Double.ofRat (a * b) := rfl

/-- A floor that the cast to `int64_t` accepts is the integer the cast returns. -/
theorem Double.toInt64_floor (x : Double) (v : Int)
    (h : Double.toInt64 (Double.floor x) = some v) : Double.floor x = Double.fin (v : ℚ) := by
  cases x with
  | nan => simp [Double.floor, Double.toInt64] at h
  | negInf => simp [Double.floor, Double.toInt64] at h
  | posInf => simp [Double.floor, Double.toInt64] at h
  | fin a =>
    simp only [Double.floor, Double.toInt64, Int.floor_intCast, Int.ceil_intCast, ite_self] at h
    split at h
    · rw [← Option.some.inj h]
      rfl
    · cases h

/-- The cast of an integer of the `int64_t` range. -/
theorem Double.toInt64_intCast (v : Int) (hv : -(2 : Int) ^ 63 ≤ v ∧ v < (2 : Int) ^ 63) :
    Double.toInt64 (Double.fin (v : ℚ)) = some v := by
  simp only [Double.toInt64, Int.floor_intCast, Int.ceil_intCast, ite_self]
  rw [if_pos hv]

/-- What the conversion to a raw value computes when it is defined, for finite
arguments: the scale is not zero, the subtraction, the division and the addition each
return a finite double, and the raw value is the floor of the last. -/
theorem ScaledIntegerNodeImpl.toRaw_fin_some (s sc o : ℚ) (v : Int)
    (h : ScaledIntegerNodeImpl.toRaw (Double.fin s) (Double.fin sc) (Double.fin o) = some v) :
    sc ≠ 0 ∧ ∃ d1 d2 d3 : ℚ,
      Double.sub (Double.fin s) (Double.fin o) = Double.fin d1 ∧
      Double.div (Double.fin d1) (Double.fin sc) = Double.fin d2 ∧
      Double.add (Double.fin d2) (Double.fin (1 / 2)) = Double.fin d3 ∧
      Double.ofRat (s - o) = Double.fin d1 ∧
      Double.ofRat (d1 / sc) = Double.fin d2 ∧
      Double.ofRat (d2 + 1 / 2) = Double.fin d3 ∧
      v = ⌊d3⌋ := by
  unfold ScaledIntegerNodeImpl.toRaw at h
  have hsub : Double.sub (Double.fin s) (Double.fin o) = Double.ofRat (s - o) := by
    simp only [Double.sub, Double.neg, Double.add, sub_eq_add_neg]
  rw [hsub] at h ⊢
  cases h1 : Double.ofRat (s - o) with
  | nan => rw [h1] at h; simp [Double.div, Double.add, Double.floor, Double.toInt64] at h
  | negInf =>
    rw [h1] at h
    by_cases hs : 0 ≤ sc <;>
      simp [Double.div, Double.add, Double.floor, Double.toInt64, hs] at h
  | posInf =>
    rw [h1] at h
    by_cases hs : 0 ≤ sc <;>
      simp [Double.div, Double.add, Double.floor, Double.toInt64, hs] at h
  | fin d1 =>
    rw [h1] at h
    by_cases hsc : sc = 0
    · exfalso
      subst hsc
      by_cases hd0 : d1 = 0
      · simp [Double.div, Double.add, Double.floor, Double.toInt64, hd0] at h
      · by_cases hdp : 0 < d1 <;>
          simp [Double.div, Double.add, Double.floor, Double.toInt64, hd0, hdp] at h
    · have hdiv : Double.div (Double.fin d1) (Double.fin sc) = Double.ofRat (d1 / sc) := by
        simp only [Double.div, if_neg hsc]
      rw [hdiv] at h
      cases h2 : Double.ofRat (d1 / sc) with
      | nan => rw [h2] at h; simp [Double.add, Double.floor, Double.toInt64] at h
      | negInf => rw [h2] at h; simp [Double.add, Double.floor, Double.toInt64] at h
      | posInf => rw [h2] at h; simp [Double.add, Double.floor, Double.toInt64] at h
      | fin d2 =>
        rw [h2] at h
        have hadd : Double.add (Double.fin d2) (Double.fin (1 / 2)) = Double.ofRat (d2 + 1 / 2) := by
          simp only [Double.add]
        rw [hadd] at h
        cases h3 : Double.ofRat (d2 + 1 / 2) with
        | nan => rw [h3] at h; simp [Double.floor, Double.toInt64] at h
        | negInf => rw [h3] at h; simp [Double.floor, Double.toInt64] at h
        | posInf => rw [h3] at h; simp [Double.floor, Double.toInt64] at h
        | fin d3 =>
          rw [h3] at h
          have hf := Double.toInt64_floor _ _ h
          simp only [Double.floor, Double.fin.injEq] at hf
          refine ⟨hsc, d1, d2, d3, rfl, ?_, ?_, rfl, h2, h3, ?_⟩
          · simp only [Double.div, if_neg hsc, h2]
          · simp only [Double.add, h3]
          · exact_mod_cast hf.symm

/-- The conversion to a raw value, from the results of its three operations. -/
theorem ScaledIntegerNodeImpl.toRaw_eval (s sc o d1 d2 d3 : ℚ) (v : Int) (hsc : sc ≠ 0)
    (h1 : Double.ofRat (s - o) = Double.fin d1) (h2 : Double.ofRat (d1 / sc) = Double.fin d2)
    (h3 : Double.ofRat (d2 + 1 / 2) = Double.fin d3) (hv : ⌊d3⌋ = v)
    (hr : -(2 : Int) ^ 63 ≤ v ∧ v < (2 : Int) ^ 63) :
    ScaledIntegerNodeImpl.toRaw (Double.fin s) (Double.fin sc) (Double.fin o) = some v := by
  have hsub : Double.sub (Double.fin s) (Double.fin o) = Double.ofRat (s - o) := by
    simp only [Double.sub, Double.neg, Double.add, sub_eq_add_neg]
  have hdiv : Double.div (Double.fin d1) (Double.fin sc) = Double.ofRat (d1 / sc) := by
    simp only [Double.div, if_neg hsc]
  have hadd : Double.add (Double.fin d2) (Double.fin (1 / 2)) = Double.ofRat (d2 + 1 / 2) := by
    simp only [Double.add]
  unfold ScaledIntegerNodeImpl.toRaw
  rw [hsub, h1, hdiv, h2, hadd, h3]
  simp only [Double.floor]
  rw [hv]
  exact Double.toInt64_intCast v hr

/-- For a positive scale the conversion to a raw value is monotone in the scaled
value. -/
theorem ScaledIntegerNodeImpl.toRaw_mono (s t sc o : ℚ) (v w : Int) (hsc : 0 < sc) (h : s ≤ t)
    (hs : ScaledIntegerNodeImpl.toRaw (Double.fin s) (Double.fin sc) (Double.fin o) = some v)
    (ht : ScaledIntegerNodeImpl.toRaw (Double.fin t) (Double.fin sc) (Double.fin o) = some w) :
    v ≤ w := by
  obtain ⟨-, a1, a2, a3, -, -, -, ha1, ha2, ha3, hv⟩ := ScaledIntegerNodeImpl.toRaw_fin_some _ _ _ _ hs
  obtain ⟨-, b1, b2, b3, -, -, -, hb1, hb2, hb3, hw⟩ := ScaledIntegerNodeImpl.toRaw_fin_some _ _ _ _ ht
  have h1 : a1 ≤ b1 := Double.ofRat_mono _ _ _ _ (by linarith) ha1 hb1
  have h2 : a2 ≤ b2 :=
    Double.ofRat_mono _ _ _ _ (div_le_div_of_nonneg_right h1 hsc.le) ha2 hb2
  have h3 : a3 ≤ b3 := Double.ofRat_mono _ _ _ _ (by linarith) ha3 hb3
  rw [hv, hw]
  exact Int.floor_mono h3

/-- With a zero scale the quotient of the conversion is an infinity or NaN, whose cast
to `int64_t` is undefined: no raw value is defined. -/
theorem ScaledIntegerNodeImpl.toRaw_zero_scale (s o : Double) :
    ScaledIntegerNodeImpl.toRaw s (Double.fin 0) o = none := by
  unfold ScaledIntegerNodeImpl.toRaw
  cases h : Double.sub s o with
  | nan => simp [Double.div, Double.add, Double.floor, Double.toInt64]
  | negInf => simp [Double.div, Double.add, Double.floor, Double.toInt64]
  | posInf => simp [Double.div, Double.add, Double.floor, Double.toInt64]
  | fin d =>
    by_cases hd0 : d = 0
    · simp [Double.div, Double.add, Double.floor, Double.toInt64, hd0]
    · by_cases hdp : 0 < d <;>
        simp [Double.div, Double.add, Double.floor, Double.toInt64, hd0, hdp]

/-! ## Facts about the construction of a ScaledInteger -/

/-- What a successful construction from scaled inputs stores. -/
theorem ScaledIntegerNodeImpl.newScaled_ok (base : NodeImpl) (sv smin smax sc o : Double)
    (n : ScaledIntegerNodeImpl)
    (h : ScaledIntegerNodeImpl.newScaled base sv smin smax sc o = some (Except.ok n)) :
    ScaledIntegerNodeImpl.toRaw sv sc o = some n.value_ ∧
    ScaledIntegerNodeImpl.toRaw smin sc o = some n.minimum_ ∧
    ScaledIntegerNodeImpl.toRaw smax sc o = some n.maximum_ ∧
    n.scale_ = sc ∧ n.offset_ = o ∧ n.toNodeImpl = base ∧
    Double.lt sv smin = false ∧ Double.lt smax sv = false := by
  unfold ScaledIntegerNodeImpl.newScaled at h
  cases hv : ScaledIntegerNodeImpl.toRaw sv sc o with
  | none => simp [hv] at h
  | some v =>
    cases hmin : ScaledIntegerNodeImpl.toRaw smin sc o with
    | none => simp [hv, hmin] at h
    | some mn =>
      cases hmax : ScaledIntegerNodeImpl.toRaw smax sc o with
      | none => simp [hv, hmin, hmax] at h
      | some mx =>
        simp only [hv, hmin, hmax, Option.bind_eq_bind, Option.some_bind] at h
        by_cases hc : (Double.lt sv smin || Double.lt smax sv) = true
        · simp [hc] at h
        · simp only [hc] at h
          simp only [Bool.false_eq_true, ↓reduceIte, Option.some.injEq, Except.ok.injEq] at h
          subst h
          simp only [Bool.or_eq_true, not_or, Bool.not_eq_true] at hc
          simp [hc.1, hc.2]

/-! ## C1: Integer construction -/

/-- C1: constructing an Integer node from (value, minimum, maximum) fails, with
ValueOutOfBounds, exactly when `value < minimum` or `value > maximum`; otherwise it
succeeds and the node stores the three arguments, so `minimum <= value <= maximum`
holds of the node and of what its accessors return on an open session. -/
theorem IntegerNodeImpl.new_spec (base : NodeImpl) (value minimum maximum : Int) :
    (IntegerNodeImpl.new base value minimum maximum
        = Except.error ErrorCode.E57_ERROR_VALUE_OUT_OF_BOUNDS
      ↔ (value < minimum ∨ value > maximum)) ∧
    ((∃ e, IntegerNodeImpl.new base value minimum maximum = Except.error e)
      ↔ (value < minimum ∨ value > maximum)) ∧
    (IntegerNodeImpl.new base value minimum maximum
        = Except.ok { toNodeImpl := base, value_ := value, minimum_ := minimum,
                      maximum_ := maximum }
      ↔ (minimum ≤ value ∧ value ≤ maximum)) ∧
    (∀ n, IntegerNodeImpl.new base value minimum maximum = Except.ok n →
      n.value_ = value ∧ n.minimum_ = minimum ∧ n.maximum_ = maximum ∧
      n.minimum_ ≤ n.value_ ∧ n.value_ ≤ n.maximum_ ∧
      ∀ imf : ImageFileImpl, imf.isOpen = true →
        n.value imf = Except.ok value ∧ n.minimum imf = Except.ok minimum ∧
        n.maximum imf = Except.ok maximum) := by
  have key : ∀ n, IntegerNodeImpl.new base value minimum maximum = Except.ok n →
      n = { toNodeImpl := base, value_ := value, minimum_ := minimum, maximum_ := maximum } ∧
      minimum ≤ value ∧ value ≤ maximum := by
    intro n hn
    unfold IntegerNodeImpl.new at hn
    split at hn
    · cases hn
    · rename_i h
      cases hn
      exact ⟨rfl, by omega, by omega⟩
  have bad : (value < minimum ∨ value > maximum) →
      IntegerNodeImpl.new base value minimum maximum
        = Except.error ErrorCode.E57_ERROR_VALUE_OUT_OF_BOUNDS := by
    intro h
    unfold IntegerNodeImpl.new
    rw [if_pos h]
  have good : (minimum ≤ value ∧ value ≤ maximum) →
      IntegerNodeImpl.new base value minimum maximum
        = Except.ok { toNodeImpl := base, value_ := value, minimum_ := minimum,
                      maximum_ := maximum } := by
    intro h
    unfold IntegerNodeImpl.new
    rw [if_neg (by omega)]
  refine ⟨⟨fun h => ?_, bad⟩, ⟨fun h => ?_, fun h => ⟨_, bad h⟩⟩, ⟨fun h => (key _ h).2, good⟩, ?_⟩
  · by_contra hc
    rw [good (by omega)] at h
    cases h
  · by_contra hc
    obtain ⟨e, he⟩ := h
    rw [good (by omega)] at he
    cases he
  · intro n hn
    obtain ⟨rfl, h1, h2⟩ := key n hn
    refine ⟨rfl, rfl, rfl, h1, h2, ?_⟩
    intro imf himf
    simp [IntegerNodeImpl.value, IntegerNodeImpl.minimum, IntegerNodeImpl.maximum,
      checkImageFileOpen, himf, bind, Except.bind, pure, Except.pure]

/-- C1, at an input: the node built from value 5 and bounds 0 and 10. -/
theorem IntegerNodeImpl.new_spec_witness :
    IntegerNodeImpl.new ⟨[], false⟩ 5 0 10 = Except.ok ⟨⟨[], false⟩, 5, 0, 10⟩ ∧
    (⟨⟨[], false⟩, 5, 0, 10⟩ : IntegerNodeImpl).minimum_ ≤ 5 ∧
    IntegerNodeImpl.new ⟨[], false⟩ 11 0 10 = Except.error ErrorCode.E57_ERROR_VALUE_OUT_OF_BOUNDS :=
  ⟨rfl,
   ((IntegerNodeImpl.new_spec ⟨[], false⟩ 5 0 10).2.2.2 ⟨⟨[], false⟩, 5, 0, 10⟩ rfl).2.2.2.1,
   (IntegerNodeImpl.new_spec ⟨[], false⟩ 11 0 10).1.2 (Or.inr (by decide))⟩



/-! ## C2: the bounds of a Float node -/

/-- C2, at the failing input: a single-precision Float node constructed with value
`2^128` and the default bounds `E57_DOUBLE_MIN`, `E57_DOUBLE_MAX` is accepted, its stored
maximum is narrowed to `E57_FLOAT_MAX`, and its value is not within its stored bounds. -/
theorem FloatNodeImpl.new_single_value_above_maximum :
    FloatNodeImpl.new ⟨[], false⟩ (Double.fin ((2 : ℚ) ^ 128)) FloatPrecision.E57_SINGLE
        E57_DOUBLE_MIN E57_DOUBLE_MAX
      = Except.ok { toNodeImpl := ⟨[], false⟩, value_ := Double.fin ((2 : ℚ) ^ 128),
                    precision_ := FloatPrecision.E57_SINGLE,
                    minimum_ := E57_FLOAT_MIN, maximum_ := E57_FLOAT_MAX } ∧
    Double.le (Double.fin ((2 : ℚ) ^ 128)) E57_FLOAT_MAX = false ∧
    Double.lt E57_FLOAT_MAX (Double.fin ((2 : ℚ) ^ 128)) = true := by
  refine ⟨?_, ?_, ?_⟩
  · simp only [FloatNodeImpl.new, E57_DOUBLE_MIN, E57_DOUBLE_MAX, E57_FLOAT_MIN, E57_FLOAT_MAX,
      Double.lt, Double.gt]
    norm_num
  · simp only [E57_FLOAT_MAX, Double.le]
    norm_num
  · simp only [E57_FLOAT_MAX, Double.lt]
    norm_num

/-! ## C5, C6, C7: ScaledInteger construction -/

/-- The conversion to a raw value when the subtraction is exact and the quotient is a
small integer: that integer. -/
theorem ScaledIntegerNodeImpl.toRaw_of_int_quotient (s sc o : ℚ) (m : ℤ) (hsc : sc ≠ 0)
    (h1 : Double.ofRat (s - o) = Double.fin (s - o)) (hq : (s - o) / sc = (m : ℚ))
    (hm : |2 * m + 1| < 2 ^ 53) :
    ScaledIntegerNodeImpl.toRaw (Double.fin s) (Double.fin sc) (Double.fin o) = some m := by
  have hm2 : |m| < 2 ^ 53 := by
    rw [abs_lt] at hm ⊢
    constructor <;> omega
  have hm3 : -(2 : Int) ^ 63 ≤ m ∧ m < (2 : Int) ^ 63 := by
    rw [abs_lt] at hm2
    constructor <;> omega
  refine ScaledIntegerNodeImpl.toRaw_eval s sc o (s - o) (m : ℚ) ((m : ℚ) + 1 / 2) m hsc h1 ?_
    (Double.ofRat_add_half m hm) ?_ hm3
  · rw [hq]
    exact Double.ofRat_intCast m hm2
  · rw [Int.floor_eq_iff]
    constructor <;> linarith

/-- The construction from finite scaled inputs, from the three raw values and the check
of the scaled arguments. -/
theorem ScaledIntegerNodeImpl.newScaled_eval (base : NodeImpl) (sv smin smax sc o : ℚ)
    (v mn mx : Int)
    (hv : ScaledIntegerNodeImpl.toRaw (Double.fin sv) (Double.fin sc) (Double.fin o) = some v)
    (hmn : ScaledIntegerNodeImpl.toRaw (Double.fin smin) (Double.fin sc) (Double.fin o) = some mn)
    (hmx : ScaledIntegerNodeImpl.toRaw (Double.fin smax) (Double.fin sc) (Double.fin o) = some mx)
    (hlo : smin ≤ sv) (hhi : sv ≤ smax) :
    ScaledIntegerNodeImpl.newScaled base (Double.fin sv) (Double.fin smin) (Double.fin smax)
        (Double.fin sc) (Double.fin o)
      = some (Except.ok { toNodeImpl := base, value_ := v, minimum_ := mn, maximum_ := mx,
                          scale_ := Double.fin sc, offset_ := Double.fin o }) := by
  have h1 : Double.lt (Double.fin sv) (Double.fin smin) = false := by
    simp only [Double.lt, decide_eq_false_iff_not, not_lt]
    exact hlo
  have h2 : Double.lt (Double.fin smax) (Double.fin sv) = false := by
    simp only [Double.lt, decide_eq_false_iff_not, not_lt]
    exact hhi
  simp only [ScaledIntegerNodeImpl.newScaled, hv, hmn, hmx, h1, h2, Option.bind_eq_bind,
    Option.some_bind, Bool.or_self, Bool.false_eq_true, ↓reduceIte]

/-- What a successful construction from finite scaled inputs stores: the scale is not
zero, each raw field is the conversion of its own scaled argument, and the scaled value
lies between the scaled bounds. -/
theorem ScaledIntegerNodeImpl.newScaled_fin_ok (base : NodeImpl) (sv smin smax sc o : ℚ)
    (n : ScaledIntegerNodeImpl)
    (h : ScaledIntegerNodeImpl.newScaled base (Double.fin sv) (Double.fin smin) (Double.fin smax)
          (Double.fin sc) (Double.fin o) = some (Except.ok n)) :
    sc ≠ 0 ∧
    ScaledIntegerNodeImpl.toRaw (Double.fin sv) (Double.fin sc) (Double.fin o) = some n.value_ ∧
    ScaledIntegerNodeImpl.toRaw (Double.fin smin) (Double.fin sc) (Double.fin o)
      = some n.minimum_ ∧
    ScaledIntegerNodeImpl.toRaw (Double.fin smax) (Double.fin sc) (Double.fin o)
      = some n.maximum_ ∧
    smin ≤ sv ∧ sv ≤ smax := by
  obtain ⟨hv, hmin, hmax, -, -, -, hlo, hhi⟩ := ScaledIntegerNodeImpl.newScaled_ok _ _ _ _ _ _ _ h
  simp only [Double.lt, decide_eq_false_iff_not, not_lt] at hlo hhi
  exact ⟨(ScaledIntegerNodeImpl.toRaw_fin_some _ _ _ _ hv).1, hv, hmin, hmax, hlo, hhi⟩

/-- The quotient `10 / 0.1` in double arithmetic is 100. -/
theorem Double.ten_div_tenth : Double.ofRat (10 / doubleTenth) = Double.fin 100 := by
  have h := Double.ofRat_pos_eval (10 / doubleTenth) 6 (-46) 7036874417766400
    (by unfold doubleTenth; norm_num) (by unfold doubleTenth; norm_num) (by decide)
    (Double.roundHalfEven_of_abs_lt _ _ (by unfold doubleTenth; rw [abs_lt]; norm_num))
    (by unfold Double.maxFinite; norm_num)
  rw [h]
  norm_num

/-- The quotient `100 / 0.1` in double arithmetic is 1000. -/
theorem Double.hundred_div_tenth : Double.ofRat (100 / doubleTenth) = Double.fin 1000 := by
  have h := Double.ofRat_pos_eval (100 / doubleTenth) 9 (-43) 8796093022208000
    (by unfold doubleTenth; norm_num) (by unfold doubleTenth; norm_num) (by decide)
    (Double.roundHalfEven_of_abs_lt _ _ (by unfold doubleTenth; rw [abs_lt]; norm_num))
    (by unfold Double.maxFinite; norm_num)
  rw [h]
  norm_num

/-- The sum of the double just below one half and one half is, in double arithmetic,
one: the exact sum `1 - 2^(-54)` is half-way between two doubles and goes to the even
one. -/
theorem Double.halfBelow_add_half : Double.ofRat (halfBelow + 1 / 2) = Double.fin 1 := by
  have h := Double.ofRat_pos_eval (halfBelow + 1 / 2) (-1) (-53) 9007199254740992
    (by unfold halfBelow; norm_num) (by unfold halfBelow; norm_num) (by decide)
    (by
      rw [Double.roundHalfEven_of_tie _ 9007199254740991 (by unfold halfBelow; norm_num)]
      decide)
    (by unfold Double.maxFinite; norm_num)
  rw [h]
  norm_num

/-- The double just below one half is a binary64 value. -/
theorem Double.ofRat_halfBelow : Double.ofRat halfBelow = Double.fin halfBelow :=
  Double.ofRat_of_representable _ 9007199254740991 (-54) (by unfold halfBelow; norm_num)
    (by norm_num) (by norm_num) (by norm_num)

/-- The construction of the spec: scaled value 10, scaled bounds 0 and 100, scale 0.1
(the double nearest to one tenth) and offset 0. -/
theorem ScaledIntegerNodeImpl.newScaled_tenth (base : NodeImpl) :
    ScaledIntegerNodeImpl.newScaled base (Double.fin 10) (Double.fin 0) (Double.fin 100)
        (Double.fin doubleTenth) (Double.fin 0)
      = some (Except.ok { toNodeImpl := base, value_ := 100, minimum_ := 0, maximum_ := 1000,
                          scale_ := Double.fin doubleTenth, offset_ := Double.fin 0 }) := by
  have h0 : doubleTenth ≠ 0 := by unfold doubleTenth; norm_num
  have e10 : Double.ofRat ((10 : ℚ) - 0) = Double.fin 10 := by
    rw [sub_zero]
    exact_mod_cast Double.ofRat_intCast 10 (by norm_num)
  have e100 : Double.ofRat ((100 : ℚ) - 0) = Double.fin 100 := by
    rw [sub_zero]
    exact_mod_cast Double.ofRat_intCast 100 (by norm_num)
  have e0 : Double.ofRat ((0 : ℚ) - 0) = Double.fin ((0 : ℚ) - 0) := by
    rw [sub_zero]
    exact Double.ofRat_zero
  apply ScaledIntegerNodeImpl.newScaled_eval
  · refine ScaledIntegerNodeImpl.toRaw_eval 10 doubleTenth 0 10 100 ((100 : ℚ) + 1 / 2) 100 h0
      e10 Double.ten_div_tenth ?_ ?_ (by norm_num)
    · exact_mod_cast Double.ofRat_add_half 100 (by norm_num)
    · rw [Int.floor_eq_iff]
      norm_num
  · exact_mod_cast ScaledIntegerNodeImpl.toRaw_of_int_quotient 0 doubleTenth 0 0 h0 e0
      (by norm_num) (by norm_num)
  · refine ScaledIntegerNodeImpl.toRaw_eval 100 doubleTenth 0 100 1000 ((1000 : ℚ) + 1 / 2) 1000
      h0 e100 Double.hundred_div_tenth ?_ ?_ (by norm_num)
    · exact_mod_cast Double.ofRat_add_half 1000 (by norm_num)
    · rw [Int.floor_eq_iff]
      norm_num
  · norm_num
  · norm_num

/-- The raw value is the exact `floor((scaled - offset) / scale + 1/2)` when none of the
three double operations of the conversion rounds. -/
theorem ScaledIntegerNodeImpl.toRaw_exact (s sc o : ℚ) (v : Int)
    (h : ScaledIntegerNodeImpl.toRaw (Double.fin s) (Double.fin sc) (Double.fin o) = some v)
    (e1 : Double.ofRat (s - o) = Double.fin (s - o))
    (e2 : Double.ofRat ((s - o) / sc) = Double.fin ((s - o) / sc))
    (e3 : Double.ofRat ((s - o) / sc + 1 / 2) = Double.fin ((s - o) / sc + 1 / 2)) :
    v = ⌊(s - o) / sc + 1 / 2⌋ := by
  obtain ⟨-, d1, d2, d3, -, -, -, h1, h2, h3, hv⟩ := ScaledIntegerNodeImpl.toRaw_fin_some _ _ _ _ h
  have hd1 : d1 = s - o := by
    rw [e1] at h1
    exact (Double.fin.inj h1).symm
  subst hd1
  have hd2 : d2 = (s - o) / sc := by
    rw [e2] at h2
    exact (Double.fin.inj h2).symm
  subst hd2
  have hd3 : d3 = (s - o) / sc + 1 / 2 := by
    rw [e3] at h3
    exact (Double.fin.inj h3).symm
  subst hd3
  exact hv

/-- C5, amended: the constructor from scaled inputs stores, for the value and for each
bound independently, the floor of `(scaled - offset) / scale + 0.5` evaluated in double
arithmetic, the subtraction, the division and the addition each rounded to the nearest
double. For finite inputs this is the exact `floor((scaled - offset)/scale + 1/2)`
whenever none of the three operations rounds. With scaled value 10, scaled bounds 0 and
100, scale 0.1 and offset 0 the raw value is 100 and the raw bounds are 0 and 1000. -/
theorem ScaledIntegerNodeImpl.newScaled_raw (base : NodeImpl) :
    (∀ (sv smin smax sc o : Double) (n : ScaledIntegerNodeImpl),
      ScaledIntegerNodeImpl.newScaled base sv smin smax sc o = some (Except.ok n) →
        Double.floor (Double.add (Double.div (Double.sub sv o) sc) (Double.fin (1 / 2)))
          = Double.fin (n.value_ : ℚ) ∧
        Double.floor (Double.add (Double.div (Double.sub smin o) sc) (Double.fin (1 / 2)))
          = Double.fin (n.minimum_ : ℚ) ∧
        Double.floor (Double.add (Double.div (Double.sub smax o) sc) (Double.fin (1 / 2)))
          = Double.fin (n.maximum_ : ℚ)) ∧
    (∀ (sv smin smax sc o : ℚ) (n : ScaledIntegerNodeImpl),
      ScaledIntegerNodeImpl.newScaled base (Double.fin sv) (Double.fin smin) (Double.fin smax)
          (Double.fin sc) (Double.fin o) = some (Except.ok n) →
        (Double.ofRat (sv - o) = Double.fin (sv - o) →
          Double.ofRat ((sv - o) / sc) = Double.fin ((sv - o) / sc) →
          Double.ofRat ((sv - o) / sc + 1 / 2) = Double.fin ((sv - o) / sc + 1 / 2) →
            n.value_ = ⌊(sv - o) / sc + 1 / 2⌋) ∧
        (Double.ofRat (smin - o) = Double.fin (smin - o) →
          Double.ofRat ((smin - o) / sc) = Double.fin ((smin - o) / sc) →
          Double.ofRat ((smin - o) / sc + 1 / 2) = Double.fin ((smin - o) / sc + 1 / 2) →
            n.minimum_ = ⌊(smin - o) / sc + 1 / 2⌋) ∧
        (Double.ofRat (smax - o) = Double.fin (smax - o) →
          Double.ofRat ((smax - o) / sc) = Double.fin ((smax - o) / sc) →
          Double.ofRat ((smax - o) / sc + 1 / 2) = Double.fin ((smax - o) / sc + 1 / 2) →
            n.maximum_ = ⌊(smax - o) / sc + 1 / 2⌋)) ∧
    ScaledIntegerNodeImpl.newScaled base (Double.fin 10) (Double.fin 0) (Double.fin 100)
        (Double.fin doubleTenth) (Double.fin 0)
      = some (Except.ok { toNodeImpl := base, value_ := 100, minimum_ := 0, maximum_ := 1000,
                          scale_ := Double.fin doubleTenth, offset_ := Double.fin 0 }) ∧
    (∀ imf : ImageFileImpl, imf.isOpen = true →
      ScaledIntegerNodeImpl.rawValue
        { toNodeImpl := base, value_ := 100, minimum_ := 0, maximum_ := 1000,
          scale_ := Double.fin doubleTenth, offset_ := Double.fin 0 } imf = Except.ok 100) := by
  refine ⟨?_, ?_, ScaledIntegerNodeImpl.newScaled_tenth base, ?_⟩
  · intro sv smin smax sc o n h
    obtain ⟨hv, hmin, hmax, -⟩ := ScaledIntegerNodeImpl.newScaled_ok _ _ _ _ _ _ _ h
    exact ⟨Double.toInt64_floor _ _ hv, Double.toInt64_floor _ _ hmin,
      Double.toInt64_floor _ _ hmax⟩
  · intro sv smin smax sc o n h
    obtain ⟨-, hv, hmin, hmax, -⟩ := ScaledIntegerNodeImpl.newScaled_fin_ok _ _ _ _ _ _ _ h
    exact ⟨ScaledIntegerNodeImpl.toRaw_exact _ _ _ _ hv,
      ScaledIntegerNodeImpl.toRaw_exact _ _ _ _ hmin,
      ScaledIntegerNodeImpl.toRaw_exact _ _ _ _ hmax⟩
  · intro imf himf
    simp [ScaledIntegerNodeImpl.rawValue, checkImageFileOpen, himf, bind, Except.bind, pure,
      Except.pure]

/-- C5 amended, at an input: scaled value 10, bounds 0 and 100, scale 0.1 and offset 0 give the
raw value 100, which is the floor of `(10 - 0) / 0.1 + 0.5` in double arithmetic. -/
theorem ScaledIntegerNodeImpl.newScaled_raw_witness :
    ScaledIntegerNodeImpl.newScaled ⟨[], false⟩ (Double.fin 10) (Double.fin 0) (Double.fin 100)
        (Double.fin doubleTenth) (Double.fin 0)
      = some (Except.ok { toNodeImpl := ⟨[], false⟩, value_ := 100, minimum_ := 0,
                          maximum_ := 1000, scale_ := Double.fin doubleTenth,
                          offset_ := Double.fin 0 }) ∧
    Double.floor (Double.add (Double.div (Double.sub (Double.fin 10) (Double.fin 0))
        (Double.fin doubleTenth)) (Double.fin (1 / 2))) = Double.fin ((100 : Int) : ℚ) :=
  ⟨(ScaledIntegerNodeImpl.newScaled_raw ⟨[], false⟩).2.2.1,
   ((ScaledIntegerNodeImpl.newScaled_raw ⟨[], false⟩).1 _ _ _ _ _ _
      (ScaledIntegerNodeImpl.newScaled_raw ⟨[], false⟩).2.2.1).1⟩

/-- C5, as stated, fails: with the double just below one half as scaled
value, scaled bounds 0 and 1, scale 1 and offset 0, the constructor stores the raw value
1, while `floor((scaled - offset)/scale + 1/2)` is 0: the sum with 0.5 rounds up to 1. -/
theorem ScaledIntegerNodeImpl.newScaled_half_below :
    ScaledIntegerNodeImpl.newScaled ⟨[], false⟩ (Double.fin halfBelow) (Double.fin 0)
        (Double.fin 1) (Double.fin 1) (Double.fin 0)
      = some (Except.ok { toNodeImpl := ⟨[], false⟩, value_ := 1, minimum_ := 0,
                          maximum_ := 1, scale_ := Double.fin 1, offset_ := Double.fin 0 }) ∧
    ⌊(halfBelow - 0) / 1 + 1 / 2⌋ = 0 ∧
    (1 : Int) ≠ ⌊(halfBelow - 0) / 1 + 1 / 2⌋ := by
  have hfl : ⌊(halfBelow - 0) / 1 + 1 / 2⌋ = 0 := by
    rw [Int.floor_eq_iff]
    unfold halfBelow
    norm_num
  refine ⟨?_, hfl, by rw [hfl]; decide⟩
  have e0 : Double.ofRat ((0 : ℚ) - 0) = Double.fin ((0 : ℚ) - 0) := by
    rw [sub_zero]
    exact Double.ofRat_zero
  have e1 : Double.ofRat ((1 : ℚ) - 0) = Double.fin ((1 : ℚ) - 0) := by
    rw [sub_zero]
    exact_mod_cast Double.ofRat_intCast 1 (by norm_num)
  apply ScaledIntegerNodeImpl.newScaled_eval
  · refine ScaledIntegerNodeImpl.toRaw_eval halfBelow 1 0 halfBelow halfBelow 1 1 (by norm_num)
      ?_ ?_ Double.halfBelow_add_half (by norm_num) (by norm_num)
    · rw [sub_zero]
      exact Double.ofRat_halfBelow
    · rw [div_one]
      exact Double.ofRat_halfBelow
  · exact_mod_cast ScaledIntegerNodeImpl.toRaw_of_int_quotient 0 1 0 0 (by norm_num) e0
      (by norm_num) (by norm_num)
  · exact_mod_cast ScaledIntegerNodeImpl.toRaw_of_int_quotient 1 1 0 1 (by norm_num) e1
      (by norm_num) (by norm_num)
  · unfold halfBelow
    norm_num
  · unfold halfBelow
    norm_num

/-- The accessor `scaledValue` on an open session: the product of the raw value and the
scale, rounded, plus the offset, rounded. -/
theorem ScaledIntegerNodeImpl.scaledValue_open (n : ScaledIntegerNodeImpl) (imf : ImageFileImpl)
    (himf : imf.isOpen = true) :
    n.scaledValue imf
      = Except.ok (Double.add (Double.mul (Double.ofInt64 n.value_) n.scale_) n.offset_) := by
  simp [ScaledIntegerNodeImpl.scaledValue, checkImageFileOpen, himf, bind, Except.bind, pure,
    Except.pure]

/-- The raw value of the construction with scale `1e-6` and offset `1e12`. -/
theorem ScaledIntegerNodeImpl.toRaw_far_value :
    ScaledIntegerNodeImpl.toRaw (Double.fin doubleThousandth) (Double.fin doubleMillionth)
        (Double.fin 1000000000000) = some (-999999999999999104) := by
  have h1 : Double.ofRat ((doubleThousandth : ℚ) - 1000000000000)
      = Double.fin (-1023999999999999 / 1024) := by
    have h := Double.ofRat_neg_eval
      ((doubleThousandth : ℚ) - 1000000000000) 39 (-13) 8191999999999992
      (by unfold doubleThousandth; norm_num) (by unfold doubleThousandth; norm_num) (by decide)
      (Double.roundHalfEven_of_abs_lt _ _ (by unfold doubleThousandth; rw [abs_lt]; norm_num))
      (by unfold Double.maxFinite; norm_num)
    rw [h]
    norm_num
  have h2 : Double.ofRat ((-1023999999999999 / 1024) / doubleMillionth)
      = Double.fin (-999999999999999104) := by
    have h := Double.ofRat_neg_eval
      ((-1023999999999999 / 1024) / doubleMillionth) 59 7 7812499999999993
      (by unfold doubleMillionth; norm_num) (by unfold doubleMillionth; norm_num) (by decide)
      (Double.roundHalfEven_of_abs_lt _ _ (by unfold doubleMillionth; rw [abs_lt]; norm_num))
      (by unfold Double.maxFinite; norm_num)
    rw [h]
    norm_num
  have h3 : Double.ofRat (((-999999999999999104) : ℚ) + 1 / 2)
      = Double.fin (-999999999999999104) := by
    have h := Double.ofRat_neg_eval (((-999999999999999104) : ℚ) + 1 / 2) 59 7 7812499999999993
      (by norm_num) (by norm_num) (by decide)
      (Double.roundHalfEven_of_abs_lt _ _ (by rw [abs_lt]; norm_num))
      (by unfold Double.maxFinite; norm_num)
    rw [h]
    norm_num
  exact ScaledIntegerNodeImpl.toRaw_eval _ _ _ _ _ _ _ (by unfold doubleMillionth; norm_num)
    h1 h2 h3 (by rw [Int.floor_eq_iff]; norm_num) (by norm_num)

/-- The raw minimum of the construction with scale `1e-6` and offset `1e12`. -/
theorem ScaledIntegerNodeImpl.toRaw_far_minimum :
    ScaledIntegerNodeImpl.toRaw (Double.fin 0) (Double.fin doubleMillionth)
        (Double.fin 1000000000000) = some (-1000000000000000000) := by
  have h1 : Double.ofRat ((0 : ℚ) - 1000000000000) = Double.fin (-1000000000000) := by
    have h := Double.ofRat_neg_eval ((0 : ℚ) - 1000000000000) 39 (-13) 8192000000000000
      (by norm_num) (by norm_num) (by decide)
      (Double.roundHalfEven_of_abs_lt _ _ (by rw [abs_lt]; norm_num))
      (by unfold Double.maxFinite; norm_num)
    rw [h]
    norm_num
  have h2 : Double.ofRat ((-1000000000000) / doubleMillionth)
      = Double.fin (-1000000000000000000) := by
    have h := Double.ofRat_neg_eval ((-1000000000000) / doubleMillionth) 59 7 7812500000000000
      (by unfold doubleMillionth; norm_num) (by unfold doubleMillionth; norm_num) (by decide)
      (Double.roundHalfEven_of_abs_lt _ _ (by unfold doubleMillionth; rw [abs_lt]; norm_num))
      (by unfold Double.maxFinite; norm_num)
    rw [h]
    norm_num
  have h3 : Double.ofRat (((-1000000000000000000) : ℚ) + 1 / 2)
      = Double.fin (-1000000000000000000) := by
    have h := Double.ofRat_neg_eval (((-1000000000000000000) : ℚ) + 1 / 2) 59 7 7812500000000000
      (by norm_num) (by norm_num) (by decide)
      (Double.roundHalfEven_of_abs_lt _ _ (by rw [abs_lt]; norm_num))
      (by unfold Double.maxFinite; norm_num)
    rw [h]
    norm_num
  exact ScaledIntegerNodeImpl.toRaw_eval _ _ _ _ _ _ _ (by unfold doubleMillionth; norm_num)
    h1 h2 h3 (by rw [Int.floor_eq_iff]; norm_num) (by norm_num)

/-- The raw maximum of the construction with scale `1e-6` and offset `1e12`. -/
theorem ScaledIntegerNodeImpl.toRaw_far_maximum :
    ScaledIntegerNodeImpl.toRaw (Double.fin 1) (Double.fin doubleMillionth)
        (Double.fin 1000000000000) = some (-999999999999000064) := by
  have h1 : Double.ofRat ((1 : ℚ) - 1000000000000) = Double.fin (-999999999999) := by
    have h := Double.ofRat_neg_eval ((1 : ℚ) - 1000000000000) 39 (-13) 8191999999991808
      (by norm_num) (by norm_num) (by decide)
      (Double.roundHalfEven_of_abs_lt _ _ (by rw [abs_lt]; norm_num))
      (by unfold Double.maxFinite; norm_num)
    rw [h]
    norm_num
  have h2 : Double.ofRat ((-999999999999) / doubleMillionth)
      = Double.fin (-999999999999000064) := by
    have h := Double.ofRat_neg_eval ((-999999999999) / doubleMillionth) 59 7 7812499999992188
      (by unfold doubleMillionth; norm_num) (by unfold doubleMillionth; norm_num) (by decide)
      (Double.roundHalfEven_of_abs_lt _ _ (by unfold doubleMillionth; rw [abs_lt]; norm_num))
      (by unfold Double.maxFinite; norm_num)
    rw [h]
    norm_num
  have h3 : Double.ofRat (((-999999999999000064) : ℚ) + 1 / 2)
      = Double.fin (-999999999999000064) := by
    have h := Double.ofRat_neg_eval (((-999999999999000064) : ℚ) + 1 / 2) 59 7 7812499999992188
      (by norm_num) (by norm_num) (by decide)
      (Double.roundHalfEven_of_abs_lt _ _ (by rw [abs_lt]; norm_num))
      (by unfold Double.maxFinite; norm_num)
    rw [h]
    norm_num
  exact ScaledIntegerNodeImpl.toRaw_eval _ _ _ _ _ _ _ (by unfold doubleMillionth; norm_num)
    h1 h2 h3 (by rw [Int.floor_eq_iff]; norm_num) (by norm_num)

/-- What `scaledValue()` computes for raw value -999999999999999104, scale `1e-6` and offset
`1e12`: `2^(-10)`, which is 0.0009765625. -/
theorem ScaledIntegerNodeImpl.scaledValue_far :
    Double.add (Double.mul (Double.ofInt64 (-999999999999999104)) (Double.fin doubleMillionth))
        (Double.fin 1000000000000) = Double.fin (1 / 1024) := by
  have h1 : Double.ofRat (((-999999999999999104 : Int) : ℚ))
      = Double.fin (-999999999999999104) := by
    have h := Double.ofRat_neg_eval (((-999999999999999104 : Int) : ℚ)) 59 7 7812499999999993
      (by norm_num) (by norm_num) (by decide)
      (Double.roundHalfEven_of_abs_lt _ _ (by rw [abs_lt]; norm_num))
      (by unfold Double.maxFinite; norm_num)
    rw [h]
    norm_num
  have h2 : Double.ofRat ((-999999999999999104) * doubleMillionth)
      = Double.fin (-1023999999999999 / 1024) := by
    have h := Double.ofRat_neg_eval
      ((-999999999999999104) * doubleMillionth) 39 (-13) 8191999999999992
      (by unfold doubleMillionth; norm_num) (by unfold doubleMillionth; norm_num) (by decide)
      (Double.roundHalfEven_of_abs_lt _ _ (by unfold doubleMillionth; rw [abs_lt]; norm_num))
      (by unfold Double.maxFinite; norm_num)
    rw [h]
    norm_num
  have h3 : Double.ofRat ((-1023999999999999 / 1024) + 1000000000000) = Double.fin (1 / 1024) := by
    have h := Double.ofRat_pos_eval
      ((-1023999999999999 / 1024) + 1000000000000) (-10) (-62) 4503599627370496
      (by norm_num) (by norm_num) (by decide)
      (Double.roundHalfEven_of_abs_lt _ _ (by rw [abs_lt]; norm_num))
      (by unfold Double.maxFinite; norm_num)
    rw [h]
    norm_num
  unfold Double.ofInt64
  rw [h1, Double.mul_fin, h2, Double.add_fin, h3]

/-- A second construction where the bound of C6 fails, with a large offset: scaled value
0.001 with scaled bounds 0 and 1, scale `1e-6` and offset `1e12`. The difference
`0.001 - 1e12` is rounded to a multiple of `2^(-13)` and the quotient to a multiple of
128; the raw value is -999999999999999104, more than 58 scale units away from the scaled
value, and `scaledValue()` returns 0.0009765625. -/
theorem ScaledIntegerNodeImpl.newScaled_far_offset :
    ScaledIntegerNodeImpl.newScaled ⟨[], false⟩ (Double.fin doubleThousandth) (Double.fin 0)
        (Double.fin 1) (Double.fin doubleMillionth) (Double.fin 1000000000000)
      = some (Except.ok { toNodeImpl := ⟨[], false⟩, value_ := -999999999999999104,
                          minimum_ := -1000000000000000000, maximum_ := -999999999999000064,
                          scale_ := Double.fin doubleMillionth,
                          offset_ := Double.fin 1000000000000 }) ∧
    58 * |doubleMillionth|
      < |((-999999999999999104 : Int) : ℚ) * doubleMillionth + 1000000000000 - doubleThousandth| ∧
    ScaledIntegerNodeImpl.scaledValue
        { toNodeImpl := ⟨[], false⟩, value_ := -999999999999999104,
          minimum_ := -1000000000000000000, maximum_ := -999999999999000064,
          scale_ := Double.fin doubleMillionth, offset_ := Double.fin 1000000000000 }
        (emptySession true true)
      = Except.ok (Double.fin (1 / 1024)) := by
  refine ⟨?_, ?_, ?_⟩
  · apply ScaledIntegerNodeImpl.newScaled_eval
    · exact ScaledIntegerNodeImpl.toRaw_far_value
    · exact ScaledIntegerNodeImpl.toRaw_far_minimum
    · exact ScaledIntegerNodeImpl.toRaw_far_maximum
    · unfold doubleThousandth
      norm_num
    · unfold doubleThousandth
      norm_num
  · unfold doubleMillionth doubleThousandth
    rw [abs_of_pos (by norm_num), abs_of_neg (by norm_num)]
    norm_num
  · exact (ScaledIntegerNodeImpl.scaledValue_open _ (emptySession true true) rfl).trans
      (congrArg Except.ok ScaledIntegerNodeImpl.scaledValue_far)

/-- C7, at the failing input: scaled value 5 with scaled bounds 0 and 10, scale -1 and
offset 0 passes the check of the constructor, and the node has raw value -5, raw
minimum 0 and raw maximum -10: the raw value is below the raw minimum. -/
theorem ScaledIntegerNodeImpl.newScaled_negative_scale :
    ScaledIntegerNodeImpl.newScaled ⟨[], false⟩ (Double.fin 5) (Double.fin 0) (Double.fin 10)
        (Double.fin (-1)) (Double.fin 0)
      = some (Except.ok { toNodeImpl := ⟨[], false⟩, value_ := -5, minimum_ := 0,
                          maximum_ := -10, scale_ := Double.fin (-1),
                          offset_ := Double.fin 0 }) ∧
    ¬ ((0 : Int) ≤ -5) := by
  have e0 : Double.ofRat ((0 : ℚ) - 0) = Double.fin ((0 : ℚ) - 0) := by
    rw [sub_zero]
    exact Double.ofRat_zero
  have e5 : Double.ofRat ((5 : ℚ) - 0) = Double.fin ((5 : ℚ) - 0) := by
    rw [sub_zero]
    exact_mod_cast Double.ofRat_intCast 5 (by norm_num)
  have e10 : Double.ofRat ((10 : ℚ) - 0) = Double.fin ((10 : ℚ) - 0) := by
    rw [sub_zero]
    exact_mod_cast Double.ofRat_intCast 10 (by norm_num)
  refine ⟨?_, by decide⟩
  apply ScaledIntegerNodeImpl.newScaled_eval
  · exact ScaledIntegerNodeImpl.toRaw_of_int_quotient 5 (-1) 0 (-5) (by norm_num) e5
      (by norm_num) (by norm_num)
  · exact_mod_cast ScaledIntegerNodeImpl.toRaw_of_int_quotient 0 (-1) 0 0 (by norm_num) e0
      (by norm_num) (by norm_num)
  · exact ScaledIntegerNodeImpl.toRaw_of_int_quotient 10 (-1) 0 (-10) (by norm_num) e10
      (by norm_num) (by norm_num)
  · norm_num
  · norm_num

/-- Where the invariant of C7 does hold: a node built from raw inputs, and a node built
from finite scaled inputs with a positive scale, has its raw value within its raw
bounds. -/
theorem ScaledIntegerNodeImpl.raw_within_bounds (base : NodeImpl) :
    (∀ (rawValue minimum maximum : Int) (scale offset : Double) (n : ScaledIntegerNodeImpl),
      ScaledIntegerNodeImpl.newRaw base rawValue minimum maximum scale offset = Except.ok n →
        n.minimum_ ≤ n.value_ ∧ n.value_ ≤ n.maximum_) ∧
    (∀ (sv smin smax sc o : ℚ) (n : ScaledIntegerNodeImpl), 0 < sc →
      ScaledIntegerNodeImpl.newScaled base (Double.fin sv) (Double.fin smin) (Double.fin smax)
          (Double.fin sc) (Double.fin o) = some (Except.ok n) →
        n.minimum_ ≤ n.value_ ∧ n.value_ ≤ n.maximum_) := by
  constructor
  · intro rawValue minimum maximum scale offset n h
    unfold ScaledIntegerNodeImpl.newRaw at h
    split at h
    · cases h
    · cases h
      constructor <;> simp only <;> omega
  · intro sv smin smax sc o n hpos h
    obtain ⟨-, hv, hmin, hmax, hlo, hhi⟩ := ScaledIntegerNodeImpl.newScaled_fin_ok _ _ _ _ _ _ _ h
    exact ⟨ScaledIntegerNodeImpl.toRaw_mono _ _ _ _ _ _ hpos hlo hmin hv,
      ScaledIntegerNodeImpl.toRaw_mono _ _ _ _ _ _ hpos hhi hv hmax⟩

/-! ## C8 to C11: type equivalence -/

/-- C8: an Integer node is type-equivalent to a node exactly when that node is an
Integer node with the same minimum and the same maximum; the two values play no part
(equal bounds with different values are equivalent, different bounds are not). -/
theorem IntegerNodeImpl.integer_isTypeEquivalent_iff (a : IntegerNodeImpl) (b : Node) :
    (a.isTypeEquivalent b = true ↔
      ∃ bi : IntegerNodeImpl, b = Node.integer bi ∧ a.minimum_ = bi.minimum_ ∧
        a.maximum_ = bi.maximum_) ∧
    (∀ (v w : Int) (bi : IntegerNodeImpl),
      IntegerNodeImpl.isTypeEquivalent { a with value_ := v } (Node.integer { bi with value_ := w })
        = a.isTypeEquivalent (Node.integer bi)) ∧
    (∀ (base base2 : NodeImpl) (v w lo hi : Int),
      IntegerNodeImpl.isTypeEquivalent ⟨base, v, lo, hi⟩ (Node.integer ⟨base2, w, lo, hi⟩) = true) ∧
    (∀ (base base2 : NodeImpl) (v w lo hi lo2 hi2 : Int), (lo ≠ lo2 ∨ hi ≠ hi2) →
      IntegerNodeImpl.isTypeEquivalent ⟨base, v, lo, hi⟩ (Node.integer ⟨base2, w, lo2, hi2⟩)
        = false) := by
  refine ⟨?_, ?_, ?_, ?_⟩
  · cases b <;> simp [IntegerNodeImpl.isTypeEquivalent]
  · intro v w bi
    simp [IntegerNodeImpl.isTypeEquivalent]
  · intro base base2 v w lo hi
    simp [IntegerNodeImpl.isTypeEquivalent]
  · intro base base2 v w lo hi lo2 hi2 h
    simp only [IntegerNodeImpl.isTypeEquivalent]
    rcases h with h | h
    · simp [h]
    · simp [h]

/-- C8, at an input: bounds 0 and 10 against bounds 0 and 20 are not equivalent, whatever
the values. -/
theorem IntegerNodeImpl.integer_isTypeEquivalent_iff_witness :
    IntegerNodeImpl.isTypeEquivalent ⟨⟨[], false⟩, 1, 0, 10⟩ (Node.integer ⟨⟨[], false⟩, 1, 0, 20⟩)
      = false :=
  (IntegerNodeImpl.integer_isTypeEquivalent_iff ⟨⟨[], false⟩, 1, 0, 10⟩ (Node.integer ⟨⟨[], false⟩, 1, 0, 20⟩)).2.2.2
    ⟨[], false⟩ ⟨[], false⟩ 1 1 0 10 0 20 (Or.inr (by decide))

/-- C9, as stated, fails: a ScaledInteger node built from raw inputs with a NaN scale is
accepted by the constructor and is not type-equivalent to itself. -/
theorem LeafNode.isTypeEquivalent_not_reflexive :
    ScaledIntegerNodeImpl.newRaw ⟨[], false⟩ 0 0 0 Double.nan (Double.fin 0)
      = Except.ok nanScaleNode ∧
    (LeafNode.scaledInteger nanScaleNode).isTypeEquivalent
      (LeafNode.scaledInteger nanScaleNode).toNode = false := by
  constructor
  · simp [ScaledIntegerNodeImpl.newRaw, nanScaleNode]
  · simp [LeafNode.isTypeEquivalent, LeafNode.toNode, ScaledIntegerNodeImpl.isTypeEquivalent,
      Double.ne, nanScaleNode]

/-- C9, amended: over the five leaf kinds type equivalence is symmetric, and a leaf node
is type-equivalent to itself exactly when none of its compared `double` fields (scale
and offset of a ScaledInteger, minimum and maximum of a Float) is NaN. -/
theorem LeafNode.isTypeEquivalent_symm_refl (a b : LeafNode) :
    a.isTypeEquivalent b.toNode = b.isTypeEquivalent a.toNode ∧
    (a.isTypeEquivalent a.toNode = true ↔ a.hasNaNConstraint = false) := by
  constructor
  · cases a <;> cases b <;>
      simp only [LeafNode.isTypeEquivalent, LeafNode.toNode, IntegerNodeImpl.isTypeEquivalent,
        ScaledIntegerNodeImpl.isTypeEquivalent, FloatNodeImpl.isTypeEquivalent,
        StringNodeImpl.isTypeEquivalent, BlobNodeImpl.isTypeEquivalent]
    · rename_i x y
      simp only [ne_comm (a := y.minimum_) (b := x.minimum_),
        ne_comm (a := y.maximum_) (b := x.maximum_)]
    · rename_i x y
      simp only [ne_comm (a := y.minimum_) (b := x.minimum_),
        ne_comm (a := y.maximum_) (b := x.maximum_), Double.ne_comm y.scale_ x.scale_,
        Double.ne_comm y.offset_ x.offset_]
    · rename_i x y
      simp only [ne_comm (a := y.precision_) (b := x.precision_),
        Double.ne_comm y.minimum_ x.minimum_, Double.ne_comm y.maximum_ x.maximum_]
    · rename_i x y
      simp only [ne_comm (a := y.blobLogicalLength_) (b := x.blobLogicalLength_)]
  · cases a <;>
      simp [LeafNode.isTypeEquivalent, LeafNode.toNode, IntegerNodeImpl.isTypeEquivalent,
        ScaledIntegerNodeImpl.isTypeEquivalent, FloatNodeImpl.isTypeEquivalent,
        StringNodeImpl.isTypeEquivalent, BlobNodeImpl.isTypeEquivalent,
        LeafNode.hasNaNConstraint, Double.ne_self]

/-- C10: a ScaledInteger node is type-equivalent to a node exactly when that node is a
ScaledInteger node whose raw minimum and raw maximum are the same and whose scale and
offset compare equal (the C++ `==` on doubles); the raw values play no part. -/
theorem ScaledIntegerNodeImpl.scaledInteger_isTypeEquivalent_iff (a : ScaledIntegerNodeImpl) (b : Node) :
    (a.isTypeEquivalent b = true ↔
      ∃ bi : ScaledIntegerNodeImpl, b = Node.scaledInteger bi ∧ a.minimum_ = bi.minimum_ ∧
        a.maximum_ = bi.maximum_ ∧ Double.eq a.scale_ bi.scale_ = true ∧
        Double.eq a.offset_ bi.offset_ = true) ∧
    (∀ (v w : Int) (bi : ScaledIntegerNodeImpl),
      ScaledIntegerNodeImpl.isTypeEquivalent { a with value_ := v }
          (Node.scaledInteger { bi with value_ := w })
        = a.isTypeEquivalent (Node.scaledInteger bi)) := by
  constructor
  · cases b <;> simp [ScaledIntegerNodeImpl.isTypeEquivalent, Double.eq]
  · intro v w bi
    simp [ScaledIntegerNodeImpl.isTypeEquivalent]

/-- Construction of a single-precision Float node whose given bounds lie
outside the single-precision range: it stores the single-precision extrema. -/
theorem FloatNodeImpl.new_single_wide (base : NodeImpl) (v lo hi : ℚ)
    (hlo : lo < -(((2 : ℚ) ^ 24 - 1) * (2 : ℚ) ^ 104))
    (hhi : ((2 : ℚ) ^ 24 - 1) * (2 : ℚ) ^ 104 < hi) (h1 : lo ≤ v) (h2 : v ≤ hi) :
    FloatNodeImpl.new base (Double.fin v) FloatPrecision.E57_SINGLE (Double.fin lo) (Double.fin hi)
      = Except.ok { toNodeImpl := base, value_ := Double.fin v,
                    precision_ := FloatPrecision.E57_SINGLE,
                    minimum_ := E57_FLOAT_MIN, maximum_ := E57_FLOAT_MAX } := by
  simp [FloatNodeImpl.new, Double.lt, Double.gt, E57_FLOAT_MIN, E57_FLOAT_MAX, hlo, hhi,
    not_lt.mpr h1, not_lt.mpr h2]

/-- C11: a Float node is type-equivalent to a node exactly when that node is a Float
node of the same precision whose stored minimum and stored maximum compare equal (the
C++ `==` on doubles); the values play no part. The bounds compared are the stored ones:
two single-precision nodes built with bounds outside the single-precision range, here
`-2^130, 2^130` and `-2^200, 2^200`, are equivalent. -/
theorem FloatNodeImpl.float_isTypeEquivalent_iff (a : FloatNodeImpl) (b : Node) :
    (a.isTypeEquivalent b = true ↔
      ∃ bi : FloatNodeImpl, b = Node.float bi ∧ a.precision_ = bi.precision_ ∧
        Double.eq a.minimum_ bi.minimum_ = true ∧ Double.eq a.maximum_ bi.maximum_ = true) ∧
    (∀ (v w : Double) (bi : FloatNodeImpl),
      FloatNodeImpl.isTypeEquivalent { a with value_ := v } (Node.float { bi with value_ := w })
        = a.isTypeEquivalent (Node.float bi)) ∧
    (∃ x y : FloatNodeImpl,
      FloatNodeImpl.new ⟨[], false⟩ (Double.fin 1) FloatPrecision.E57_SINGLE
        (Double.fin (-(2 : ℚ) ^ 130)) (Double.fin ((2 : ℚ) ^ 130)) = Except.ok x ∧
      FloatNodeImpl.new ⟨[], false⟩ (Double.fin 2) FloatPrecision.E57_SINGLE
        (Double.fin (-(2 : ℚ) ^ 200)) (Double.fin ((2 : ℚ) ^ 200)) = Except.ok y ∧
      x.isTypeEquivalent (Node.float y) = true) := by
  refine ⟨?_, ?_, ?_⟩
  · cases b <;> simp [FloatNodeImpl.isTypeEquivalent, Double.eq]
  · intro v w bi
    simp [FloatNodeImpl.isTypeEquivalent]
  · refine ⟨_, _,
      FloatNodeImpl.new_single_wide _ 1 (-(2 : ℚ) ^ 130) ((2 : ℚ) ^ 130) (by norm_num)
        (by norm_num) (by norm_num) (by norm_num),
      FloatNodeImpl.new_single_wide _ 2 (-(2 : ℚ) ^ 200) ((2 : ℚ) ^ 200) (by norm_num)
        (by norm_num) (by norm_num) (by norm_num), ?_⟩
    simp [FloatNodeImpl.isTypeEquivalent, Double.ne, E57_FLOAT_MIN, E57_FLOAT_MAX]



/-! ## Searching a string -/

/-- What `findAux` finds: the first position at which the pattern starts. -/
theorem findAux_some (pat : ustring) (s : ustring) (i k : Nat) (h : findAux pat s i = some k) :
    i ≤ k ∧ k - i ≤ s.length ∧ pat <+: s.drop (k - i) ∧
      ∀ j, j < k - i → ¬ pat <+: s.drop j := by
  induction s generalizing i with
  | nil =>
    unfold findAux at h
    split at h
    · rename_i hp
      cases h
      subst hp
      simp
    · cases h
  | cons c t ih =>
    unfold findAux at h
    split at h
    · rename_i hp
      cases h
      simp only [le_refl, Nat.sub_self, Nat.zero_le, List.drop_zero, true_and]
      exact ⟨List.isPrefixOf_iff_prefix.mp hp, fun j hj => absurd hj (Nat.not_lt_zero j)⟩
    · rename_i hp
      obtain ⟨h1, h2, h3, h4⟩ := ih (i + 1) h
      have e : k - i = (k - (i + 1)) + 1 := by omega
      refine ⟨by omega, ?_, ?_, ?_⟩
      · simp only [List.length_cons]; omega
      · rw [e, List.drop_succ_cons]; exact h3
      · intro j hj
        cases j with
        | zero =>
          simp only [List.drop_zero]
          intro hpre
          exact hp (List.isPrefixOf_iff_prefix.mpr hpre)
        | succ j =>
          rw [List.drop_succ_cons]
          exact h4 j (by omega)

/-- When `findAux` finds nothing, the pattern starts nowhere. -/
theorem findAux_none (pat : ustring) (s : ustring) (i : Nat) (h : findAux pat s i = none) :
    ∀ j, ¬ pat <+: s.drop j := by
  induction s generalizing i with
  | nil =>
    unfold findAux at h
    split at h
    · cases h
    · rename_i hp
      intro j hpre
      simp only [List.drop_nil, List.prefix_nil] at hpre
      exact hp hpre
  | cons c t ih =>
    unfold findAux at h
    split at h
    · cases h
    · rename_i hp
      intro j
      cases j with
      | zero =>
        simp only [List.drop_zero]
        intro hpre
        exact hp (List.isPrefixOf_iff_prefix.mpr hpre)
      | succ j =>
        rw [List.drop_succ_cons]
        exact ih (i + 1) h j

/-- A list in which the pattern starts nowhere does not contain it. -/
theorem not_infix_of_no_start (pat s : ustring) (h : ∀ j, ¬ pat <+: s.drop j) : ¬ pat <:+: s := by
  intro hin
  obtain ⟨t, hpre, hsuf⟩ := List.infix_iff_prefix_suffix.mp hin
  obtain ⟨u, hu⟩ := hsuf
  have : t = s.drop u.length := by
    rw [← hu, List.drop_left]
  exact h u.length (this ▸ hpre)

/-- The terminator starts somewhere inside a list that contains it. -/
theorem start_of_infix (pat s : ustring) (h : pat <:+: s) :
    ∃ j, j + pat.length ≤ s.length ∧ pat <+: s.drop j := by
  obtain ⟨u, v, huv⟩ := h
  refine ⟨u.length, ?_, ?_⟩
  · rw [← huv]; simp
  · rw [← huv, List.append_assoc, List.drop_left]
    exact List.prefix_append _ _

/-- What `find` returns for the terminator: a position at or after `pos`, with the three
characters of the terminator inside the string, and no earlier such position. -/
theorem find_cdataEnd_some (value : ustring) (pos found : Nat)
    (h : find value cdataEnd pos = some found) :
    pos ≤ found ∧ found + 3 ≤ value.length ∧ cdataEnd <+: value.drop found ∧
      ∀ j, pos ≤ j → j < found → ¬ cdataEnd <+: value.drop j := by
  unfold find at h
  split at h
  · rename_i hpos
    obtain ⟨h1, h2, h3, h4⟩ := findAux_some _ _ _ _ h
    rw [List.drop_drop] at h3
    have e : pos + (found - pos) = found := by omega
    rw [e] at h3
    refine ⟨h1, ?_, h3, ?_⟩
    · have := h3.length_le
      simp only [cdataEnd, List.length_cons, List.length_nil, List.length_drop] at this
      omega
    · intro j hj1 hj2
      have := h4 (j - pos) (by omega)
      rw [List.drop_drop] at this
      have e2 : pos + (j - pos) = j := by omega
      rw [e2] at this
      exact this
  · cases h

/-- When `find` returns `npos` for a position inside the string, the rest of the string
does not contain the terminator. -/
theorem find_cdataEnd_none (value : ustring) (pos : Nat) (hpos : pos ≤ value.length)
    (h : find value cdataEnd pos = none) : ¬ cdataEnd <:+: value.drop pos := by
  unfold find at h
  rw [if_pos hpos] at h
  exact not_infix_of_no_start _ _ (findAux_none _ _ _ h)


/-! ## The loop of `StringNodeImpl::writeXml` -/

/-- The loop, entered at a position inside the value with enough evaluations of its
test left, ends, and writes the rest of the value as chunks separated by `]]><![CDATA[`;
no chunk contains the terminator. -/
theorem StringNodeImpl.writeXmlLoop_spec (value : ustring) (fuel pos : Nat) (cf : CheckedFile)
    (hpos : pos < value.length) (hfuel : value.length - pos ≤ fuel) :
    ∃ chunks : List ustring, chunks ≠ [] ∧ chunks.flatten = value.drop pos ∧
      (∀ A ∈ chunks, ¬ cdataEnd <:+: A) ∧
      StringNodeImpl.writeXmlLoop value fuel pos cf
        = some { text := cf.text ++ chunks.intersperse (cdataEnd ++ cdataBegin),
                 ops := cf.ops } := by
  induction fuel generalizing pos cf with
  | zero => omega
  | succ f ih =>
    unfold StringNodeImpl.writeXmlLoop
    rw [if_pos hpos]
    cases hfind : find value cdataEnd pos with
    | none =>
      refine ⟨[value.drop pos], by simp, by simp, ?_, ?_⟩
      · intro A hA
        simp only [List.mem_singleton] at hA
        subst hA
        exact find_cdataEnd_none value pos hpos.le hfind
      · simp [CheckedFile.put, substrFrom]
    | some found =>
      obtain ⟨h1, h2, h3, h4⟩ := find_cdataEnd_some value pos found hfind
      obtain ⟨chunks, hne, hflat, hclean, hrun⟩ :=
        ih (found + 2) ((cf.put (substr value pos (found - pos + 2))).put (cdataEnd ++ cdataBegin))
          (by omega) (by omega)
      refine ⟨substr value pos (found - pos + 2) :: chunks, by simp, ?_, ?_, ?_⟩
      · simp only [List.flatten_cons, hflat, substr]
        have e : value.drop (found + 2) = (value.drop pos).drop (found - pos + 2) := by
          rw [List.drop_drop]
          congr 1
          omega
        rw [e, List.take_append_drop]
      · intro A hA
        rcases List.mem_cons.mp hA with hA | hA
        · subst hA
          intro hin
          obtain ⟨j, hj1, hj2⟩ := start_of_infix _ _ hin
          simp only [cdataEnd, List.length_cons, List.length_nil, substr, List.length_take,
            List.length_drop] at hj1
          have hj : j < found - pos := by omega
          apply h4 (pos + j) (by omega) (by omega)
          have e : value.drop (pos + j) = (value.drop pos).drop j := by
            rw [List.drop_drop]
          rw [e]
          refine hj2.trans ?_
          simp only [substr, List.drop_take]
          exact List.take_prefix _ _
        · exact hclean A hA
      · simp only [hrun]
        cases chunks with
        | nil => exact absurd rfl hne
        | cons B rest =>
          simp [CheckedFile.put, List.intersperse]


/-- The writes of `StringNodeImpl::writeXml` for a value that is not empty: the opening
tag, then chunks of the value separated by `]]><![CDATA[`, then the closing tag. The
chunks, concatenated, are the value, and none contains the terminator. -/
theorem StringNodeImpl.writeXml_shape (self : StringNodeImpl) (cf : CheckedFile) (indent : Nat)
    (forcedFieldName : Option ustring) (hne : self.value_ ≠ []) :
    ∃ chunks : List ustring, chunks ≠ [] ∧ chunks.flatten = self.value_ ∧
      (∀ A ∈ chunks, ¬ cdataEnd <:+: A) ∧
      self.writeXml cf indent forcedFieldName
        = some { text := cf.text ++
                   [space indent, "<".toList, fieldNameOf self.toNodeImpl forcedFieldName,
                    " type=\"String\"".toList, '>' :: cdataBegin] ++
                   chunks.intersperse (cdataEnd ++ cdataBegin) ++
                   [cdataEnd ++ "</".toList, fieldNameOf self.toNodeImpl forcedFieldName,
                    ">\n".toList],
                 ops := cf.ops } := by
  have hlen : 0 < self.value_.length := List.length_pos.mpr hne
  obtain ⟨chunks, h1, h2, h3, h4⟩ :=
    StringNodeImpl.writeXmlLoop_spec self.value_ (self.value_.length + 1) 0
      (((((cf.put (space indent)).put "<".toList).put
        (fieldNameOf self.toNodeImpl forcedFieldName)).put " type=\"String\"".toList).put
        ('>' :: cdataBegin)) hlen (by omega)
  refine ⟨chunks, h1, by simpa using h2, h3, ?_⟩
  have hemp : self.value_.isEmpty = false := by
    cases hv : self.value_ with
    | nil => exact absurd hv hne
    | cons c t => rfl
  unfold StringNodeImpl.writeXml
  simp only [hemp, Bool.false_eq_true, if_false]
  rw [h4]
  simp [CheckedFile.put]

/-- The writes of `StringNodeImpl::writeXml` for an empty value: a self-closing element. -/
theorem StringNodeImpl.writeXml_empty (self : StringNodeImpl) (cf : CheckedFile) (indent : Nat)
    (forcedFieldName : Option ustring) (he : self.value_ = []) :
    self.writeXml cf indent forcedFieldName
      = some { text := cf.text ++
                 [space indent, "<".toList, fieldNameOf self.toNodeImpl forcedFieldName,
                  " type=\"String\"".toList, "/>\n".toList],
               ops := cf.ops } := by
  unfold StringNodeImpl.writeXml
  simp [he, CheckedFile.put]

/-! ## Reading the sections back -/

/-- The opening `<![CDATA[` is found right after a text that has no `[`. -/
theorem splitAtFirst_cdataBegin (P rest : ustring) (hP : '[' ∉ P) :
    splitAtFirst cdataBegin (P ++ cdataBegin ++ rest) = some (P, rest) := by
  induction P with
  | nil => simp [splitAtFirst, cdataBegin, List.isPrefixOf]
  | cons c t ih =>
    have ht : '[' ∉ t := fun h => hP (List.mem_cons_of_mem _ h)
    have hc : c ≠ '[' := fun h => hP (h ▸ List.mem_cons_self _ _)
    have hnp : cdataBegin.isPrefixOf (c :: t ++ cdataBegin ++ rest) = false := by
      match t, ht with
      | [], _ => simp [cdataBegin, List.isPrefixOf]
      | [d], _ => simp [cdataBegin, List.isPrefixOf]
      | d :: e :: u, ht =>
        have he : e ≠ '[' := fun h => ht (by simp [h])
        simp [cdataBegin, List.isPrefixOf]
        intro _ _ h3
        exact absurd h3.symm he
    simp only [List.cons_append, List.append_assoc] at hnp ih ⊢
    rw [splitAtFirst, hnp]
    simp [ih ht]

/-- No opening `<![CDATA[` is found in a text that has no `[`. -/
theorem splitAtFirst_cdataBegin_none (T : ustring) (hT : '[' ∉ T) :
    splitAtFirst cdataBegin T = none := by
  induction T with
  | nil => simp [splitAtFirst, cdataBegin]
  | cons c t ih =>
    have ht : '[' ∉ t := fun h => hT (List.mem_cons_of_mem _ h)
    have hnp : cdataBegin.isPrefixOf (c :: t) = false := by
      cases hp : cdataBegin.isPrefixOf (c :: t) with
      | false => rfl
      | true =>
        exfalso
        apply hT
        exact (List.isPrefixOf_iff_prefix.mp hp).subset (by simp [cdataBegin])
    rw [splitAtFirst, hnp]
    simp [ih ht]

/-- The terminator `]]>` is found right after a chunk that does not contain it. -/
theorem splitAtFirst_cdataEnd (A rest : ustring) (hA : ¬ cdataEnd <:+: A) :
    splitAtFirst cdataEnd (A ++ cdataEnd ++ rest) = some (A, rest) := by
  induction A with
  | nil => simp [splitAtFirst, cdataEnd, List.isPrefixOf]
  | cons c t ih =>
    have ht : ¬ cdataEnd <:+: t := fun h => hA (h.trans (List.suffix_cons c t).isInfix)
    have hnp : cdataEnd.isPrefixOf (c :: t ++ cdataEnd ++ rest) = false := by
      match t, hA with
      | [], _ => simp [cdataEnd, List.isPrefixOf]
      | [d], _ => simp [cdataEnd, List.isPrefixOf]
      | d :: e :: u, hA =>
        cases hp : cdataEnd.isPrefixOf (c :: d :: e :: u ++ cdataEnd ++ rest) with
        | false => rfl
        | true =>
          exfalso
          apply hA
          simp only [cdataEnd, List.cons_append, List.isPrefixOf, Bool.and_eq_true,
            beq_iff_eq, Bool.and_true] at hp
          obtain ⟨rfl, rfl, rfl⟩ := hp
          exact ⟨[], u, rfl⟩
    simp only [List.cons_append, List.append_assoc] at hnp ih ⊢
    rw [splitAtFirst, hnp]
    simp [ih ht]

/-- Sections are read back as they were put, when no content contains the terminator and
the text after the last section has no `[`. -/
theorem readSections_cdataSections (chunks : List ustring) (rest : ustring) (fuel : Nat)
    (hclean : ∀ A ∈ chunks, ¬ cdataEnd <:+: A) (hrest : '[' ∉ rest)
    (hfuel : chunks.length ≤ fuel) :
    readSections fuel (cdataSections chunks rest) = chunks := by
  induction chunks generalizing fuel with
  | nil =>
    cases fuel with
    | zero => rfl
    | succ f => simp [readSections, cdataSections, splitAtFirst_cdataBegin_none rest hrest]
  | cons A more ih =>
    cases fuel with
    | zero => simp at hfuel
    | succ f =>
      have h1 := splitAtFirst_cdataBegin [] (A ++ cdataEnd ++ cdataSections more rest) (by simp)
      have h2 := splitAtFirst_cdataEnd A (cdataSections more rest)
        (hclean A (List.mem_cons_self _ _))
      simp only [List.nil_append, List.append_assoc] at h1 h2
      simp only [readSections, cdataSections, List.append_assoc, h1, h2]
      rw [ih f (fun B hB => hclean B (List.mem_cons_of_mem _ hB))
        (by simpa using hfuel)]

/-- The same, with a text that has no `[` before the first section. -/
theorem readSections_after (P : ustring) (chunks : List ustring) (rest : ustring) (fuel : Nat)
    (hP : '[' ∉ P) (hclean : ∀ A ∈ chunks, ¬ cdataEnd <:+: A) (hrest : '[' ∉ rest)
    (hfuel : chunks.length ≤ fuel) :
    readSections fuel (P ++ cdataSections chunks rest) = chunks := by
  cases chunks with
  | nil =>
    cases fuel with
    | zero => rfl
    | succ f =>
      have : '[' ∉ P ++ rest := by simp [hP, hrest]
      simp [readSections, cdataSections, splitAtFirst_cdataBegin_none _ this]
  | cons A more =>
    cases fuel with
    | zero => simp at hfuel
    | succ f =>
      have h1 := splitAtFirst_cdataBegin P (A ++ cdataEnd ++ cdataSections more rest) hP
      have h2 := splitAtFirst_cdataEnd A (cdataSections more rest)
        (hclean A (List.mem_cons_self _ _))
      simp only [List.append_assoc] at h1 h2
      simp only [readSections, cdataSections, List.append_assoc, h1, h2]
      rw [readSections_cdataSections more rest f
        (fun B hB => hclean B (List.mem_cons_of_mem _ hB)) hrest (by simpa using hfuel)]

/-- Chunks separated by `]]><![CDATA[`, between an opening and a terminator, are CDATA
sections one after the other. -/
theorem cdataSections_intersperse (chunks : List ustring) (rest : ustring) (hne : chunks ≠ []) :
    cdataBegin ++ (chunks.intersperse (cdataEnd ++ cdataBegin)).flatten ++ cdataEnd ++ rest
      = cdataSections chunks rest := by
  induction chunks with
  | nil => exact absurd rfl hne
  | cons A more ih =>
    cases more with
    | nil => simp [cdataSections, List.intersperse]
    | cons B more2 =>
      have := ih (by simp)
      simp only [cdataSections, List.intersperse, List.flatten_cons, List.append_assoc] at this ⊢
      rw [this]

/-- A text of sections is at least as long as the number of its sections. -/
theorem length_cdataSections (chunks : List ustring) (rest : ustring) :
    chunks.length ≤ (cdataSections chunks rest).length := by
  induction chunks with
  | nil => simp
  | cons A more ih =>
    simp only [cdataSections, List.length_cons, List.length_append, cdataBegin, cdataEnd]
    omega


/-! ## C3 and C4: the text of a String node -/

/-- C3: re-reading what `StringNodeImpl::writeXml` emits, that is concatenating the
contents of its CDATA sections (each from `<![CDATA[` up to the first following `]]>`),
gives back the value exactly, for every value and for every field name without `[`
(an element name has none). The value `a]]>b]]>c` is emitted as the sections `a]]`, `>b]]`
and `>c` and re-reads as `a]]>b]]>c`. -/
theorem StringNodeImpl.writeXml_reread (self : StringNodeImpl) (cf : CheckedFile) (indent : Nat)
    (forcedFieldName : Option ustring)
    (hname : '[' ∉ fieldNameOf self.toNodeImpl forcedFieldName) :
    (∃ emitted : List ustring,
      self.writeXml cf indent forcedFieldName = some { text := cf.text ++ emitted, ops := cf.ops } ∧
      rereadText emitted.flatten = self.value_) ∧
    (∃ emitted : List ustring,
      exampleStringNode.writeXml ⟨[], []⟩ 0 none = some { text := emitted, ops := [] } ∧
      readSections emitted.flatten.length emitted.flatten
        = ["a]]".toList, ">b]]".toList, ">c".toList] ∧
      rereadText emitted.flatten = "a]]>b]]>c".toList) := by
  constructor
  · by_cases hv : self.value_ = []
    · refine ⟨[space indent, "<".toList, fieldNameOf self.toNodeImpl forcedFieldName,
          " type=\"String\"".toList, "/>\n".toList], ?_, ?_⟩
      · rw [StringNodeImpl.writeXml_empty self cf indent forcedFieldName hv]
      · rw [hv]
        have hP : '[' ∉ space indent ++ "<".toList
            ++ fieldNameOf self.toNodeImpl forcedFieldName ++ " type=\"String\"".toList
            ++ "/>\n".toList := by
          simp only [List.mem_append, not_or, space, List.mem_replicate]
          refine ⟨⟨⟨⟨?_, by decide⟩, hname⟩, by decide⟩, by decide⟩
          rintro ⟨-, h⟩
          exact absurd h (by decide)
        unfold rereadText
        cases hfuel : ([space indent, "<".toList, fieldNameOf self.toNodeImpl forcedFieldName,
            " type=\"String\"".toList, "/>\n".toList] : List ustring).flatten.length with
        | zero => rfl
        | succ f =>
          have h2 := readSections_after (space indent ++ "<".toList
            ++ fieldNameOf self.toNodeImpl forcedFieldName ++ " type=\"String\"".toList
            ++ "/>\n".toList) [] [] (f + 1) hP (by simp) (by simp) (by simp)
          simp only [cdataSections, List.append_nil] at h2
          simp only [List.flatten_cons, List.flatten_nil, List.append_nil, List.append_assoc]
            at h2 ⊢
          rw [h2]
          rfl
    · obtain ⟨chunks, h1, h2, h3, h4⟩ :=
        StringNodeImpl.writeXml_shape self cf indent forcedFieldName hv
      refine ⟨[space indent, "<".toList, fieldNameOf self.toNodeImpl forcedFieldName,
              " type=\"String\"".toList, '>' :: cdataBegin]
              ++ (chunks.intersperse (cdataEnd ++ cdataBegin)
              ++ [cdataEnd ++ "</".toList, fieldNameOf self.toNodeImpl forcedFieldName,
                  ">\n".toList]), ?_, ?_⟩
      · rw [h4]
        simp only [List.append_assoc]
      · have hP : '[' ∉ space indent ++ "<".toList
            ++ fieldNameOf self.toNodeImpl forcedFieldName ++ " type=\"String\"".toList
            ++ ">".toList := by
          simp only [List.mem_append, not_or, space, List.mem_replicate]
          refine ⟨⟨⟨⟨?_, by decide⟩, hname⟩, by decide⟩, by decide⟩
          rintro ⟨-, h⟩
          exact absurd h (by decide)
        have hR : '[' ∉ "</".toList ++ fieldNameOf self.toNodeImpl forcedFieldName
            ++ ">\n".toList := by
          simp only [List.mem_append, not_or]
          exact ⟨⟨by decide, hname⟩, by decide⟩
        have htext : ([space indent, "<".toList, fieldNameOf self.toNodeImpl forcedFieldName,
              " type=\"String\"".toList, '>' :: cdataBegin]
              ++ (chunks.intersperse (cdataEnd ++ cdataBegin)
              ++ [cdataEnd ++ "</".toList, fieldNameOf self.toNodeImpl forcedFieldName,
                  ">\n".toList])).flatten
            = (space indent ++ "<".toList ++ fieldNameOf self.toNodeImpl forcedFieldName
                ++ " type=\"String\"".toList ++ ">".toList)
              ++ cdataSections chunks ("</".toList
                ++ fieldNameOf self.toNodeImpl forcedFieldName ++ ">\n".toList) := by
          rw [← cdataSections_intersperse chunks _ h1]
          simp [List.flatten_append]
        unfold rereadText
        rw [htext, readSections_after _ chunks _ _ hP h3 hR, h2]
        rw [List.length_append]
        exact le_trans (length_cdataSections chunks _) (Nat.le_add_left _ _)
  · exact ⟨_, rfl, by decide, by decide⟩

/-- C3, at an input: the String node of element name `s` and value `a]]>b]]>c`. -/
theorem StringNodeImpl.writeXml_reread_witness :
    ∃ emitted : List ustring,
      exampleStringNode.writeXml ⟨[], []⟩ 2 none = some { text := [] ++ emitted, ops := [] } ∧
      rereadText emitted.flatten = exampleStringNode.value_ :=
  (StringNodeImpl.writeXml_reread exampleStringNode ⟨[], []⟩ 2 none (by decide)).1

/-- C4: for every value, what `StringNodeImpl::writeXml` writes is either the self-closing
element (empty value), or the opening tag ending in `<![CDATA[`, then chunks of the
value separated by the write `]]><![CDATA[`, then the write that starts with the
terminator `]]>`; no chunk contains the three characters `]]>`. -/
theorem StringNodeImpl.writeXml_chunks_clean (self : StringNodeImpl) (cf : CheckedFile)
    (indent : Nat) (forcedFieldName : Option ustring) :
    (self.value_ = [] ∧
      self.writeXml cf indent forcedFieldName
        = some { text := cf.text ++
                   [space indent, "<".toList, fieldNameOf self.toNodeImpl forcedFieldName,
                    " type=\"String\"".toList, "/>\n".toList],
                 ops := cf.ops }) ∨
    (∃ chunks : List ustring, chunks ≠ [] ∧
      self.writeXml cf indent forcedFieldName
        = some { text := cf.text ++
                   [space indent, "<".toList, fieldNameOf self.toNodeImpl forcedFieldName,
                    " type=\"String\"".toList, '>' :: cdataBegin] ++
                   chunks.intersperse (cdataEnd ++ cdataBegin) ++
                   [cdataEnd ++ "</".toList, fieldNameOf self.toNodeImpl forcedFieldName,
                    ">\n".toList],
                 ops := cf.ops } ∧
      chunks.flatten = self.value_ ∧
      ∀ A ∈ chunks, ¬ cdataEnd <:+: A) := by
  by_cases hv : self.value_ = []
  · exact Or.inl ⟨hv, StringNodeImpl.writeXml_empty self cf indent forcedFieldName hv⟩
  · obtain ⟨chunks, h1, h2, h3, h4⟩ :=
      StringNodeImpl.writeXml_shape self cf indent forcedFieldName hv
    exact Or.inr ⟨chunks, h1, h4, h2, h3⟩



/-! ## C12 and C13: the length of a blob section -/

/-- The conversion of a non-negative `int64_t` to `uint64_t` keeps the value. -/
theorem toUInt64_of_nonneg (i : Int) (h0 : 0 ≤ i) (h1 : i < (2 : Int) ^ 63) :
    ((toUInt64 i : Nat) : Int) = i := by
  unfold toUInt64
  have h2 : i % (2 : Int) ^ 64 = i := Int.emod_eq_of_lt h0 (by omega)
  rw [h2]
  exact Int.toNat_of_nonneg h0

/-- The section length a new blob computes. -/
theorem BlobNodeImpl.new_length_eq (sizeofHeader : Nat) (base : NodeImpl) (imf : ImageFileImpl)
    (byteCount : Int) :
    (BlobNodeImpl.new sizeofHeader base imf byteCount).1.binarySectionLogicalLength_
      = (if ((sizeofHeader + toUInt64 byteCount) % 2 ^ 64 % 4) % 2 ^ 32 > 0 then
          ((sizeofHeader + toUInt64 byteCount) % 2 ^ 64
            + (4 - ((sizeofHeader + toUInt64 byteCount) % 2 ^ 64 % 4) % 2 ^ 32)) % 2 ^ 64
        else (sizeofHeader + toUInt64 byteCount) % 2 ^ 64) ∧
    (BlobNodeImpl.new sizeofHeader base imf byteCount).1.blobLogicalLength_ = toUInt64 byteCount :=
  ⟨rfl, rfl⟩

/-- C12: a new blob of `byteCount >= 0` bytes has a section length that is the least
multiple of 4 not below `sizeof( BlobSectionHeader ) + byteCount`: it is divisible by 4,
at least header plus payload, and less than header plus payload plus 4. The header size
is any size below `2^62`. -/
theorem BlobNodeImpl.new_sectionLength (sizeofHeader : Nat) (base : NodeImpl) (imf : ImageFileImpl)
    (byteCount : Int) (h0 : 0 ≤ byteCount) (h1 : byteCount < (2 : Int) ^ 63)
    (hh : sizeofHeader < 2 ^ 62) :
    ((BlobNodeImpl.new sizeofHeader base imf byteCount).1.blobLogicalLength_ : Int) = byteCount ∧
    (BlobNodeImpl.new sizeofHeader base imf byteCount).1.binarySectionLogicalLength_ % 4 = 0 ∧
    (sizeofHeader : Int) + byteCount
      ≤ (BlobNodeImpl.new sizeofHeader base imf byteCount).1.binarySectionLogicalLength_ ∧
    ((BlobNodeImpl.new sizeofHeader base imf byteCount).1.binarySectionLogicalLength_ : Int)
      < sizeofHeader + byteCount + 4 ∧
    (∀ m : Nat, m % 4 = 0 → (sizeofHeader : Int) + byteCount ≤ m →
      (BlobNodeImpl.new sizeofHeader base imf byteCount).1.binarySectionLogicalLength_ ≤ m) := by
  have hb := toUInt64_of_nonneg byteCount h0 h1
  obtain ⟨hlen, hblob⟩ := BlobNodeImpl.new_length_eq sizeofHeader base imf byteCount
  rw [hlen, hblob]
  generalize toUInt64 byteCount = b at hb
  subst hb
  have hnw : (sizeofHeader + b) % 2 ^ 64 = sizeofHeader + b := Nat.mod_eq_of_lt (by omega)
  have hr : ((sizeofHeader + b) % 4) % 2 ^ 32 = (sizeofHeader + b) % 4 :=
    Nat.mod_eq_of_lt (by omega)
  rw [hnw, hr]
  split
  · rename_i hrem
    have hnw2 : (sizeofHeader + b + (4 - (sizeofHeader + b) % 4)) % 2 ^ 64
        = sizeofHeader + b + (4 - (sizeofHeader + b) % 4) := Nat.mod_eq_of_lt (by omega)
    rw [hnw2]
    refine ⟨rfl, by omega, by omega, by omega, ?_⟩
    intro m hm1 hm2
    omega
  · rename_i hrem
    refine ⟨rfl, by omega, by omega, by omega, ?_⟩
    intro m hm1 hm2
    omega

/-- C12, at an input: a blob of 5 bytes behind a header of 16 bytes has a section of 24
bytes. -/
theorem BlobNodeImpl.new_sectionLength_witness :
    (BlobNodeImpl.new 16 ⟨['b'], false⟩ (emptySession true true) 5).1.binarySectionLogicalLength_
      = 24 ∧
    (BlobNodeImpl.new 16 ⟨['b'], false⟩ (emptySession true true) 5).1.binarySectionLogicalLength_ % 4
      = 0 ∧
    ((16 : Nat) : Int) + 5
      ≤ (BlobNodeImpl.new 16 ⟨['b'], false⟩ (emptySession true true) 5).1.binarySectionLogicalLength_ :=
  ⟨by decide,
   (BlobNodeImpl.new_sectionLength 16 ⟨['b'], false⟩ (emptySession true true) 5 (by decide)
      (by decide) (by decide)).2.1,
   (BlobNodeImpl.new_sectionLength 16 ⟨['b'], false⟩ (emptySession true true) 5 (by decide)
      (by decide) (by decide)).2.2.1⟩

/-- C13, at the failing input: behind a header of 16 bytes, a blob of declared length 5
that is reconstructed from the file has the section length 21, which is not a multiple
of 4, where a new blob of 5 bytes has the section length 24. -/
theorem BlobNodeImpl.newExisting_not_rounded :
    (BlobNodeImpl.newExisting 16 (fun x => x) ⟨['b'], false⟩ 1024 5).binarySectionLogicalLength_
      = 21 ∧
    (BlobNodeImpl.newExisting 16 (fun x => x) ⟨['b'], false⟩ 1024 5).binarySectionLogicalLength_ % 4
      ≠ 0 ∧
    (BlobNodeImpl.new 16 ⟨['b'], false⟩ (emptySession true true) 5).1.binarySectionLogicalLength_
      = 24 := by
  decide

/-- Where C13 does hold: when header plus declared length is a multiple of 4 the two
constructors compute the same section length, and in every case the reconstructed blob
has header plus declared length, not rounded. -/
theorem BlobNodeImpl.newExisting_sectionLength (sizeofHeader : Nat) (physicalToLogical : Nat → Nat)
    (base : NodeImpl) (imf : ImageFileImpl) (fileOffset length : Int) :
    (BlobNodeImpl.newExisting sizeofHeader physicalToLogical base fileOffset length).binarySectionLogicalLength_
      = (sizeofHeader + toUInt64 length) % 2 ^ 64 ∧
    (((sizeofHeader + toUInt64 length) % 2 ^ 64) % 4 = 0 →
      (BlobNodeImpl.newExisting sizeofHeader physicalToLogical base fileOffset length).binarySectionLogicalLength_
        = (BlobNodeImpl.new sizeofHeader base imf length).1.binarySectionLogicalLength_) := by
  refine ⟨rfl, ?_⟩
  intro h
  have hr : (((sizeofHeader + toUInt64 length) % 2 ^ 64) % 4) % 2 ^ 32 = 0 := by
    rw [h]
    rfl
  rw [(BlobNodeImpl.new_length_eq sizeofHeader base imf length).1, hr]
  rfl



/-! ## C14, C15, C16: reading and writing a blob -/

/-- C14, at the failing input: on an open session, reading 2^64 - 1 bytes from position 1
of a blob of 10 bytes passes the bounds check, because the sum wraps around to 0; the
stream is sought and the transfer is issued. Writing does the same on a writable session. -/
theorem BlobNodeImpl.read_sum_wraps :
    (toUInt64 1 + (2 ^ 64 - 1)) % 2 ^ 64 = 0 ∧
    (BlobNodeImpl.read 16 exampleBlob (emptySession true true) 1 (2 ^ 64 - 1)).result
      = Except.ok () ∧
    (BlobNodeImpl.read 16 exampleBlob (emptySession true true) 1 (2 ^ 64 - 1)).imf.file_.ops
      = [FileOp.seek 65, FileOp.read (2 ^ 64 - 1)] ∧
    (BlobNodeImpl.write 16 exampleBlob (emptySession true true) 1 (2 ^ 64 - 1)).result
      = Except.ok () ∧
    (BlobNodeImpl.write 16 exampleBlob (emptySession true true) 1 (2 ^ 64 - 1)).imf.file_.ops
      = [FileOp.seek 65, FileOp.write (2 ^ 64 - 1)] := by
  refine ⟨by decide, rfl, rfl, rfl, rfl⟩

/-- Where C14 does hold: on an open session, when `start + count` exceeds the length of
the blob and is below `2^64`, `read` fails with BadApiArgument, and so does `write` on
an attached node of a writable session. -/
theorem BlobNodeImpl.read_write_out_of_range (sizeofHeader : Nat) (self : BlobNodeImpl)
    (imf : ImageFileImpl) (start : Int) (count : Nat) (hopen : imf.isOpen = true)
    (hlen : self.blobLogicalLength_ < 2 ^ 63)
    (hstart : -(2 : Int) ^ 63 ≤ start ∧ start < (2 : Int) ^ 63)
    (hsum : start + count < (2 : Int) ^ 64)
    (hbad : start + count > (self.blobLogicalLength_ : Int)) :
    (BlobNodeImpl.read sizeofHeader self imf start count).result
      = Except.error ErrorCode.E57_ERROR_BAD_API_ARGUMENT ∧
    (imf.isWriter = true → self.isAttached_ = true →
      (BlobNodeImpl.write sizeofHeader self imf start count).result
        = Except.error ErrorCode.E57_ERROR_BAD_API_ARGUMENT) := by
  have hcheck : (toUInt64 start + count) % 2 ^ 64 > self.blobLogicalLength_ := by
    unfold toUInt64
    omega
  constructor
  · unfold BlobNodeImpl.read checkImageFileOpen
    simp only [hopen, if_true]
    rw [if_pos hcheck]
  · intro hw ha
    unfold BlobNodeImpl.write checkImageFileOpen
    simp only [hopen, hw, ha, if_true, not_true_eq_false, if_false]
    rw [if_pos hcheck]

/-- C15: on an open session, `write` fails with FileIsReadOnly when the session is not a
writer, and with NodeUnattached when the session is a writer and the node is not
attached, whatever `start` and `count` are. -/
theorem BlobNodeImpl.write_precedence (sizeofHeader : Nat) (self : BlobNodeImpl)
    (imf : ImageFileImpl) (start : Int) (count : Nat) (hopen : imf.isOpen = true) :
    (imf.isWriter = false →
      (BlobNodeImpl.write sizeofHeader self imf start count).result
        = Except.error ErrorCode.E57_ERROR_FILE_IS_READ_ONLY) ∧
    (imf.isWriter = true → self.isAttached_ = false →
      (BlobNodeImpl.write sizeofHeader self imf start count).result
        = Except.error ErrorCode.E57_ERROR_NODE_UNATTACHED) := by
  constructor
  · intro hw
    simp [BlobNodeImpl.write, checkImageFileOpen, hopen, hw]
  · intro hw ha
    simp [BlobNodeImpl.write, checkImageFileOpen, hopen, hw, ha]

/-- C15, at an input: a write far outside a blob of 10 bytes reports FileIsReadOnly on a
read-only session, and NodeUnattached on a writable session when the node is detached. -/
theorem BlobNodeImpl.write_precedence_witness :
    (BlobNodeImpl.write 16 exampleBlob (emptySession true false) 100 100).result
      = Except.error ErrorCode.E57_ERROR_FILE_IS_READ_ONLY ∧
    (BlobNodeImpl.write 16 { exampleBlob with isAttached_ := false } (emptySession true true)
        100 100).result
      = Except.error ErrorCode.E57_ERROR_NODE_UNATTACHED :=
  ⟨(BlobNodeImpl.write_precedence 16 exampleBlob (emptySession true false) 100 100 rfl).1 rfl,
   (BlobNodeImpl.write_precedence 16 { exampleBlob with isAttached_ := false }
      (emptySession true true) 100 100 rfl).2 rfl rfl⟩

/-- C16: when `write` fails, and when `read` fails, the error is one of the checks
(session closed, FileIsReadOnly, NodeUnattached, BadApiArgument; for `read` session
closed or BadApiArgument), and the file session, with the operations issued to its
stream, and the node are as before the call. -/
theorem BlobNodeImpl.failure_leaves_no_trace (sizeofHeader : Nat) (self : BlobNodeImpl)
    (imf : ImageFileImpl) (start : Int) (count : Nat) :
    (∀ e, (BlobNodeImpl.write sizeofHeader self imf start count).result = Except.error e →
      (BlobNodeImpl.write sizeofHeader self imf start count).imf = imf ∧
      (BlobNodeImpl.write sizeofHeader self imf start count).node = self ∧
      (e = ErrorCode.E57_ERROR_IMAGEFILE_NOT_OPEN ∨ e = ErrorCode.E57_ERROR_FILE_IS_READ_ONLY ∨
       e = ErrorCode.E57_ERROR_NODE_UNATTACHED ∨ e = ErrorCode.E57_ERROR_BAD_API_ARGUMENT)) ∧
    (∀ e, (BlobNodeImpl.read sizeofHeader self imf start count).result = Except.error e →
      (BlobNodeImpl.read sizeofHeader self imf start count).imf = imf ∧
      (BlobNodeImpl.read sizeofHeader self imf start count).node = self ∧
      (e = ErrorCode.E57_ERROR_IMAGEFILE_NOT_OPEN ∨ e = ErrorCode.E57_ERROR_BAD_API_ARGUMENT)) ∧
    (BlobNodeImpl.write sizeofHeader self imf start count).node = self ∧
    (BlobNodeImpl.read sizeofHeader self imf start count).node = self := by
  refine ⟨?_, ?_, ?_, ?_⟩
  · intro e he
    unfold BlobNodeImpl.write at he ⊢
    unfold checkImageFileOpen at he ⊢
    by_cases h1 : imf.isOpen = true
    · by_cases h2 : imf.isWriter = true
      · by_cases h3 : self.isAttached_ = true
        · by_cases h4 : (toUInt64 start + count) % 2 ^ 64 > self.blobLogicalLength_
          · simp only [h1, h2, h3, h4, if_true, not_true_eq_false, if_false] at he ⊢
            cases he
            simp
          · simp only [h1, h2, h3, h4, if_true, not_true_eq_false, if_false] at he
            cases he
        · simp only [h1, h2, h3, if_true, not_true_eq_false, if_false, not_false_eq_true] at he ⊢
          cases he
          simp
      · simp only [h1, h2, if_true, not_false_eq_true] at he ⊢
        cases he
        simp
    · simp only [h1, if_false] at he ⊢
      cases he
      simp
  · intro e he
    unfold BlobNodeImpl.read at he ⊢
    unfold checkImageFileOpen at he ⊢
    by_cases h1 : imf.isOpen = true
    · by_cases h4 : (toUInt64 start + count) % 2 ^ 64 > self.blobLogicalLength_
      · simp only [h1, h4, if_true] at he ⊢
        cases he
        simp
      · simp only [h1, h4, if_true, if_false] at he
        cases he
    · simp only [h1, if_false] at he ⊢
      cases he
      simp
  · unfold BlobNodeImpl.write
    repeat' split
    all_goals rfl
  · unfold BlobNodeImpl.read
    repeat' split
    all_goals rfl

/-- C16, at an input: a write outside a blob of 10 bytes fails with BadApiArgument and
the stream has received no operation. -/
theorem BlobNodeImpl.failure_leaves_no_trace_witness :
    (BlobNodeImpl.write 16 exampleBlob (emptySession true true) 5 6).result
      = Except.error ErrorCode.E57_ERROR_BAD_API_ARGUMENT ∧
    (BlobNodeImpl.write 16 exampleBlob (emptySession true true) 5 6).imf
      = emptySession true true ∧
    (BlobNodeImpl.write 16 exampleBlob (emptySession true true) 5 6).imf.file_.ops = [] :=
  have h : (BlobNodeImpl.write 16 exampleBlob (emptySession true true) 5 6).result
      = Except.error ErrorCode.E57_ERROR_BAD_API_ARGUMENT := rfl
  ⟨h,
   ((BlobNodeImpl.failure_leaves_no_trace 16 exampleBlob (emptySession true true) 5 6).1 _ h).1,
   rfl⟩



/-! ## C17 and C18: the text of Integer and Float nodes -/

/-- C17: what `IntegerNodeImpl::writeXml` adds to the stream is exactly the text of an
Integer element: the indent, `<name type="Integer"`, a minimum attribute iff the minimum
differs from `INT64_MIN`, a maximum attribute iff the maximum differs from `INT64_MAX`,
then `>`, the decimal value, `</name>` and a newline if the value is not zero, or `/>`
and a newline if it is zero; no positioned transfer is issued. -/
theorem IntegerNodeImpl.integer_writeXml_text (self : IntegerNodeImpl) (cf : CheckedFile) (indent : Nat)
    (forcedFieldName : Option ustring) :
    (self.writeXml cf indent forcedFieldName).contents
      = cf.contents ++ integerElementText (fieldNameOf self.toNodeImpl forcedFieldName) indent
          self.value_ self.minimum_ self.maximum_ ∧
    (self.writeXml cf indent forcedFieldName).ops = cf.ops ∧
    (IntegerNodeImpl.writeXml ⟨⟨['i'], false⟩, 0, E57_INT64_MIN, E57_INT64_MAX⟩ ⟨[], []⟩ 1
        none).contents = " <i type=\"Integer\"/>\n".toList ∧
    (IntegerNodeImpl.writeXml ⟨⟨['i'], false⟩, -5, -10, 7⟩ ⟨[], []⟩ 1 (some ['x'])).contents
      = " <x type=\"Integer\" minimum=\"-10\" maximum=\"7\">-5</x>\n".toList := by
  refine ⟨?_, ?_, by decide, by decide⟩
  · unfold IntegerNodeImpl.writeXml integerElementText CheckedFile.contents
    by_cases h1 : self.minimum_ = E57_INT64_MIN <;> by_cases h2 : self.maximum_ = E57_INT64_MAX <;>
      by_cases h3 : self.value_ = 0 <;>
      simp [h1, h2, h3, CheckedFile.put, List.flatten_append]
  · unfold IntegerNodeImpl.writeXml
    by_cases h1 : self.minimum_ = E57_INT64_MIN <;> by_cases h2 : self.maximum_ = E57_INT64_MAX <;>
      by_cases h3 : self.value_ = 0 <;>
      simp [h1, h2, h3, CheckedFile.put]

/-- C18, as stated, fails: the double-precision Float node with value 0, minimum minus
infinity and maximum `E57_DOUBLE_MAX` is accepted by the constructor, its stored minimum
is not the lower extremum `E57_DOUBLE_MIN`, and `writeXml` writes no minimum attribute:
the element is `<f type="Float"/>`. -/
theorem FloatNodeImpl.writeXml_omits_infinite_minimum :
    FloatNodeImpl.new ⟨['f'], false⟩ (Double.fin 0) FloatPrecision.E57_DOUBLE Double.negInf
      E57_DOUBLE_MAX = Except.ok negInfFloatNode ∧
    negInfFloatNode.minimum_ ≠ E57_DOUBLE_MIN ∧
    Double.eq negInfFloatNode.minimum_ E57_DOUBLE_MIN = false ∧
    (∀ showFloat showDouble : Double → ustring,
      (FloatNodeImpl.writeXml showFloat showDouble negInfFloatNode ⟨[], []⟩ 0 none).text
        = [[], "<".toList, ['f'], " type=\"Float\"".toList, "/>\n".toList]) := by
  refine ⟨?_, ?_, ?_, ?_⟩
  · have h1 : (FloatPrecision.E57_DOUBLE = FloatPrecision.E57_SINGLE) = False := by simp
    have h2 : Double.lt E57_DOUBLE_MAX (Double.fin 0) = false := by
      simp only [E57_DOUBLE_MAX, Double.lt]
      norm_num
    simp only [FloatNodeImpl.new, negInfFloatNode, h1, if_false, h2]
    simp [Double.lt]
  · simp [negInfFloatNode, E57_DOUBLE_MIN]
  · simp [negInfFloatNode, E57_DOUBLE_MIN, Double.eq, Double.ne]
  · intro showFloat showDouble
    simp [FloatNodeImpl.writeXml, negInfFloatNode, Double.gt, Double.lt, Double.ne,
      E57_DOUBLE_MIN, E57_DOUBLE_MAX, CheckedFile.put, fieldNameOf, space]

/-- C18, amended: `FloatNodeImpl::writeXml` writes the precision attribute (as `single`)
exactly for single precision, the minimum attribute exactly when the stored minimum is
greater than the lower extremum of the precision, the maximum attribute exactly when
the stored maximum is less than the upper extremum, and the value as child text
exactly when it differs from zero. For a stored bound that is finite and not beyond
the extremum, being omitted is the same as being equal to the extremum. -/
theorem FloatNodeImpl.float_writeXml_text (showFloat showDouble : Double → ustring)
    (self : FloatNodeImpl) (cf : CheckedFile) (indent : Nat) (forcedFieldName : Option ustring) :
    (FloatNodeImpl.writeXml showFloat showDouble self cf indent forcedFieldName).contents
      = cf.contents ++
        floatElementText
          (if self.precision_ = FloatPrecision.E57_SINGLE then showFloat else showDouble)
          (fieldNameOf self.toNodeImpl forcedFieldName) indent
          self.value_ self.minimum_ self.maximum_
          (decide (self.precision_ = FloatPrecision.E57_SINGLE))
          (Double.gt self.minimum_ (lowerExtremum self.precision_))
          (Double.lt self.maximum_ (upperExtremum self.precision_))
          (Double.ne self.value_ (Double.fin 0)) ∧
    (∀ q : ℚ, self.minimum_ = Double.fin q →
      Double.le (lowerExtremum self.precision_) self.minimum_ = true →
      (Double.gt self.minimum_ (lowerExtremum self.precision_) = false
        ↔ self.minimum_ = lowerExtremum self.precision_)) ∧
    (∀ q : ℚ, self.maximum_ = Double.fin q →
      Double.le self.maximum_ (upperExtremum self.precision_) = true →
      (Double.lt self.maximum_ (upperExtremum self.precision_) = false
        ↔ self.maximum_ = upperExtremum self.precision_)) := by
  refine ⟨?_, ?_, ?_⟩
  · unfold FloatNodeImpl.writeXml floatElementText CheckedFile.contents
    cases hp : self.precision_ <;>
      by_cases h1 : Double.gt self.minimum_ (lowerExtremum self.precision_) = true <;>
      by_cases h2 : Double.lt self.maximum_ (upperExtremum self.precision_) = true <;>
      by_cases h3 : Double.ne self.value_ (Double.fin 0) = true <;>
      simp only [hp, lowerExtremum, upperExtremum] at h1 h2 ⊢ <;>
      simp [h1, h2, h3, CheckedFile.put, List.flatten_append]
  · intro q hq hle
    cases hp : self.precision_ <;>
      simp only [hp, hq, lowerExtremum, E57_FLOAT_MIN, E57_DOUBLE_MIN, Double.le, Double.gt,
        Double.lt, decide_eq_true_eq, decide_eq_false_iff_not, not_lt, Double.fin.injEq]
        at hle ⊢ <;>
      exact ⟨fun h => le_antisymm h hle, fun h => h.le⟩
  · intro q hq hle
    cases hp : self.precision_ <;>
      simp only [hp, hq, upperExtremum, E57_FLOAT_MAX, E57_DOUBLE_MAX, Double.le,
        Double.lt, decide_eq_true_eq, decide_eq_false_iff_not, not_lt, Double.fin.injEq]
        at hle ⊢ <;>
      exact ⟨fun h => le_antisymm hle h, fun h => h.ge⟩

/-- C18 amended, at an input: a double-precision node with the finite minimum -1 has its
minimum attribute written, since -1 is not the lower extremum. -/
theorem FloatNodeImpl.float_writeXml_text_witness :
    ¬ (Double.gt (Double.fin (-1)) (lowerExtremum FloatPrecision.E57_DOUBLE) = false) :=
  fun h =>
    absurd
      (((FloatNodeImpl.float_writeXml_text (fun _ => []) (fun _ => [])
          { toNodeImpl := ⟨['f'], false⟩, value_ := Double.fin 0,
            precision_ := FloatPrecision.E57_DOUBLE, minimum_ := Double.fin (-1),
            maximum_ := E57_DOUBLE_MAX } ⟨[], []⟩ 0 none).2.1 (-1) rfl
          (by simp only [lowerExtremum, E57_DOUBLE_MIN, Double.le]; norm_num)).mp h)
      (by simp only [lowerExtremum, E57_DOUBLE_MIN]; norm_num)



/-! ## C19: leaves and the set of buffer names -/

/-- C19: `checkLeavesInSet` on an Integer, ScaledInteger, String or Blob node fails, with
NoBufferForElement, exactly when the path relative to the origin is not in the set; on
a Float node it fails exactly when neither the relative nor the absolute path is in
the set. A Float listed only by its absolute path is accepted, an Integer listed only
by its absolute path is rejected. -/
theorem LeafNode.checkLeavesInSet_iff (pathNames : List ustring)
    (relativePathName pathName : ustring) :
    (∀ n : IntegerNodeImpl,
      (n.checkLeavesInSet pathNames relativePathName pathName
          = Except.error ErrorCode.E57_ERROR_NO_BUFFER_FOR_ELEMENT ↔ relativePathName ∉ pathNames) ∧
      (n.checkLeavesInSet pathNames relativePathName pathName = Except.ok ()
        ↔ relativePathName ∈ pathNames)) ∧
    (∀ n : ScaledIntegerNodeImpl,
      (n.checkLeavesInSet pathNames relativePathName pathName
          = Except.error ErrorCode.E57_ERROR_NO_BUFFER_FOR_ELEMENT ↔ relativePathName ∉ pathNames) ∧
      (n.checkLeavesInSet pathNames relativePathName pathName = Except.ok ()
        ↔ relativePathName ∈ pathNames)) ∧
    (∀ n : StringNodeImpl,
      (n.checkLeavesInSet pathNames relativePathName pathName
          = Except.error ErrorCode.E57_ERROR_NO_BUFFER_FOR_ELEMENT ↔ relativePathName ∉ pathNames) ∧
      (n.checkLeavesInSet pathNames relativePathName pathName = Except.ok ()
        ↔ relativePathName ∈ pathNames)) ∧
    (∀ n : BlobNodeImpl,
      (n.checkLeavesInSet pathNames relativePathName pathName
          = Except.error ErrorCode.E57_ERROR_NO_BUFFER_FOR_ELEMENT ↔ relativePathName ∉ pathNames) ∧
      (n.checkLeavesInSet pathNames relativePathName pathName = Except.ok ()
        ↔ relativePathName ∈ pathNames)) ∧
    (∀ n : FloatNodeImpl,
      (n.checkLeavesInSet pathNames relativePathName pathName
          = Except.error ErrorCode.E57_ERROR_NO_BUFFER_FOR_ELEMENT
        ↔ (relativePathName ∉ pathNames ∧ pathName ∉ pathNames)) ∧
      (n.checkLeavesInSet pathNames relativePathName pathName = Except.ok ()
        ↔ (relativePathName ∈ pathNames ∨ pathName ∈ pathNames))) ∧
    (∀ (n : FloatNodeImpl) (m : IntegerNodeImpl),
      n.checkLeavesInSet ["/data/x".toList] ['x'] "/data/x".toList = Except.ok () ∧
      m.checkLeavesInSet ["/data/x".toList] ['x'] "/data/x".toList
        = Except.error ErrorCode.E57_ERROR_NO_BUFFER_FOR_ELEMENT) := by
  refine ⟨?_, ?_, ?_, ?_, ?_, ?_⟩
  · intro n
    unfold IntegerNodeImpl.checkLeavesInSet
    by_cases h : relativePathName ∈ pathNames <;> simp [h]
  · intro n
    unfold ScaledIntegerNodeImpl.checkLeavesInSet
    by_cases h : relativePathName ∈ pathNames <;> simp [h]
  · intro n
    unfold StringNodeImpl.checkLeavesInSet
    by_cases h : relativePathName ∈ pathNames <;> simp [h]
  · intro n
    unfold BlobNodeImpl.checkLeavesInSet
    by_cases h : relativePathName ∈ pathNames <;> simp [h]
  · intro n
    unfold FloatNodeImpl.checkLeavesInSet
    by_cases h : relativePathName ∈ pathNames <;> by_cases h2 : pathName ∈ pathNames <;>
      simp [h, h2]
  · intro n m
    constructor
    · unfold FloatNodeImpl.checkLeavesInSet
      rw [if_neg (by decide)]
    · unfold IntegerNodeImpl.checkLeavesInSet
      rw [if_pos (by decide)]

/-! ## C20: accessors on a closed session -/

/-- C20: when the owning session reports itself not open, every value accessor of a leaf
node fails with ImageFileNotOpen: those of Integer, ScaledInteger, Float and String
nodes, and `byteCount`, `read` and `write` of a Blob node, the last two leaving the file
session and its stream as they were. -/
theorem accessors_fail_when_closed (imf : ImageFileImpl) (hclosed : imf.isOpen = false) :
    (∀ n : IntegerNodeImpl,
      n.value imf = Except.error ErrorCode.E57_ERROR_IMAGEFILE_NOT_OPEN ∧
      n.minimum imf = Except.error ErrorCode.E57_ERROR_IMAGEFILE_NOT_OPEN ∧
      n.maximum imf = Except.error ErrorCode.E57_ERROR_IMAGEFILE_NOT_OPEN) ∧
    (∀ n : ScaledIntegerNodeImpl,
      n.rawValue imf = Except.error ErrorCode.E57_ERROR_IMAGEFILE_NOT_OPEN ∧
      n.scaledValue imf = Except.error ErrorCode.E57_ERROR_IMAGEFILE_NOT_OPEN ∧
      n.minimum imf = Except.error ErrorCode.E57_ERROR_IMAGEFILE_NOT_OPEN ∧
      n.maximum imf = Except.error ErrorCode.E57_ERROR_IMAGEFILE_NOT_OPEN ∧
      n.scaledMinimum imf = Except.error ErrorCode.E57_ERROR_IMAGEFILE_NOT_OPEN ∧
      n.scaledMaximum imf = Except.error ErrorCode.E57_ERROR_IMAGEFILE_NOT_OPEN ∧
      n.scale imf = Except.error ErrorCode.E57_ERROR_IMAGEFILE_NOT_OPEN ∧
      n.offset imf = Except.error ErrorCode.E57_ERROR_IMAGEFILE_NOT_OPEN) ∧
    (∀ n : FloatNodeImpl,
      n.value imf = Except.error ErrorCode.E57_ERROR_IMAGEFILE_NOT_OPEN ∧
      n.precision imf = Except.error ErrorCode.E57_ERROR_IMAGEFILE_NOT_OPEN ∧
      n.minimum imf = Except.error ErrorCode.E57_ERROR_IMAGEFILE_NOT_OPEN ∧
      n.maximum imf = Except.error ErrorCode.E57_ERROR_IMAGEFILE_NOT_OPEN) ∧
    (∀ n : StringNodeImpl,
      n.value imf = Except.error ErrorCode.E57_ERROR_IMAGEFILE_NOT_OPEN) ∧
    (∀ (sizeofHeader : Nat) (n : BlobNodeImpl) (start : Int) (count : Nat),
      n.byteCount imf = Except.error ErrorCode.E57_ERROR_IMAGEFILE_NOT_OPEN ∧
      BlobNodeImpl.read sizeofHeader n imf start count
        = { result := Except.error ErrorCode.E57_ERROR_IMAGEFILE_NOT_OPEN, node := n, imf := imf } ∧
      BlobNodeImpl.write sizeofHeader n imf start count
        = { result := Except.error ErrorCode.E57_ERROR_IMAGEFILE_NOT_OPEN, node := n, imf := imf }) := by
  have hc : checkImageFileOpen imf = Except.error ErrorCode.E57_ERROR_IMAGEFILE_NOT_OPEN := by
    simp [checkImageFileOpen, hclosed]
  refine ⟨?_, ?_, ?_, ?_, ?_⟩
  · intro n
    simp [IntegerNodeImpl.value, IntegerNodeImpl.minimum, IntegerNodeImpl.maximum, hc, bind,
      Except.bind]
  · intro n
    simp [ScaledIntegerNodeImpl.rawValue, ScaledIntegerNodeImpl.scaledValue,
      ScaledIntegerNodeImpl.minimum, ScaledIntegerNodeImpl.maximum,
      ScaledIntegerNodeImpl.scaledMinimum, ScaledIntegerNodeImpl.scaledMaximum,
      ScaledIntegerNodeImpl.scale, ScaledIntegerNodeImpl.offset, hc, bind, Except.bind]
  · intro n
    simp [FloatNodeImpl.value, FloatNodeImpl.precision, FloatNodeImpl.minimum,
      FloatNodeImpl.maximum, hc, bind, Except.bind]
  · intro n
    simp [StringNodeImpl.value, hc, bind, Except.bind]
  · intro sizeofHeader n start count
    simp [BlobNodeImpl.byteCount, BlobNodeImpl.read, BlobNodeImpl.write, hc, bind, Except.bind]

/-- C20, at an input: on a closed session the value of an Integer node is not returned,
and a blob read issues nothing to the stream. -/
theorem accessors_fail_when_closed_witness :
    IntegerNodeImpl.value ⟨⟨['i'], true⟩, 5, 0, 10⟩ (emptySession false true)
      = Except.error ErrorCode.E57_ERROR_IMAGEFILE_NOT_OPEN ∧
    (BlobNodeImpl.read 16 exampleBlob (emptySession false true) 0 4).imf.file_.ops = [] :=
  ⟨((accessors_fail_when_closed (emptySession false true) rfl).1 ⟨⟨['i'], true⟩, 5, 0, 10⟩).1,
   by rw [((accessors_fail_when_closed (emptySession false true) rfl).2.2.2.2 16 exampleBlob 0
        4).2.1]; rfl⟩



/-! ## C21: the fields of a blob are fixed -/

/-- The method `read` assigns no member of the node. -/
theorem BlobNodeImpl.read_node (sizeofHeader : Nat) (self : BlobNodeImpl) (imf : ImageFileImpl)
    (start : Int) (count : Nat) :
    (BlobNodeImpl.read sizeofHeader self imf start count).node = self := by
  unfold BlobNodeImpl.read
  repeat' split
  all_goals rfl

/-- The method `write` assigns no member of the node. -/
theorem BlobNodeImpl.write_node (sizeofHeader : Nat) (self : BlobNodeImpl) (imf : ImageFileImpl)
    (start : Int) (count : Nat) :
    (BlobNodeImpl.write sizeofHeader self imf start count).node = self := by
  unfold BlobNodeImpl.write
  repeat' split
  all_goals rfl

/-- One call leaves the node as it was. -/
theorem BlobNodeImpl.call_fields (sizeofHeader : Nat) (logicalToPhysical : Nat → Nat)
    (state : BlobNodeImpl × ImageFileImpl) (c : BlobCall) :
    (BlobNodeImpl.call sizeofHeader logicalToPhysical state c).1 = state.1 := by
  cases c with
  | read start count => exact BlobNodeImpl.read_node _ _ _ _ _
  | write start count => exact BlobNodeImpl.write_node _ _ _ _ _
  | _ => rfl

/-- C21: no operation of a blob (byteCount, read, write, isTypeEquivalent, isDefined,
checkLeavesInSet, writeXml), succeeding or failing, changes `blobLogicalLength_`,
`binarySectionLogicalStart_` or `binarySectionLogicalLength_`: after any sequence of calls
the node has the three fields it had before, and so after any single call. -/
theorem BlobNodeImpl.fields_fixed (sizeofHeader : Nat) (logicalToPhysical : Nat → Nat)
    (self : BlobNodeImpl) (imf : ImageFileImpl) (cs : List BlobCall) :
    (BlobNodeImpl.calls sizeofHeader logicalToPhysical (self, imf) cs).1.blobLogicalLength_
      = self.blobLogicalLength_ ∧
    (BlobNodeImpl.calls sizeofHeader logicalToPhysical (self, imf) cs).1.binarySectionLogicalStart_
      = self.binarySectionLogicalStart_ ∧
    (BlobNodeImpl.calls sizeofHeader logicalToPhysical (self, imf) cs).1.binarySectionLogicalLength_
      = self.binarySectionLogicalLength_ ∧
    (∀ (start : Int) (count : Nat),
      (BlobNodeImpl.read sizeofHeader self imf start count).node = self ∧
      (BlobNodeImpl.write sizeofHeader self imf start count).node = self) := by
  have key : ∀ (cs : List BlobCall) (state : BlobNodeImpl × ImageFileImpl),
      (BlobNodeImpl.calls sizeofHeader logicalToPhysical state cs).1 = state.1 := by
    intro cs
    induction cs with
    | nil => intro state; rfl
    | cons c rest ih =>
      intro state
      unfold BlobNodeImpl.calls
      rw [List.foldl_cons]
      have := ih (BlobNodeImpl.call sizeofHeader logicalToPhysical state c)
      unfold BlobNodeImpl.calls at this
      rw [this, BlobNodeImpl.call_fields]
  rw [key cs (self, imf)]
  refine ⟨rfl, rfl, rfl, ?_⟩
  intro start count
  exact ⟨BlobNodeImpl.call_fields sizeofHeader logicalToPhysical (self, imf)
      (BlobCall.read start count),
    BlobNodeImpl.call_fields sizeofHeader logicalToPhysical (self, imf)
      (BlobCall.write start count)⟩

/-! ## C22: setting a child of a structure twice -/

/-- C22: on an open session, `set( index, node )` at an index that is already occupied,
`0 <= index < childCount()`, fails with SetTwice and leaves the children as they were. -/
theorem StructureNodeImpl.set_occupied (self : StructureNodeImpl) (imf : ImageFileImpl)
    (index : Int) (ni : Node) (hopen : imf.isOpen = true) (h0 : 0 ≤ index)
    (h1 : index < self.childCount) :
    (self.set imf index ni).1 = Except.error ErrorCode.E57_ERROR_SET_TWICE ∧
    (self.set imf index ni).2 = self ∧
    (self.set imf index ni).2.children_ = self.children_ := by
  have hset : self.set imf index ni = (Except.error ErrorCode.E57_ERROR_SET_TWICE, self) := by
    unfold StructureNodeImpl.set checkImageFileOpen
    simp only [hopen, if_true]
    rw [if_neg (by omega), if_pos h1]
  rw [hset]
  exact ⟨rfl, rfl, rfl⟩

/-- C22, at an input: setting slot 1 of a structure with two children. -/
theorem StructureNodeImpl.set_occupied_witness :
    (exampleStructure.set (emptySession true true) 1 (Node.string ⟨⟨['c'], false⟩, []⟩)).1
      = Except.error ErrorCode.E57_ERROR_SET_TWICE ∧
    (exampleStructure.set (emptySession true true) 1 (Node.string ⟨⟨['c'], false⟩, []⟩)).2.children_
      = exampleStructure.children_ :=
  ⟨(StructureNodeImpl.set_occupied exampleStructure (emptySession true true) 1
      (Node.string ⟨⟨['c'], false⟩, []⟩) rfl (by decide) (by decide)).1,
   (StructureNodeImpl.set_occupied exampleStructure (emptySession true true) 1
      (Node.string ⟨⟨['c'], false⟩, []⟩) rfl (by decide) (by decide)).2.2⟩



/-! ## C23, C24, C27: what a blob issues to the stream -/

/-- C24: constructing a new blob issues to the session, in this order, the allocation of
exactly `binarySectionLogicalLength_` zero-filled bytes, a seek to the offset that the
allocation returned, which is stored as `binarySectionLogicalStart_`, and the write of a
header whose field `sectionLogicalLength` is `binarySectionLogicalLength_`. For a header
of positive size that length is larger than the payload length. -/
theorem BlobNodeImpl.new_allocates (sizeofHeader : Nat) (base : NodeImpl) (imf : ImageFileImpl)
    (byteCount : Int) :
    (BlobNodeImpl.new sizeofHeader base imf byteCount).1.binarySectionLogicalStart_
      = (imf.allocateSpace
          (BlobNodeImpl.new sizeofHeader base imf byteCount).1.binarySectionLogicalLength_
          true).1 ∧
    (BlobNodeImpl.new sizeofHeader base imf byteCount).2.file_.ops
      = imf.file_.ops ++
        [FileOp.allocate
            (BlobNodeImpl.new sizeofHeader base imf byteCount).1.binarySectionLogicalLength_ true,
         FileOp.seek (BlobNodeImpl.new sizeofHeader base imf byteCount).1.binarySectionLogicalStart_,
         FileOp.writeHeader
            (BlobNodeImpl.new sizeofHeader base imf byteCount).1.binarySectionLogicalLength_
            sizeofHeader] ∧
    (0 ≤ byteCount → byteCount < (2 : Int) ^ 63 → 0 < sizeofHeader → sizeofHeader < 2 ^ 62 →
      (BlobNodeImpl.new sizeofHeader base imf byteCount).1.blobLogicalLength_
        < (BlobNodeImpl.new sizeofHeader base imf byteCount).1.binarySectionLogicalLength_) := by
  refine ⟨rfl, ?_, ?_⟩
  · simp [BlobNodeImpl.new, ImageFileImpl.allocateSpace, CheckedFile.seek,
      CheckedFile.writeHeader]
  · intro h0 h1 hpos hh
    have hb := toUInt64_of_nonneg byteCount h0 h1
    obtain ⟨hlen, hblob⟩ := BlobNodeImpl.new_length_eq sizeofHeader base imf byteCount
    rw [hlen, hblob]
    generalize toUInt64 byteCount = b at hb
    subst hb
    have hnw : (sizeofHeader + b) % 2 ^ 64 = sizeofHeader + b := Nat.mod_eq_of_lt (by omega)
    have hr : ((sizeofHeader + b) % 4) % 2 ^ 32 = (sizeofHeader + b) % 4 :=
      Nat.mod_eq_of_lt (by omega)
    rw [hnw, hr]
    split
    · have hnw2 : (sizeofHeader + b + (4 - (sizeofHeader + b) % 4)) % 2 ^ 64
          = sizeofHeader + b + (4 - (sizeofHeader + b) % 4) := Nat.mod_eq_of_lt (by omega)
      rw [hnw2]
      omega
    · omega

/-- C24, at an input: a new blob of 5 bytes behind a header of 16 bytes on a fresh
session allocates 24 zero-filled bytes at offset 0 and writes there a header that
records 24. -/
theorem BlobNodeImpl.new_allocates_witness :
    (BlobNodeImpl.new 16 ⟨['b'], false⟩ (emptySession true true) 5).2.file_.ops
      = [FileOp.allocate 24 true, FileOp.seek 0, FileOp.writeHeader 24 16] ∧
    (BlobNodeImpl.new 16 ⟨['b'], false⟩ (emptySession true true) 5).1.blobLogicalLength_
      < (BlobNodeImpl.new 16 ⟨['b'], false⟩ (emptySession true true) 5).1.binarySectionLogicalLength_ :=
  ⟨by decide,
   (BlobNodeImpl.new_allocates 16 ⟨['b'], false⟩ (emptySession true true) 5).2.2 (by decide)
     (by decide) (by decide) (by decide)⟩

/-- C27, at the failing input: on an open, writable session, reading or writing 1 byte
at `start = -1` of an attached blob of 10 bytes, whose section starts at 48 behind a
header of 16 bytes, passes the bounds check, because the sum wraps around to 0, and
the stream is sought to 63, the last byte of the section header. -/
theorem BlobNodeImpl.negative_start_accepted :
    (toUInt64 (-1) + 1) % 2 ^ 64 = 0 ∧
    (BlobNodeImpl.read 16 exampleBlob (emptySession true true) (-1) 1).result = Except.ok () ∧
    (BlobNodeImpl.read 16 exampleBlob (emptySession true true) (-1) 1).imf.file_.ops
      = [FileOp.seek 63, FileOp.read 1] ∧
    (BlobNodeImpl.write 16 exampleBlob (emptySession true true) (-1) 1).result = Except.ok () ∧
    (BlobNodeImpl.write 16 exampleBlob (emptySession true true) (-1) 1).imf.file_.ops
      = [FileOp.seek 63, FileOp.write 1] ∧
    63 < exampleBlob.binarySectionLogicalStart_ + 16 := by
  refine ⟨by decide, rfl, rfl, rfl, rfl, by decide⟩

/-- Where C27 does hold: on an open session, a negative `start` is refused with
BadApiArgument whenever `start + count` is negative or exceeds the length of the blob
(the length and `count` being below `2^63`); it is accepted only when
`0 <= start + count <= length`. -/
theorem BlobNodeImpl.negative_start_refused (sizeofHeader : Nat) (self : BlobNodeImpl)
    (imf : ImageFileImpl) (start : Int) (count : Nat) (hopen : imf.isOpen = true)
    (hlen : self.blobLogicalLength_ < 2 ^ 63) (hneg : start < 0)
    (hstart : -(2 : Int) ^ 63 ≤ start) (hcount : count < 2 ^ 63)
    (hsum : start + count < 0 ∨ (self.blobLogicalLength_ : Int) < start + count) :
    (BlobNodeImpl.read sizeofHeader self imf start count).result
      = Except.error ErrorCode.E57_ERROR_BAD_API_ARGUMENT ∧
    (imf.isWriter = true → self.isAttached_ = true →
      (BlobNodeImpl.write sizeofHeader self imf start count).result
        = Except.error ErrorCode.E57_ERROR_BAD_API_ARGUMENT) := by
  have hcheck : (toUInt64 start + count) % 2 ^ 64 > self.blobLogicalLength_ := by
    unfold toUInt64
    omega
  constructor
  · unfold BlobNodeImpl.read checkImageFileOpen
    simp only [hopen, if_true]
    rw [if_pos hcheck]
  · intro hw ha
    unfold BlobNodeImpl.write checkImageFileOpen
    simp only [hopen, hw, ha, if_true, not_true_eq_false, if_false]
    rw [if_pos hcheck]



/-! ## Counting the occurrences of the terminator -/

/-- Positions at which the pattern does not start do not count. -/
theorem countOccurrences_drop (pat s : ustring) (j : Nat)
    (h : ∀ i, i < j → ¬ pat <+: s.drop i) :
    countOccurrences pat s = countOccurrences pat (s.drop j) := by
  induction j generalizing s with
  | zero => rfl
  | succ j ih =>
    cases s with
    | nil => rfl
    | cons c t =>
      have h0 : pat.isPrefixOf (c :: t) = false := by
        cases hp : pat.isPrefixOf (c :: t) with
        | false => rfl
        | true => exact absurd (List.isPrefixOf_iff_prefix.mp hp) (h 0 (Nat.succ_pos j))
      rw [countOccurrences, h0, List.drop_succ_cons]
      simp only [Bool.false_eq_true, if_false, Nat.zero_add]
      exact ih t (fun i hi => by
        have := h (i + 1) (Nat.succ_lt_succ hi)
        rwa [List.drop_succ_cons] at this)

/-- A string that does not contain the pattern has no occurrence of it. -/
theorem countOccurrences_eq_zero (pat s : ustring) (h : ¬ pat <:+: s) :
    countOccurrences pat s = 0 := by
  induction s with
  | nil => rfl
  | cons c t ih =>
    have h0 : pat.isPrefixOf (c :: t) = false := by
      cases hp : pat.isPrefixOf (c :: t) with
      | false => rfl
      | true => exact absurd (List.isPrefixOf_iff_prefix.mp hp).isInfix h
    rw [countOccurrences, h0]
    simp only [Bool.false_eq_true, if_false, Nat.zero_add]
    exact ih (fun hin => h (hin.trans (List.suffix_cons c t).isInfix))

/-- There are no more occurrences than characters. -/
theorem countOccurrences_le_length (pat s : ustring) : countOccurrences pat s ≤ s.length := by
  induction s with
  | nil => simp [countOccurrences]
  | cons c t ih =>
    rw [countOccurrences, List.length_cons]
    split <;> omega

/-- At an occurrence of the terminator: one occurrence, and the others start at its `>` or
later. -/
theorem countOccurrences_at (w : ustring) (h : cdataEnd <+: w) :
    countOccurrences cdataEnd w = 1 + countOccurrences cdataEnd (w.drop 2) ∧
    ['>'] <+: w.drop 2 ∧ w.take 2 = [']', ']'] := by
  obtain ⟨r, rfl⟩ := h
  refine ⟨?_, ?_, ?_⟩
  · simp [cdataEnd, countOccurrences, List.isPrefixOf]
  · simp [cdataEnd]
  · simp [cdataEnd]

/-! ## The loop, iteration by iteration -/

/-- The loop, entered at a position inside the value, ends within one evaluation of its
test for each occurrence of the terminator in the rest of the value, plus one; it
writes one chunk more than there are occurrences; every chunk but the last ends with
`]]`, every chunk but the first begins with `>`, and no chunk is empty or contains the
terminator. -/
theorem StringNodeImpl.writeXmlLoop_sections (value : ustring) (fuel pos : Nat) (cf : CheckedFile)
    (hpos : pos < value.length)
    (hfuel : countOccurrences cdataEnd (value.drop pos) < fuel) :
    ∃ chunks : List ustring, chunks.flatten = value.drop pos ∧
      (∀ A ∈ chunks, A ≠ [] ∧ ¬ cdataEnd <:+: A) ∧
      chunks.length = countOccurrences cdataEnd (value.drop pos) + 1 ∧
      (∀ A ∈ chunks.dropLast, [']', ']'] <:+ A) ∧
      (∀ A ∈ chunks.tail, ['>'] <+: A) ∧
      StringNodeImpl.writeXmlLoop value fuel pos cf
        = some { text := cf.text ++ chunks.intersperse (cdataEnd ++ cdataBegin),
                 ops := cf.ops } := by
  induction fuel generalizing pos cf with
  | zero => omega
  | succ f ih =>
    unfold StringNodeImpl.writeXmlLoop
    rw [if_pos hpos]
    cases hfind : find value cdataEnd pos with
    | none =>
      have hclean := find_cdataEnd_none value pos hpos.le hfind
      refine ⟨[value.drop pos], by simp, ?_, ?_, by simp, by simp, ?_⟩
      · intro A hA
        simp only [List.mem_singleton] at hA
        subst hA
        refine ⟨?_, hclean⟩
        intro he
        have := congrArg List.length he
        simp only [List.length_drop, List.length_nil] at this
        omega
      · rw [countOccurrences_eq_zero _ _ hclean]
        rfl
      · simp [CheckedFile.put, substrFrom]
    | some found =>
      obtain ⟨h1, h2, h3, h4⟩ := find_cdataEnd_some value pos found hfind
      have hcount1 : countOccurrences cdataEnd (value.drop pos)
          = countOccurrences cdataEnd (value.drop found) := by
        have := countOccurrences_drop cdataEnd (value.drop pos) (found - pos) (fun i hi => by
          have := h4 (pos + i) (by omega) (by omega)
          rwa [List.drop_drop])
        rw [this, List.drop_drop]
        congr 2
        omega
      obtain ⟨hcount2, hgt, htake⟩ := countOccurrences_at (value.drop found) h3
      rw [List.drop_drop] at hcount2 hgt
      obtain ⟨chunks, hflat, hclean, hlen, hend, hbegin, hrun⟩ :=
        ih (found + 2) ((cf.put (substr value pos (found - pos + 2))).put (cdataEnd ++ cdataBegin))
          (by omega) (by omega)
      have hne : chunks ≠ [] := by
        intro he
        rw [he] at hlen
        simp at hlen
      have hA : substr value pos (found - pos + 2) ++ value.drop (found + 2) = value.drop pos := by
        simp only [substr]
        have e : value.drop (found + 2) = (value.drop pos).drop (found - pos + 2) := by
          rw [List.drop_drop]
          congr 1
          omega
        rw [e, List.take_append_drop]
      have hAend : [']', ']'] <:+ substr value pos (found - pos + 2) := by
        refine ⟨(value.drop pos).take (found - pos), ?_⟩
        simp only [substr]
        rw [List.take_add, ← htake]
        congr 2
        rw [List.drop_drop]
        congr 1
        omega
      refine ⟨substr value pos (found - pos + 2) :: chunks, ?_, ?_, ?_, ?_, ?_, ?_⟩
      · simp only [List.flatten_cons, hflat, hA]
      · intro A hAm
        rcases List.mem_cons.mp hAm with hAm | hAm
        · subst hAm
          constructor
          · intro he
            have := hAend.length_le
            rw [he] at this
            simp at this
          · intro hin
            obtain ⟨j, hj1, hj2⟩ := start_of_infix _ _ hin
            simp only [cdataEnd, List.length_cons, List.length_nil, substr, List.length_take,
              List.length_drop] at hj1
            apply h4 (pos + j) (by omega) (by omega)
            have e : value.drop (pos + j) = (value.drop pos).drop j := by
              rw [List.drop_drop]
            rw [e]
            refine hj2.trans ?_
            simp only [substr, List.drop_take]
            exact List.take_prefix _ _
        · exact hclean A hAm
      · simp only [List.length_cons, hlen, hcount1, hcount2]
        omega
      · intro A hAm
        rw [List.dropLast_cons_of_ne_nil hne] at hAm
        rcases List.mem_cons.mp hAm with hAm | hAm
        · subst hAm
          exact hAend
        · exact hend A hAm
      · intro A hAm
        simp only [List.tail_cons] at hAm
        cases chunks with
        | nil => exact absurd rfl hne
        | cons B rest =>
          rcases List.mem_cons.mp hAm with hAm | hAm
          · subst hAm
            have hBne := (hclean A (List.mem_cons_self _ _)).1
            have hBpre : A <+: value.drop (found + 2) := by
              rw [← hflat, List.flatten_cons]
              exact List.prefix_append _ _
            obtain ⟨r, hr⟩ := hgt
            cases A with
            | nil => exact absurd rfl hBne
            | cons a A' =>
              obtain ⟨u, hu⟩ := hBpre
              rw [← hr] at hu
              simp only [List.cons_append, List.singleton_append, List.cons.injEq] at hu
              rw [hu.1]
              exact ⟨A', rfl⟩
          · exact hbegin A (by simpa using hAm)
      · simp only [hrun]
        cases chunks with
        | nil => exact absurd rfl hne
        | cons B rest =>
          simp [CheckedFile.put, List.intersperse]


/-- The writes of `StringNodeImpl::writeXml` for a value that is not empty, section by
section: one chunk more than the value has occurrences of the terminator. -/
theorem StringNodeImpl.writeXml_sections (self : StringNodeImpl) (cf : CheckedFile) (indent : Nat)
    (forcedFieldName : Option ustring) (hne : self.value_ ≠ []) :
    ∃ chunks : List ustring, chunks.flatten = self.value_ ∧
      (∀ A ∈ chunks, A ≠ [] ∧ ¬ cdataEnd <:+: A) ∧
      chunks.length = countOccurrences cdataEnd self.value_ + 1 ∧
      (∀ A ∈ chunks.dropLast, [']', ']'] <:+ A) ∧
      (∀ A ∈ chunks.tail, ['>'] <+: A) ∧
      self.writeXml cf indent forcedFieldName
        = some { text := cf.text ++
                   [space indent, "<".toList, fieldNameOf self.toNodeImpl forcedFieldName,
                    " type=\"String\"".toList, '>' :: cdataBegin] ++
                   chunks.intersperse (cdataEnd ++ cdataBegin) ++
                   [cdataEnd ++ "</".toList, fieldNameOf self.toNodeImpl forcedFieldName,
                    ">\n".toList],
                 ops := cf.ops } := by
  have hlen : 0 < self.value_.length := List.length_pos.mpr hne
  have hk := countOccurrences_le_length cdataEnd self.value_
  obtain ⟨chunks, h1, h2, h3, h4, h5, h6⟩ :=
    StringNodeImpl.writeXmlLoop_sections self.value_ (self.value_.length + 1) 0
      (((((cf.put (space indent)).put "<".toList).put
        (fieldNameOf self.toNodeImpl forcedFieldName)).put " type=\"String\"".toList).put
        ('>' :: cdataBegin)) hlen (by simp only [List.drop_zero]; omega)
  simp only [List.drop_zero] at h1 h3
  refine ⟨chunks, h1, h2, h3, h4, h5, ?_⟩
  have hemp : self.value_.isEmpty = false := by
    cases hv : self.value_ with
    | nil => exact absurd hv hne
    | cons c t => rfl
  unfold StringNodeImpl.writeXml
  simp only [hemp, Bool.false_eq_true, if_false]
  rw [h6]
  simp [CheckedFile.put]

/-! ## C25 and C26: the sections and the iterations of the String loop -/

/-- C25: for a value that is not empty and has `k` occurrences of `]]>`, `writeXml` writes
`k + 1` chunks of the value, each in a CDATA section of its own: every chunk but the
last ends with `]]`, every chunk but the first begins with `>`, no chunk contains `]]>`,
and with `k = 0` the one chunk is the value itself. An empty value is written as a
self-closing element, without any section. The value `a]]>b]]>c` has 2 occurrences. -/
theorem StringNodeImpl.writeXml_section_count (self : StringNodeImpl) (cf : CheckedFile)
    (indent : Nat) (forcedFieldName : Option ustring) :
    ((self.value_ = [] ∧
      self.writeXml cf indent forcedFieldName
        = some { text := cf.text ++
                   [space indent, "<".toList, fieldNameOf self.toNodeImpl forcedFieldName,
                    " type=\"String\"".toList, "/>\n".toList],
                 ops := cf.ops }) ∨
     (∃ chunks : List ustring,
      self.writeXml cf indent forcedFieldName
        = some { text := cf.text ++
                   [space indent, "<".toList, fieldNameOf self.toNodeImpl forcedFieldName,
                    " type=\"String\"".toList, '>' :: cdataBegin] ++
                   chunks.intersperse (cdataEnd ++ cdataBegin) ++
                   [cdataEnd ++ "</".toList, fieldNameOf self.toNodeImpl forcedFieldName,
                    ">\n".toList],
                 ops := cf.ops } ∧
      chunks.flatten = self.value_ ∧
      chunks.length = countOccurrences cdataEnd self.value_ + 1 ∧
      (∀ A ∈ chunks.dropLast, [']', ']'] <:+ A) ∧
      (∀ A ∈ chunks.tail, ['>'] <+: A) ∧
      (∀ A ∈ chunks, ¬ cdataEnd <:+: A) ∧
      (countOccurrences cdataEnd self.value_ = 0 → chunks = [self.value_]))) ∧
    countOccurrences cdataEnd "a]]>b]]>c".toList = 2 := by
  refine ⟨?_, by decide⟩
  by_cases hv : self.value_ = []
  · exact Or.inl ⟨hv, StringNodeImpl.writeXml_empty self cf indent forcedFieldName hv⟩
  · obtain ⟨chunks, h1, h2, h3, h4, h5, h6⟩ :=
      StringNodeImpl.writeXml_sections self cf indent forcedFieldName hv
    refine Or.inr ⟨chunks, h6, h1, h3, h4, h5, fun A hA => (h2 A hA).2, ?_⟩
    intro hk
    rw [hk] at h3
    match chunks, h1, h3 with
    | [A], h1, _ =>
      simp only [List.flatten_cons, List.flatten_nil, List.append_nil] at h1
      rw [h1]

/-- C26: the loop of `StringNodeImpl::writeXml` terminates. An iteration that does not
leave the loop sets `currentPosition` to `found + 2`, which is larger than before and
still below the length of the value; entered at any position, the loop is left within
one evaluation of its test for each occurrence of `]]>` in the rest of the value, plus
one; that is at most the `length + 1` the method allows, so `writeXml` returns. -/
theorem StringNodeImpl.writeXmlLoop_terminates (value : ustring) :
    (∀ pos found : Nat, find value cdataEnd pos = some found →
      pos < found + 2 ∧ found + 2 < value.length) ∧
    (∀ (fuel pos : Nat) (cf : CheckedFile),
      countOccurrences cdataEnd (value.drop pos) < fuel →
      ∃ cf2, StringNodeImpl.writeXmlLoop value fuel pos cf = some cf2) ∧
    countOccurrences cdataEnd value + 1 ≤ value.length + 1 ∧
    (∀ (base : NodeImpl) (cf : CheckedFile) (indent : Nat) (forcedFieldName : Option ustring),
      ∃ cf2, (StringNodeImpl.new base value).writeXml cf indent forcedFieldName = some cf2) := by
  refine ⟨?_, ?_, ?_, ?_⟩
  · intro pos found h
    obtain ⟨h1, h2, -⟩ := find_cdataEnd_some value pos found h
    omega
  · intro fuel pos cf hfuel
    by_cases hpos : pos < value.length
    · obtain ⟨chunks, -, -, -, -, -, hrun⟩ :=
        StringNodeImpl.writeXmlLoop_sections value fuel pos cf hpos hfuel
      exact ⟨_, hrun⟩
    · cases fuel with
      | zero => omega
      | succ f =>
        refine ⟨cf, ?_⟩
        unfold StringNodeImpl.writeXmlLoop
        rw [if_neg hpos]
  · have := countOccurrences_le_length cdataEnd value
    omega
  · intro base cf indent forcedFieldName
    by_cases hv : value = []
    · exact ⟨_, StringNodeImpl.writeXml_empty (StringNodeImpl.new base value) cf indent
        forcedFieldName hv⟩
    · obtain ⟨chunks, -, -, -, -, -, hrun⟩ :=
        StringNodeImpl.writeXml_sections (StringNodeImpl.new base value) cf indent
          forcedFieldName hv
      exact ⟨_, hrun⟩

/-- C26, at an input: in `a]]>b]]>c` the search from position 0 finds the terminator at 1,
so the next position is 3, and three evaluations of the test are enough. -/
theorem StringNodeImpl.writeXmlLoop_terminates_witness :
    find "a]]>b]]>c".toList cdataEnd 0 = some 1 ∧ 0 < 1 + 2 ∧ 1 + 2 < "a]]>b]]>c".toList.length ∧
    ∃ cf2, StringNodeImpl.writeXmlLoop "a]]>b]]>c".toList 3 0 ⟨[], []⟩ = some cf2 :=
  ⟨by decide,
   ((StringNodeImpl.writeXmlLoop_terminates "a]]>b]]>c".toList).1 0 1 (by decide)).1,
   ((StringNodeImpl.writeXmlLoop_terminates "a]]>b]]>c".toList).1 0 1 (by decide)).2,
   (StringNodeImpl.writeXmlLoop_terminates "a]]>b]]>c".toList).2.1 3 0 ⟨[], []⟩ (by decide)⟩



/-! ## Decimal text -/

/-- A digit is read back from its character. -/
theorem digitValue_digitChar (d : Nat) (h : d < 10) :
    digitValue (Nat.digitChar d) = d ∧ (Nat.digitChar d).isDigit = true := by
  interval_cases d <;> exact ⟨by decide, by decide⟩

/-- Reading one more digit. -/
theorem readDigits_cons (acc : Nat) (c : Char) (t : ustring) :
    readDigits acc (c :: t) = readDigits (10 * acc + digitValue c) t := rfl

/-- The digits that `toDigitsCore` puts in front of `ds` denote `n`. -/
theorem readDigits_toDigitsCore (fuel n : Nat) (ds : ustring) (h : n < fuel) :
    readDigits 0 (Nat.toDigitsCore 10 fuel n ds) = readDigits n ds := by
  induction fuel generalizing n ds with
  | zero => omega
  | succ f ih =>
    have hd := (digitValue_digitChar (n % 10) (Nat.mod_lt n (by decide))).1
    by_cases h0 : n / 10 = 0
    · have e : Nat.toDigitsCore 10 (f + 1) n ds = Nat.digitChar (n % 10) :: ds := by
        simp only [Nat.toDigitsCore, h0, if_true]
      have e2 : 10 * 0 + n % 10 = n := by omega
      rw [e, readDigits_cons, hd, e2]
    · have e : Nat.toDigitsCore 10 (f + 1) n ds
          = Nat.toDigitsCore 10 f (n / 10) (Nat.digitChar (n % 10) :: ds) := by
        simp only [Nat.toDigitsCore, h0, if_false]
      have e2 : 10 * (n / 10) + n % 10 = n := by omega
      rw [e, ih (n / 10) (Nat.digitChar (n % 10) :: ds) (by omega), readDigits_cons, hd, e2]

/-- The characters that `toDigitsCore` puts in front of `ds` are digits. -/
theorem isDigit_toDigitsCore (fuel n : Nat) (ds : ustring) (c : Char)
    (hc : c ∈ Nat.toDigitsCore 10 fuel n ds) : c.isDigit = true ∨ c ∈ ds := by
  induction fuel generalizing n ds with
  | zero =>
    simp only [Nat.toDigitsCore] at hc
    exact Or.inr hc
  | succ f ih =>
    have hd := (digitValue_digitChar (n % 10) (Nat.mod_lt n (by decide))).2
    by_cases h0 : n / 10 = 0
    · simp only [Nat.toDigitsCore, h0, if_true] at hc
      rcases List.mem_cons.mp hc with hc | hc
      · exact Or.inl (hc ▸ hd)
      · exact Or.inr hc
    · simp only [Nat.toDigitsCore, h0, if_false] at hc
      rcases ih (n / 10) _ hc with hc | hc
      · exact Or.inl hc
      · rcases List.mem_cons.mp hc with hc | hc
        · exact Or.inl (hc ▸ hd)
        · exact Or.inr hc

/-- The decimal text of a natural number denotes it, and is made of digits. -/
theorem readDigits_toDigits (n : Nat) :
    readDigits 0 (Nat.toDigits 10 n) = n ∧ ∀ c ∈ Nat.toDigits 10 n, c.isDigit = true := by
  constructor
  · unfold Nat.toDigits
    rw [readDigits_toDigitsCore _ _ _ (Nat.lt_succ_self n)]
    rfl
  · intro c hc
    rcases isDigit_toDigitsCore _ _ _ c hc with h | h
    · exact h
    · simp at h

/-- The decimal text of an integer denotes it. -/
theorem readDecimal_toDecimal (i : Int) : readDecimal (toDecimal i) = i := by
  unfold toDecimal
  by_cases hneg : i < 0
  · have h3 : readDecimal ('-' :: Nat.toDigits 10 i.natAbs)
        = -((readDigits 0 (Nat.toDigits 10 i.natAbs) : Nat) : Int) := by
      simp [readDecimal]
    simp only [hneg, if_true, h3, (readDigits_toDigits i.natAbs).1]
    omega
  · simp only [hneg, if_false]
    obtain ⟨h1, h2⟩ := readDigits_toDigits i.toNat
    cases hl : Nat.toDigits 10 i.toNat with
    | nil =>
      rw [hl] at h1
      have h0 : readDigits 0 [] = 0 := rfl
      rw [h0] at h1
      have h3 : readDecimal [] = 0 := rfl
      rw [h3]
      omega
    | cons c t =>
      rw [hl] at h1 h2
      have hc : c ≠ '-' := by
        intro he
        have := h2 c (List.mem_cons_self _ _)
        rw [he] at this
        exact absurd this (by decide)
      have h3 : readDecimal (c :: t) = ((readDigits 0 (c :: t) : Nat) : Int) := by
        simp [readDecimal, hc]
      rw [h3, h1]
      omega

/-- The decimal text of an integer determines the integer. -/
theorem toDecimal_injective (i j : Int) (h : toDecimal i = toDecimal j) : i = j := by
  have := congrArg readDecimal h
  rwa [readDecimal_toDecimal, readDecimal_toDecimal] at this

/-- The characters of the decimal text of an integer are digits or the minus sign. -/
theorem mem_toDecimal (i : Int) (c : Char) (hc : c ∈ toDecimal i) :
    c.isDigit = true ∨ c = '-' := by
  unfold toDecimal at hc
  split at hc
  · rcases List.mem_cons.mp hc with hc | hc
    · exact Or.inr hc
    · exact Or.inl ((readDigits_toDigits _).2 c hc)
  · exact Or.inl ((readDigits_toDigits _).2 c hc)

/-- Two texts that end at the first delimiter are equal when what follows the delimiter
included is equal. -/
theorem append_delimiter_cancel (d : Char) (a b r s : ustring) (ha : d ∉ a) (hb : d ∉ b)
    (h : a ++ d :: r = b ++ d :: s) : a = b ∧ r = s := by
  induction a generalizing b with
  | nil =>
    cases b with
    | nil => simpa using h
    | cons y b2 =>
      simp only [List.nil_append, List.cons_append, List.cons.injEq] at h
      exact absurd (h.1 ▸ List.mem_cons_self _ _) hb
  | cons x a2 ih =>
    cases b with
    | nil =>
      simp only [List.nil_append, List.cons_append, List.cons.injEq] at h
      exact absurd (h.1 ▸ List.mem_cons_self _ _) ha
    | cons y b2 =>
      simp only [List.cons_append, List.cons.injEq] at h
      obtain ⟨h1, h2⟩ := ih b2 (fun hm => ha (List.mem_cons_of_mem _ hm))
        (fun hm => hb (List.mem_cons_of_mem _ hm)) h.2
      exact ⟨by rw [h.1, h1], h2⟩

/-- Decimal texts followed by a delimiter that is neither a digit nor the minus sign. -/
theorem toDecimal_delimiter_cancel (d : Char) (hd1 : d.isDigit = false) (hd2 : d ≠ '-')
    (i j : Int) (r s : ustring) (h : toDecimal i ++ d :: r = toDecimal j ++ d :: s) :
    i = j ∧ r = s := by
  have hmem : ∀ k : Int, d ∉ toDecimal k := by
    intro k hk
    rcases mem_toDecimal k d hk with h1 | h1
    · rw [hd1] at h1
      cases h1
    · exact hd2 h1
  obtain ⟨h1, h2⟩ := append_delimiter_cancel d _ _ _ _ (hmem i) (hmem j) h
  exact ⟨toDecimal_injective i j h1, h2⟩


/-! ## C28: the text of an Integer node determines the node -/

/-- An optional attribute in front of a text that does not begin like the attribute: the
two sides have the attribute together, with the same number, and the same text after. -/
theorem attribute_cancel (K : ustring) (q : Char) (hq1 : q.isDigit = false) (hq2 : q ≠ '-')
    (c1 c2 : Prop) [Decidable c1] [Decidable c2] (a b : Int) (T1 T2 : ustring)
    (hT1 : ¬ K <+: T1) (hT2 : ¬ K <+: T2)
    (h : (if c1 then [] else K ++ (toDecimal a ++ [q])) ++ T1
       = (if c2 then [] else K ++ (toDecimal b ++ [q])) ++ T2) :
    (c1 ↔ c2) ∧ (¬ c1 → a = b) ∧ T1 = T2 := by
  by_cases h1 : c1 <;> by_cases h2 : c2
  · simp only [h1, h2, if_true, List.nil_append] at h
    exact ⟨Iff.intro (fun _ => h2) (fun _ => h1), fun hn => absurd h1 hn, h⟩
  · simp only [h1, h2, if_true, if_false, List.nil_append, List.append_assoc] at h
    exact absurd ⟨_, h.symm⟩ hT1
  · simp only [h1, h2, if_true, if_false, List.nil_append, List.append_assoc] at h
    exact absurd ⟨_, h⟩ hT2
  · simp only [h1, h2, if_false, List.append_assoc, List.append_cancel_left_eq,
      List.singleton_append] at h
    obtain ⟨hab, hT⟩ := toDecimal_delimiter_cancel q hq1 hq2 a b T1 T2 h
    exact ⟨Iff.intro (fun hc => absurd hc h1) (fun hc => absurd hc h2), fun _ => hab, hT⟩

/-- The end of an Integer element, child text or self-closing, determines the value. -/
theorem valueText_injective (fieldName : ustring) (v w : Int)
    (h : (if v = 0 then "/>\n".toList
          else ">".toList ++ (toDecimal v ++ ("</".toList ++ (fieldName ++ ">\n".toList))))
       = (if w = 0 then "/>\n".toList
          else ">".toList ++ (toDecimal w ++ ("</".toList ++ (fieldName ++ ">\n".toList))))) :
    v = w := by
  have e1 : "/>\n".toList = '/' :: ">\n".toList := by decide
  have e2 : ">".toList = ['>'] := by decide
  have e3 : "</".toList = '<' :: "/".toList := by decide
  by_cases h1 : v = 0 <;> by_cases h2 : w = 0
  · rw [h1, h2]
  · simp only [h1, h2, if_true, if_false, e1, e2, List.singleton_append, List.cons.injEq] at h
    exact absurd h.1 (by decide)
  · simp only [h1, h2, if_true, if_false, e1, e2, List.singleton_append, List.cons.injEq] at h
    exact absurd h.1 (by decide)
  · simp only [h1, h2, if_false, e2, e3, List.singleton_append, List.cons.injEq, true_and,
      List.cons_append] at h
    exact (toDecimal_delimiter_cancel '<' (by decide) (by decide) v w _ _ h).1

/-- The text of an Integer element determines the value and the two bounds. -/
theorem integerElementText_injective (fieldName : ustring) (indent : Nat)
    (v1 m1 M1 v2 m2 M2 : Int)
    (h : integerElementText fieldName indent v1 m1 M1
       = integerElementText fieldName indent v2 m2 M2) :
    v1 = v2 ∧ m1 = m2 ∧ M1 = M2 := by
  have eq : "\"".toList = [quoteChar] := by decide
  have eKmin : " minimum=\"".toList = ' ' :: 'm' :: 'i' :: "nimum=\"".toList := by decide
  have eKmax : " maximum=\"".toList = ' ' :: 'm' :: 'a' :: "ximum=\"".toList := by decide
  have e1 : "/>\n".toList = '/' :: ">\n".toList := by decide
  have e2 : ">".toList = ['>'] := by decide
  -- the end of the element does not begin like an attribute
  have hval : ∀ (K : ustring) (v : Int), K = " minimum=\"".toList ∨ K = " maximum=\"".toList →
      ¬ K <+: (if v = 0 then "/>\n".toList
          else ">".toList ++ (toDecimal v ++ ("</".toList ++ (fieldName ++ ">\n".toList)))) := by
    intro K v hK
    rcases hK with hK | hK <;> by_cases hv : v = 0 <;>
      simp [hK, hv, eKmin, eKmax, e1, e2, List.cons_prefix_cons]
  -- the maximum attribute and the end do not begin like a minimum attribute
  have hmax : ∀ (M v : Int),
      ¬ " minimum=\"".toList <+:
        (if M = E57_INT64_MAX then [] else " maximum=\"".toList ++ (toDecimal M ++ [quoteChar]))
          ++ (if v = 0 then "/>\n".toList
          else ">".toList ++ (toDecimal v ++ ("</".toList ++ (fieldName ++ ">\n".toList)))) := by
    intro M v
    by_cases hM : M = E57_INT64_MAX
    · simp only [hM, if_true, List.nil_append]
      exact hval _ v (Or.inl rfl)
    · simp only [hM, if_false, eKmin, eKmax, List.cons_append, List.cons_prefix_cons]
      intro hc
      exact absurd hc.2.2.1 (by decide)
  unfold integerElementText at h
  simp only [List.append_assoc, List.append_cancel_left_eq, eq] at h
  obtain ⟨hc, hm, hrest⟩ := attribute_cancel " minimum=\"".toList quoteChar (by decide)
    (by decide) (m1 = E57_INT64_MIN) (m2 = E57_INT64_MIN) m1 m2 _ _ (hmax M1 v1) (hmax M2 v2) h
  obtain ⟨hc2, hM, hrest2⟩ := attribute_cancel " maximum=\"".toList quoteChar (by decide)
    (by decide) (M1 = E57_INT64_MAX) (M2 = E57_INT64_MAX) M1 M2 _ _
    (hval _ v1 (Or.inr rfl)) (hval _ v2 (Or.inr rfl)) hrest
  refine ⟨valueText_injective fieldName v1 v2 hrest2, ?_, ?_⟩
  · by_cases h1 : m1 = E57_INT64_MIN
    · rw [h1, hc.mp h1]
    · exact hm h1
  · by_cases h1 : M1 = E57_INT64_MAX
    · rw [h1, hc2.mp h1]
    · exact hM h1

/-- What `IntegerNodeImpl::writeXml` adds to the stream. -/
theorem IntegerNodeImpl.writeXml_contents (self : IntegerNodeImpl) (cf : CheckedFile)
    (indent : Nat) (forcedFieldName : Option ustring) :
    (self.writeXml cf indent forcedFieldName).contents
      = cf.contents ++ integerElementText (fieldNameOf self.toNodeImpl forcedFieldName) indent
          self.value_ self.minimum_ self.maximum_ := by
  unfold IntegerNodeImpl.writeXml integerElementText CheckedFile.contents
  by_cases h1 : self.minimum_ = E57_INT64_MIN <;> by_cases h2 : self.maximum_ = E57_INT64_MAX <;>
    by_cases h3 : self.value_ = 0 <;>
    simp [h1, h2, h3, CheckedFile.put, List.flatten_append]

/-- C28: Integer textual serialization loses no information. Two Integer nodes written
with the same field name and indent after the same stream contents, and producing the
same text, have the same value, the same minimum and the same maximum. -/
theorem IntegerNodeImpl.writeXml_injective (a b : IntegerNodeImpl) (cf : CheckedFile)
    (indent : Nat) (forcedFieldName : Option ustring)
    (hname : fieldNameOf a.toNodeImpl forcedFieldName = fieldNameOf b.toNodeImpl forcedFieldName)
    (h : (a.writeXml cf indent forcedFieldName).contents
       = (b.writeXml cf indent forcedFieldName).contents) :
    a.value_ = b.value_ ∧ a.minimum_ = b.minimum_ ∧ a.maximum_ = b.maximum_ := by
  rw [IntegerNodeImpl.writeXml_contents, IntegerNodeImpl.writeXml_contents, hname,
    List.append_cancel_left_eq] at h
  exact integerElementText_injective _ _ _ _ _ _ _ _ h

/-- C28, at an input: the Integer nodes with value 5 and with value 7, both with the
default bounds, are written as different texts. -/
theorem IntegerNodeImpl.writeXml_injective_witness :
    (IntegerNodeImpl.writeXml ⟨⟨['i'], false⟩, 5, E57_INT64_MIN, E57_INT64_MAX⟩ ⟨[], []⟩ 0
        none).contents
      ≠ (IntegerNodeImpl.writeXml ⟨⟨['i'], false⟩, 7, E57_INT64_MIN, E57_INT64_MAX⟩ ⟨[], []⟩ 0
        none).contents :=
  fun h =>
    absurd
      (IntegerNodeImpl.writeXml_injective ⟨⟨['i'], false⟩, 5, E57_INT64_MIN, E57_INT64_MAX⟩
        ⟨⟨['i'], false⟩, 7, E57_INT64_MIN, E57_INT64_MAX⟩ ⟨[], []⟩ 0 none rfl h).1
      (by decide)

end e57
